import Mathlib

/-!
# jsonparser: a shallow embedding of `internal/jsonparser`

The lexer (`lexer.go`) and the recursive-descent parser (`parser.go`) are
translated function by function.

* Go's `[]rune` is `List Char`; cursors are `Nat` (they start at 0 and only
  ever grow by one).
* A Go call either returns, panics, or does not return.  `Run α` has one
  constructor for each; `outOfFuel` stands for "the given budget of loop
  iterations and calls was not enough".
* `interface{}` as the parser uses it is the closed type `Any`: the untyped
  `nil`, the six kinds of JSON value, and `error`.
* The Unicode tables of Go's `unicode` package above Latin-1 are parameters
  (`GoEnv`); everything in Latin-1 is spelled out.
* `strconv.ParseFloat` is spelled out as far as its error goes on the texts of the
  lexer's tokens (`ParseFloat`); the `float64` it returns, `strconv.Quote` and its
  result on other texts are parameters (`GoEnv`).
-/

namespace JsonParser

/-! ## Outcomes of running Go code -/

/-- Run-time panics raised by the Go runtime itself; they implement `error`. -/
inductive RuntimeError where
  | indexOutOfRange (index len : Nat)
  | nilDereference
  | typeAssertion
  deriving DecidableEq, Repr

/-- The value handed to `panic`: a string (the explicit `panic("...")` calls of
the lexer and of `parseFloat`) or a run-time error. -/
inductive PanicValue where
  | str (msg : String)
  | runtime (e : RuntimeError)
  deriving DecidableEq, Repr

/-- Outcome of running a piece of Go code. -/
inductive Run (α : Type) where
  | done (a : α)
  | panic (p : PanicValue)
  | outOfFuel
  deriving DecidableEq, Repr

namespace Run

/-- Sequencing: a panic or an exhausted budget ends the computation. -/
def bind {α β : Type} (x : Run α) (f : α → Run β) : Run β :=
  match x with
  | done a => f a
  | panic p => panic p
  | outOfFuel => outOfFuel

instance : Monad Run where
  pure := Run.done
  bind := Run.bind

end Run

open Run

/-- Go's `s[i]` on a slice: a run-time panic when `i` is out of range. -/
def index {α : Type} (s : List α) (i : Nat) : Run α :=
  match s[i]? with
  | some a => done a
  | none => Run.panic (.runtime (.indexOutOfRange i s.length))

/-- Go's `s[a:b]` for `a ≤ b ≤ len(s)`. -/
def slice {α : Type} (s : List α) (a b : Nat) : List α :=
  (s.drop a).take (b - a)

/-- A `for cond(end) { end++ }` loop.  Every such loop of the lexer stops at the
end of the input at the latest, so it is run with a budget of `len(s) + 1`
tests. -/
def loopWhile (cond : Nat → Bool) : Nat → Nat → Nat
  | 0, e => e
  | fuel + 1, e => if cond e then loopWhile cond fuel (e + 1) else e

/-! ## The Go standard library -/

/-- What the embedding takes from Go's standard library as a parameter: the
Unicode tables `Nd` and `L` above Latin-1 (`unicode.IsDigit`, `unicode.IsLetter`);
`strconv.Quote`; the IEEE-754 bit pattern of the `float64` nearest to a decimal
literal; and `strconv.ParseFloat(s, 64)` on the texts for which `ParseFloat`
below does not settle the result itself (the bit pattern of the `float64`, or the
text of the error). -/
structure GoEnv where
  digit : Char → Bool
  letter : Char → Bool
  parseFloat : String → Except String Nat
  floatBits : String → Nat
  quote : String → String

/-- Go's `unicode.MaxLatin1`. -/
def maxLatin1 : Nat := 0xFF

/-- Go's `unicode.IsSpace`: the White_Space property. -/
def isSpace (c : Char) : Bool :=
  let n := c.toNat
  (0x09 ≤ n && n ≤ 0x0D) || n == 0x20 || n == 0x85 || n == 0xA0 || n == 0x1680 ||
  (0x2000 ≤ n && n ≤ 0x200A) || n == 0x2028 || n == 0x2029 || n == 0x202F ||
  n == 0x205F || n == 0x3000

/-- Go's `unicode.IsDigit`: `'0'..'9'` in Latin-1, the table `Nd` above. -/
def isDigit (E : GoEnv) (c : Char) : Bool :=
  if c.toNat ≤ maxLatin1 then (0x30 ≤ c.toNat && c.toNat ≤ 0x39) else E.digit c

/-- Go's `unicode.IsLetter`: in Latin-1 the letters are `A-Z`, `a-z`, U+00AA,
U+00B5, U+00BA, U+00C0-U+00D6, U+00D8-U+00F6 and U+00F8-U+00FF; above Latin-1
the table `L`. -/
def isLetter (E : GoEnv) (c : Char) : Bool :=
  let n := c.toNat
  if n ≤ maxLatin1 then
    (0x41 ≤ n && n ≤ 0x5A) || (0x61 ≤ n && n ≤ 0x7A) || n == 0xAA || n == 0xB5 ||
    n == 0xBA || (0xC0 ≤ n && n ≤ 0xD6) || (0xD8 ≤ n && n ≤ 0xF6) ||
    (0xF8 ≤ n && n ≤ 0xFF)
  else E.letter c

/-- The ASCII digits `0` to `9`. -/
def isAsciiDigit (c : Char) : Bool :=
  0x30 ≤ c.toNat && c.toNat ≤ 0x39

/-- The number that a run of ASCII digits denotes. -/
def decValue (ds : List Char) : Nat :=
  ds.foldl (fun a c => a * 10 + (c.toNat - 0x30)) 0

/-- The least magnitude that `strconv.ParseFloat(s, 64)` rounds to an infinity:
`2^1024 - 2^970`, half way between the largest `float64`, `2^1024 - 2^971`, and
`2^1024` (the rounding is to the nearest `float64`, to the even one of two). -/
@[irreducible] def floatBound : Nat := 2 ^ 1024 - 2 ^ 970

/-- The digits before and after the `.` of a plain decimal literal: an optional
`-`, one or more ASCII digits, a `.` and one or more ASCII digits; `none` for any
other text. -/
def plainDecimal (cs : List Char) : Option (List Char × List Char) :=
  let body := if cs.head? = some '-' then cs.tail else cs
  match body.dropWhile isAsciiDigit with
  | '.' :: fs =>
    if body.takeWhile isAsciiDigit ≠ [] ∧ fs ≠ [] ∧ fs.all isAsciiDigit = true then
      some (body.takeWhile isAsciiDigit, fs)
    else none
  | _ => none

/-- Go's `strconv.ParseFloat(s, 64)`.  A text with a character outside ASCII is
never read to its end: `invalid syntax`.  A plain decimal literal is well formed,
and the only error is `value out of range`, when its magnitude rounds to an
infinity; a magnitude that rounds to zero is no error.  On any other text the
result is taken from the environment. -/
def ParseFloat (E : GoEnv) (s : String) : Except String Nat :=
  if s.toList.any (fun c => decide (0x80 ≤ c.toNat)) then
    .error ("strconv.ParseFloat: parsing " ++ E.quote s ++ ": invalid syntax")
  else
    match plainDecimal s.toList with
    | some (ds, fs) =>
      if floatBound * 10 ^ fs.length ≤ decValue (ds ++ fs) then
        .error ("strconv.ParseFloat: parsing \"" ++ s ++ "\": value out of range")
      else .ok (E.floatBits s)
    | none => E.parseFloat s

/-- Value of a run of ASCII digits, `none` when a character is not one. -/
def digitsValue : List Char → Nat → Option Nat
  | [], acc => some acc
  | c :: cs, acc =>
    if 0x30 ≤ c.toNat && c.toNat ≤ 0x39 then digitsValue cs (acc * 10 + (c.toNat - 0x30))
    else none

/-- Go's `strconv.Atoi` where `int` has 64 bits: an optional sign, one or more
ASCII digits, and a value between `-2^63` and `2^63 - 1`; `none` when it returns
an error. -/
def Atoi (s : String) : Option Int :=
  let body (neg : Bool) (ds : List Char) : Option Int :=
    match ds with
    | [] => none
    | _ :: _ =>
      match digitsValue ds 0 with
      | none => none
      | some n =>
        if neg then (if n ≤ 2 ^ 63 then some (-(n : Int)) else none)
        else (if n < 2 ^ 63 then some (n : Int) else none)
  match s.toList with
  | [] => none
  | c :: cs =>
    if c = '-' then body true cs
    else if c = '+' then body false cs
    else body false (c :: cs)

/-! ## lexer.go -/

inductive tokenKind where
  | stringToken
  | intToken
  | floatToken
  | booleanToken
  | nullToken
  | symbolToken
  | endOfFileToken
  deriving DecidableEq, Repr

open tokenKind

structure token where
  kind : tokenKind
  value : String
  lineNumber : Int := 0
  linePosition : Int := 0
  deriving DecidableEq, Repr

def hasConsumedAllRunes (s : List Char) (cursor : Nat) : Bool :=
  decide (cursor ≥ s.length)

def safeGetCurrentRune (s : List Char) (cursor : Nat) : Char :=
  if hasConsumedAllRunes s cursor then Char.ofNat 0 else s.getD cursor (Char.ofNat 0)

def safeGetNextRune (s : List Char) (cursor : Nat) : Char :=
  if cursor + 1 ≥ s.length then Char.ofNat 0 else s.getD (cursor + 1) (Char.ofNat 0)

def consumeLineReturn (s : List Char) (cursor : Nat) : Nat × Nat :=
  let c := safeGetCurrentRune s cursor
  if c = '\n' then (1, cursor + 1)
  else if c = '\r' then (1, cursor + 1)
  else (0, cursor)

def consumeWhiteSpace (s : List Char) (cursor : Nat) : Run Nat := do
  let c ← index s cursor
  if isSpace c then return cursor + 1
  return cursor

def makeSymbolToken (s : List Char) (cursor : Nat) : Run (Nat × Option token) := do
  let c ← index s cursor
  if c = '[' ∨ c = ']' ∨ c = '{' ∨ c = '}' ∨ c = ':' ∨ c = ',' then
    return (cursor + 1, some { kind := symbolToken, value := String.mk [c] })
  return (cursor, none)

def makeStringToken (s : List Char) (cursor : Nat) : Run (Nat × Option token) := do
  let start := cursor
  let c ← index s start
  if c = '"' then
    let e := loopWhile
      (fun e => safeGetCurrentRune s e != '"' && !hasConsumedAllRunes s e)
      (s.length + 1) (cursor + 1)
    if hasConsumedAllRunes s e then
      Run.panic (.str "Unterminated string")
    else
      let e := e + 1
      return (e, some { kind := stringToken, value := String.mk (slice s (start + 1) (e - 1)) })
  else
    return (cursor, none)

def makeNumberToken (E : GoEnv) (s : List Char) (cursor : Nat) : Run (Nat × Option token) := do
  let c ← index s cursor
  let isNegative := decide (c = '-')
  let start := if isNegative then cursor + 1 else cursor
  let d ← index s start
  if isDigit E d then
    let e := loopWhile (fun e => isDigit E (safeGetCurrentRune s e)) (s.length + 1) start
    if safeGetCurrentRune s e = '.' then
      if !isDigit E (safeGetNextRune s e) then
        Run.panic (.str "couldn't parse float")
      else
        let e := loopWhile (fun e => isDigit E (safeGetCurrentRune s e)) (s.length + 1) (e + 1)
        let value := slice s start e
        let value := if isNegative then '-' :: value else value
        return (e, some { kind := floatToken, value := String.mk value })
    else
      let value := slice s start e
      let value := if isNegative then '-' :: value else value
      return (e, some { kind := intToken, value := String.mk value })
  else if isNegative then
    Run.panic (.str "no number after -")
  else
    return (cursor, none)

def makeBooleanToken (E : GoEnv) (s : List Char) (cursor : Nat) : Nat × Option token :=
  let start := cursor
  let e := loopWhile (fun e => isLetter E (safeGetCurrentRune s e)) (s.length + 1) cursor
  let value := String.mk (slice s start e)
  if value = "true" ∨ value = "false" then
    (e, some { kind := booleanToken, value := value })
  else (cursor, none)

def makeNullToken (E : GoEnv) (s : List Char) (cursor : Nat) : Nat × Option token :=
  let start := cursor
  let e := loopWhile (fun e => isLetter E (safeGetCurrentRune s e)) (s.length + 1) cursor
  let value := String.mk (slice s start e)
  if value = "null" then
    (e, some { kind := nullToken, value := value })
  else (cursor, none)

/-- The variables of the loop of `buildTokens`. -/
structure LexState where
  cursor : Nat
  tokens : List token
  lineNumber : Int
  linePosition : Int
  deriving DecidableEq, Repr

/-- The variables of `buildTokens` when it enters its loop. -/
def LexState.init : LexState :=
  { cursor := 0, tokens := [], lineNumber := 1, linePosition := 1 }

/-- The four lines that follow every successful recognizer in `buildTokens`:
the token gets its line and `cursor - linePosition - len(t.value)` (`len` of a
Go string counts bytes) and is appended. -/
def emit (st : LexState) (cursor : Nat) (t : token) : LexState :=
  { st with
    cursor := cursor
    tokens := st.tokens ++ [{ t with
      lineNumber := st.lineNumber
      linePosition := (cursor : Int) - st.linePosition - (t.value.utf8ByteSize : Int) }] }

/-- One iteration of the loop of `buildTokens`, entered with
`cursor < len(l.source)`. -/
def lexStep (E : GoEnv) (s : List Char) (st : LexState) : Run LexState := do
  let cursor := st.cursor
  let (ln, c) := consumeLineReturn s cursor
  let st := if ln ≠ 0 then
      { st with lineNumber := st.lineNumber + 1, linePosition := (cursor : Int) }
    else st
  if c ≠ cursor then
    return { st with cursor := c }
  let c ← consumeWhiteSpace s cursor
  if c ≠ cursor then
    return { st with cursor := c }
  let (cursor, t) ← makeSymbolToken s cursor
  match t with
  | some t => return emit st cursor t
  | none =>
  let (cursor, t) ← makeStringToken s cursor
  match t with
  | some t => return emit st cursor t
  | none =>
  let (cursor, t) ← makeNumberToken E s cursor
  match t with
  | some t => return emit st cursor t
  | none =>
  let (cursor, t) := makeBooleanToken E s cursor
  match t with
  | some t => return emit st cursor t
  | none =>
  let (cursor, t) := makeNullToken E s cursor
  match t with
  | some t => return emit st cursor t
  | none =>
  Run.panic (.str ("failed to parse JSON at (line " ++ toString st.lineNumber ++
    ", column " ++ toString st.linePosition ++ ")"))

/-- The loop of `buildTokens`: `fuel` bounds the number of iterations. -/
def buildTokensLoop (E : GoEnv) (s : List Char) : Nat → LexState → Run (List token)
  | 0, _ => outOfFuel
  | fuel + 1, st =>
    if st.cursor < s.length then
      match lexStep E s st with
      | .done st => buildTokensLoop E s fuel st
      | .panic p => .panic p
      | .outOfFuel => .outOfFuel
    else done st.tokens

def buildTokens (E : GoEnv) (fuel : Nat) (source : List Char) : Run (List token) :=
  buildTokensLoop E source fuel LexState.init

/-! ## parser.go -/

/-- The `error` values the parser handles: the result of `getTokenParseError`
(kept as the arguments of its format `"%s at [ %s ] (line %d, column %d)"`), the
`fmt.Errorf("failed to parse JSON")` of `Parse`, and a recovered run-time panic. -/
inductive GoError where
  | token (msg value : String) (line column : Int)
  | plain (msg : String)
  | runtime (e : RuntimeError)
  deriving DecidableEq, Repr

/-- The `interface{}` values of the parser: `nil` (both "no match" and JSON
`null`), `string`, `int`, `float64`, `bool`, `[]interface{}`,
`map[string]interface{}` (the entries in the order of first insertion) and
`error`. -/
inductive Any where
  | nil
  | str (s : String)
  | int (n : Int)
  | float (bits : Nat)
  | bool (b : Bool)
  | slice (xs : List Any)
  | map (m : List (String × Any))
  | error (e : GoError)
  deriving Repr

/-- Go's `m[key] = val`. -/
def mapSet (m : List (String × Any)) (key : String) (val : Any) : List (String × Any) :=
  match m with
  | [] => [(key, val)]
  | (k, v) :: rest => if k = key then (key, val) :: rest else (k, v) :: mapSet rest key val

def hasCompletedTokens (t : List token) (cursor : Nat) : Bool :=
  decide (cursor ≥ t.length)

/-- A `*token` is `Option token`; `none` is the nil pointer. -/
def safeGetToken (t : List token) (cursor : Nat) : Option token :=
  if !hasCompletedTokens t cursor then t[cursor]? else none

/-- Reading `t.value` of a nil `*token` is a run-time panic. -/
def getTokenParseError (msg : String) (t : Option token) : Run GoError :=
  match t with
  | some t => done (.token msg t.value t.lineNumber t.linePosition)
  | none => Run.panic (.runtime .nilDereference)

def parseInteger (t : List token) (cursor : Nat) : Run (Nat × Any) := do
  let tok ← index t cursor
  if tok.kind = intToken then
    match Atoi tok.value with
    | none => return (cursor, .nil)
    | some v => return (cursor + 1, .int v)
  else
    return (cursor, .nil)

def parseFloat (E : GoEnv) (t : List token) (cursor : Nat) : Run (Nat × Any) := do
  let tok ← index t cursor
  if tok.kind = floatToken then
    match ParseFloat E tok.value with
    | .error err =>
      Run.panic (.str ("Couldn't parse float at token [" ++ toString cursor ++ "]. " ++ err))
    | .ok v => return (cursor + 1, .float v)
  else
    return (cursor, .nil)

def parseBoolean (t : List token) (cursor : Nat) : Run (Nat × Any) := do
  let tok ← index t cursor
  if tok.kind = booleanToken then
    if tok.value = "true" then return (cursor + 1, .bool true)
    else if tok.value = "false" then return (cursor + 1, .bool false)
    else return (cursor, .nil)
  else
    return (cursor, .nil)

def parseString (t : List token) (cursor : Nat) : Run (Nat × Any) :=
  match safeGetToken t cursor with
  | some tt => if tt.kind = stringToken then done (cursor + 1, .str tt.value) else done (cursor, .nil)
  | none => done (cursor, .nil)

def parseNil (t : List token) (cursor : Nat) : Run (Nat × Any) :=
  match safeGetToken t cursor with
  | some tt => if tt.kind = nullToken then done (cursor + 1, .nil) else done (cursor, .nil)
  | none => done (cursor, .nil)

def parseJSONKey (t : List token) (cursor : Nat) : Run (Nat × Any) :=
  match safeGetToken t cursor with
  | none => do
    let tok ← index t cursor
    let err ← getTokenParseError "failed to parse JSON" (some tok)
    return (cursor, .error err)
  | some k => done (cursor + 1, .str k.value)

/-- The loop `for _, f := range x` of `parseJSONValue`: the first recognizer
that moves the cursor or returns an `error` decides; `none` when the loop runs
to its end. -/
def tryRecognizers (t : List token) (cursor : Nat) :
    List (List token → Nat → Run (Nat × Any)) → Run (Option (Nat × Any))
  | [] => done none
  | f :: fs =>
    match f t cursor with
    | .done (c, v) =>
      if c ≠ cursor then done (some (c, v))
      else match v with
        | .error e => done (some (cursor, .error e))
        | _ => tryRecognizers t cursor fs
    | .panic p => .panic p
    | .outOfFuel => .outOfFuel

mutual

/-- The `for` loop of `parseArray`, entered with the variables `idx` and `s`. -/
def parseArrayLoop (E : GoEnv) :
    Nat → List token → Nat → Nat → List Any → Run (Nat × Any)
  | 0, _, _, _, _ => .outOfFuel
  | fuel + 1, t, cursor, idx, s =>
    match safeGetToken t idx with
    | none => do
      let e ← getTokenParseError "failed to parse JSON" none
      return (cursor, .error e)
    | some tt => do
      let (vc, val) ← parseJSONValue E fuel t idx
      if vc ≠ idx then
        let idx := vc
        let s := s ++ [val]
        match safeGetToken t idx with
        | none => parseArrayLoop E fuel t cursor idx s
        | some nt =>
          if nt.value = "," then
            match safeGetToken t (idx + 1) with
            | none => parseArrayLoop E fuel t cursor (idx + 1) s
            | some ntt =>
              if ntt.kind = symbolToken then do
                let msg := "unexpected " ++ nt.value ++ " after array element in JSON"
                let e ← getTokenParseError msg (some tt)
                return (cursor, .error e)
              else parseArrayLoop E fuel t cursor (idx + 1) s
          else parseArrayLoop E fuel t cursor idx s
      else if tt.value = "]" then
        return (idx + 1, .slice s)
      else do
        let e ← getTokenParseError "expected ',' or ']' before array element in JSON" (some tt)
        return (cursor, .error e)

termination_by structural fuel _ _ _ _ => fuel

def parseArray (E : GoEnv) : Nat → List token → Nat → Run (Nat × Any)
  | 0, _, _ => .outOfFuel
  | fuel + 1, t, cursor =>
    match safeGetToken t cursor with
    | none => done (cursor, .nil)
    | some tt =>
      if tt.value = "[" then parseArrayLoop E fuel t cursor (cursor + 1) []
      else done (cursor, .nil)

termination_by structural fuel _ _ => fuel

/-- The `for` loop of `parseObject`, entered with the variables `idx` and `m`. -/
def parseObjectLoop (E : GoEnv) :
    Nat → List token → Nat → Nat → List (String × Any) → Run (Nat × Any)
  | 0, _, _, _, _ => .outOfFuel
  | fuel + 1, t, cursor, idx, m =>
    match safeGetToken t idx with
    | none => do
      let e ← getTokenParseError "failed to parse JSON" none
      return (cursor, .error e)
    | some tt =>
      match tt.kind with
      | stringToken => do
        let (idx, key) ← parseJSONKey t idx
        match safeGetToken t idx with
        | none => do
          let e ← getTokenParseError "expected ':' before property value in JSON" none
          return (cursor, .error e)
        | some _ =>
          let idx := idx + 1
          let (vc, val) ← parseJSONValue E fuel t idx
          if vc = idx then
            match val with
            | .error e => return (cursor, .error e)
            | _ => Run.panic (.runtime .typeAssertion)
          else
            let idx := vc
            match key with
            | .str k =>
              let m := mapSet m k val
              match safeGetToken t idx with
              | none => parseObjectLoop E fuel t cursor idx m
              | some nt =>
                if nt.value = "," then
                  match safeGetToken t (idx + 1) with
                  | none => parseObjectLoop E fuel t cursor (idx + 1) m
                  | some ntt =>
                    if ntt.kind = symbolToken then do
                      let msg := "unexpected " ++ nt.value ++ " after array element in JSON"
                      let e ← getTokenParseError msg (some tt)
                      return (cursor, .error e)
                    else parseObjectLoop E fuel t cursor (idx + 1) m
                else parseObjectLoop E fuel t cursor idx m
            | _ => Run.panic (.runtime .typeAssertion)
      | symbolToken =>
        if tt.value = "\x7d" then done (idx + 1, .map m)
        else parseObjectLoop E fuel t cursor idx m
      | _ => do
        let e ← getTokenParseError "expected ',' or '\x7d' before property value in JSON" (some tt)
        return (cursor, .error e)

termination_by structural fuel _ _ _ _ => fuel

def parseObject (E : GoEnv) : Nat → List token → Nat → Run (Nat × Any)
  | 0, _, _ => .outOfFuel
  | fuel + 1, t, cursor =>
    match safeGetToken t cursor with
    | none => done (cursor, .nil)
    | some tt =>
      if tt.value = "\x7b" then parseObjectLoop E fuel t cursor (cursor + 1) []
      else done (cursor, .nil)

termination_by structural fuel _ _ => fuel

def parseJSONValue (E : GoEnv) : Nat → List token → Nat → Run (Nat × Any)
  | 0, _, _ => .outOfFuel
  | fuel + 1, t, cursor => do
    let r ←
      if !hasCompletedTokens t cursor then
        tryRecognizers t cursor
          [parseArray E fuel, parseBoolean, parseFloat E, parseInteger, parseNil,
           parseString, parseObject E fuel]
      else done none
    match r with
    | some cv => return cv
    | none =>
      let tok ← index t cursor
      let err ← getTokenParseError "failed to parse JSON" (some tok)
      return (cursor, .error err)
termination_by structural fuel _ _ => fuel

end

/-- The deferred `recover()` of `Parse`: a panic value that is an `error` (a
run-time error) becomes `err`, any other one becomes
`fmt.Errorf("failed to parse JSON")`; `v` keeps what it held. -/
def recover (v : Any) (p : PanicValue) : Any × Option GoError :=
  match p with
  | .runtime e => (v, some (.runtime e))
  | .str _ => (v, some (.plain "failed to parse JSON"))

/-- The end of `Parse`: `err = v` when `v` is an `error`. -/
def finish (v : Any) : Any × Option GoError :=
  match v with
  | .error e => (v, some e)
  | _ => (v, none)

/-- The method `Parse` of `parser`, as a function of `p.source`.  The result is
the pair `(v, err)`, `err = none` being Go's nil error; `fuel` bounds the loop
iterations of the lexer and the calls and loop iterations of the parser. -/
def Parse (E : GoEnv) (fuel : Nat) (source : String) : Run (Any × Option GoError) :=
  let s := source.toList
  match buildTokens E fuel s with
  | .outOfFuel => .outOfFuel
  | .panic p => done (recover .nil p)
  | .done tokens =>
    match parseJSONValue E fuel tokens 0 with
    | .outOfFuel => .outOfFuel
    | .panic p => done (recover .nil p)
    | .done (cursor, v) =>
      if cursor ≠ tokens.length then
        -- the `error` built here is dropped by the source; only indexing can fail
        match (index tokens cursor >>= fun tok =>
            getTokenParseError "failed to parse JSON" (some tok)) with
        | .outOfFuel => .outOfFuel
        | .panic p => done (recover v p)
        | .done _ => done (finish v)
      else done (finish v)

/-! ## Notions used to state the properties -/

/-- `LexReach E s n st`: on the input `s` the loop of `buildTokens` begins its
iteration number `n` (counted from 0) with the variables `st`. -/
inductive LexReach (E : GoEnv) (s : List Char) : Nat → LexState → Prop where
  | start : LexReach E s 0 LexState.init
  | step {n : Nat} {st st' : LexState} :
      LexReach E s n st → st.cursor < s.length → lexStep E s st = done st' →
      LexReach E s (n + 1) st'

/-- The malformed numeric forms at a token start `c` of the input `s`:
a `-` that is not followed by a digit (or by nothing); a run of digits, after an
optional `-`, that is followed by a `.` which is not followed by a digit; a `.`. -/
def MalformedNumberAt (E : GoEnv) (s : List Char) (c : Nat) : Prop :=
  (s[c]? = some '-' ∧ ∀ d, s[c + 1]? = some d → isDigit E d = false) ∨
  (∃ start e : Nat,
    ((start = c ∧ ∀ d, s[c]? = some d → isSpace d = false) ∨
      (s[c]? = some '-' ∧ start = c + 1)) ∧
    start < e ∧
    (∀ i, start ≤ i → i < e → ∃ d, s[i]? = some d ∧ isDigit E d = true) ∧
    s[e]? = some '.' ∧
    ∀ d, s[e + 1]? = some d → isDigit E d = false) ∨
  s[c]? = some '.'

/-- Whether all characters of an input are within Latin-1. -/
def isLatin1 (s : List Char) : Bool :=
  s.all (fun c => decide (c.toNat ≤ maxLatin1))

/-- Whether a token sequence holds a token of kind Float. -/
def hasFloatToken (t : List token) : Bool :=
  t.any (fun tok => decide (tok.kind = floatToken))

mutual

/-- Equality test on `Any`, for checking a concrete result. -/
def Any.beq : Any → Any → Bool
  | .nil, .nil => true
  | .str a, .str b => a == b
  | .int a, .int b => a == b
  | .float a, .float b => a == b
  | .bool a, .bool b => a == b
  | .slice xs, .slice ys => Any.beqList xs ys
  | .map m, .map n => Any.beqMap m n
  | .error a, .error b => a == b
  | _, _ => false

def Any.beqList : List Any → List Any → Bool
  | [], [] => true
  | x :: xs, y :: ys => Any.beq x y && Any.beqList xs ys
  | _, _ => false

def Any.beqMap : List (String × Any) → List (String × Any) → Bool
  | [], [] => true
  | (k, x) :: xs, (l, y) :: ys => k == l && Any.beq x y && Any.beqMap xs ys
  | _, _ => false

end

/-- Equality test on the outcomes of a recognizer. -/
def resultBeq : Run (Nat × Any) → Run (Nat × Any) → Bool
  | .done (c, v), .done (c', v') => c == c' && Any.beq v v'
  | .panic p, .panic q => p == q
  | .outOfFuel, .outOfFuel => true
  | _, _ => false

/-- What the parser is running: a call of `parseJSONValue` at a cursor, or an
iteration of the loop of `parseArray` or of `parseObject` (itself called at
`cursor`) that begins with the variables `idx` and `s`, resp. `m`. -/
inductive Frame where
  | value (cursor : Nat)
  | arrayLoop (cursor idx : Nat) (s : List Any)
  | objectLoop (cursor idx : Nat) (m : List (String × Any))

/-- The cursor a frame was called at. -/
def Frame.cursor : Frame → Nat
  | .value cursor => cursor
  | .arrayLoop cursor _ _ => cursor
  | .objectLoop cursor _ _ => cursor

/-- Whether a frame is an iteration of a loop. -/
def Frame.isLoop : Frame → Bool
  | .value _ => false
  | _ => true

/-- What a frame returns. -/
def Frame.run (E : GoEnv) (fuel : Nat) (t : List token) : Frame → Run (Nat × Any)
  | .value cursor => parseJSONValue E fuel t cursor
  | .arrayLoop cursor idx s => parseArrayLoop E fuel t cursor idx s
  | .objectLoop cursor idx m => parseObjectLoop E fuel t cursor idx m

/-- `Invokes E t f a g b o`: on the tokens `t`, frame `a` run with budget `f` runs
frame `b` with budget `g`: as the body of the array or object that starts at the
cursor of a value, as the value of an element or of a property, or as the next
iteration of its loop.  `o` is the first token of the element when `a` is an
array loop and `b` the value of its element, and `none` otherwise. -/
inductive Invokes (E : GoEnv) (t : List token) :
    Nat → Frame → Nat → Frame → Option token → Prop where
  | arrayOpen {f c : Nat} {tt : token} :
      safeGetToken t c = some tt → tt.value = "[" →
      Invokes E t (f + 2) (.value c) f (.arrayLoop c (c + 1) []) none
  | arrayElement {f c idx : Nat} {s : List Any} {tt : token} :
      safeGetToken t idx = some tt →
      Invokes E t (f + 1) (.arrayLoop c idx s) f (.value idx) (some tt)
  | arrayNext {f c idx vc : Nat} {s : List Any} {tt : token} {val : Any} :
      safeGetToken t idx = some tt → parseJSONValue E f t idx = done (vc, val) → vc ≠ idx →
      (∀ nt, safeGetToken t vc = some nt → nt.value ≠ ",") →
      Invokes E t (f + 1) (.arrayLoop c idx s) f (.arrayLoop c vc (s ++ [val])) none
  | arrayNextComma {f c idx vc : Nat} {s : List Any} {tt nt : token} {val : Any} :
      safeGetToken t idx = some tt → parseJSONValue E f t idx = done (vc, val) → vc ≠ idx →
      safeGetToken t vc = some nt → nt.value = "," →
      (∀ ntt, safeGetToken t (vc + 1) = some ntt → ntt.kind ≠ symbolToken) →
      Invokes E t (f + 1) (.arrayLoop c idx s) f (.arrayLoop c (vc + 1) (s ++ [val])) none
  | objectOpen {f c : Nat} {tt : token} :
      safeGetToken t c = some tt → tt.kind = symbolToken → tt.value = "\x7b" →
      Invokes E t (f + 2) (.value c) f (.objectLoop c (c + 1) []) none
  | objectValue {f c idx : Nat} {m : List (String × Any)} {tt ct : token} :
      safeGetToken t idx = some tt → tt.kind = stringToken →
      safeGetToken t (idx + 1) = some ct →
      Invokes E t (f + 1) (.objectLoop c idx m) f (.value (idx + 2)) none
  | objectNext {f c idx vc : Nat} {m : List (String × Any)} {tt ct : token} {val : Any} :
      safeGetToken t idx = some tt → tt.kind = stringToken →
      safeGetToken t (idx + 1) = some ct →
      parseJSONValue E f t (idx + 2) = done (vc, val) → vc ≠ idx + 2 →
      (∀ nt, safeGetToken t vc = some nt → nt.value ≠ ",") →
      Invokes E t (f + 1) (.objectLoop c idx m) f (.objectLoop c vc (mapSet m tt.value val))
        none
  | objectNextComma {f c idx vc : Nat} {m : List (String × Any)} {tt ct nt : token}
      {val : Any} :
      safeGetToken t idx = some tt → tt.kind = stringToken →
      safeGetToken t (idx + 1) = some ct →
      parseJSONValue E f t (idx + 2) = done (vc, val) → vc ≠ idx + 2 →
      safeGetToken t vc = some nt → nt.value = "," →
      (∀ ntt, safeGetToken t (vc + 1) = some ntt → ntt.kind ≠ symbolToken) →
      Invokes E t (f + 1) (.objectLoop c idx m) f
        (.objectLoop c (vc + 1) (mapSet m tt.value val)) none
  | objectAgain {f c idx : Nat} {m : List (String × Any)} {tt : token} :
      safeGetToken t idx = some tt → tt.kind = symbolToken → tt.value ≠ "\x7d" →
      Invokes E t (f + 1) (.objectLoop c idx m) f (.objectLoop c idx m) none

/-- The outermost of two enclosing array elements: the first one when there is
one. -/
def outermost (o o' : Option token) : Option token :=
  match o with
  | some tt => some tt
  | none => o'

/-- `Runs E t f a g b o`: frame `b` with budget `g` is `a` with budget `f` or is run,
through any number of frames, in the course of it; `o` is the first token of the
outermost array element among these frames, `none` when none of them is the
value of an element of an array. -/
inductive Runs (E : GoEnv) (t : List token) :
    Nat → Frame → Nat → Frame → Option token → Prop where
  | refl {f : Nat} {a : Frame} : Runs E t f a f a none
  | tail {f g h : Nat} {a b c : Frame} {o o' : Option token} :
      Runs E t f a g b o → Invokes E t g b h c o' → Runs E t f a h c (outermost o o')

/-- The error that comes out of the enclosing frames: an array whose element does
not parse (at a token other than `]`) returns its own error at the first token of
that element, whatever the error of the element; every other frame hands the
error on. -/
def errorThrough (o : Option token) (e : GoError) : GoError :=
  match o with
  | some tt =>
    .token "expected ',' or ']' before array element in JSON" tt.value tt.lineNumber
      tt.linePosition
  | none => e

/-- Every frame but a value that stands at a token with the text `]`: when such a
frame returns an error with its cursor, the frame that runs it returns one too. -/
def Frame.notAtClose (t : List token) : Frame → Prop
  | .value c => ∃ tt, safeGetToken t c = some tt ∧ tt.value ≠ "]"
  | _ => True

/-- An environment for concrete runs: no digit and no letter above Latin-1, a
`strconv.Quote` that only adds the quotes, the `float64` of the literal `-3.25`
only, and `invalid syntax` for the texts that `ParseFloat` leaves to it. -/
def latin1Env : GoEnv where
  digit := fun _ => false
  letter := fun _ => false
  parseFloat := fun s =>
    .error ("strconv.ParseFloat: parsing \"" ++ s ++ "\": invalid syntax")
  floatBits := fun s => if s = "-3.25" then 0xC00A000000000000 else 0
  quote := fun s => "\"" ++ s ++ "\""

/-- Whether an `interface{}` value is an `error`. -/
def Any.isError : Any → Bool
  | .error _ => true
  | _ => false

/-- What a recognizer called at cursor `i` may return: a cursor between `i` and
`len(t)`, and an `error` only with the cursor `i`. -/
def CursorOK (t : List token) (i : Nat) (r : Nat × Any) : Prop :=
  i ≤ r.1 ∧ r.1 ≤ t.length ∧ (r.2.isError = true → r.1 = i) ∧ (i < r.1 → r.2.isError = false)

/-- The numeric literal made of an optional `-`, the digits `ds` and, when `fs` is
not empty, a `.` and the digits `fs`. -/
def numberLiteral (neg : Bool) (ds fs : List Char) : List Char :=
  (if neg then ['-'] else []) ++ ds ++ (if fs = [] then [] else '.' :: fs)

/-- What the parser reads of a token: its kind and its text. -/
def token.core (t : token) : tokenKind × String :=
  (t.kind, t.value)

/-- The six symbols of `makeSymbolToken`. -/
def isSymbol (c : Char) : Bool :=
  c = '[' || c = ']' || c = '\x7b' || c = '\x7d' || c = ':' || c = ','

/-- The kind of the token of the words `true`, `false` and `null`. -/
def wordKind (w : String) : tokenKind :=
  if w = "null" then nullToken else booleanToken

/-- `Lexes E s cores`: the text `s` is a sequence of white space characters,
symbols, quoted texts without an inner quote, integer literals of ASCII digits
that neither a digit nor a `.` follows, and words `true`, `false` and `null`
that no letter follows; `cores` lists the kinds and texts of these lexemes. -/
inductive Lexes (E : GoEnv) : List Char → List (tokenKind × String) → Prop where
  | nil : Lexes E [] []
  | space (x : Char) (rest : List Char) (cores : List (tokenKind × String)) :
      isSpace x = true → Lexes E rest cores → Lexes E (x :: rest) cores
  | symbol (x : Char) (rest : List Char) (cores : List (tokenKind × String)) :
      isSymbol x = true → Lexes E rest cores →
      Lexes E (x :: rest) ((symbolToken, String.mk [x]) :: cores)
  | string (body rest : List Char) (cores : List (tokenKind × String)) :
      '"' ∉ body → Lexes E rest cores →
      Lexes E (('"' :: (body ++ ['"'])) ++ rest) ((stringToken, String.mk body) :: cores)
  | int (neg : Bool) (ds rest : List Char) (cores : List (tokenKind × String)) :
      ds ≠ [] → (∀ d ∈ ds, isAsciiDigit d = true) →
      (∀ d, rest.head? = some d → isDigit E d = false ∧ d ≠ '.') → Lexes E rest cores →
      Lexes E (numberLiteral neg ds [] ++ rest)
        ((intToken, String.mk (numberLiteral neg ds [])) :: cores)
  | word (w : String) (rest : List Char) (cores : List (tokenKind × String)) :
      w = "true" ∨ w = "false" ∨ w = "null" →
      (∀ d, rest.head? = some d → isLetter E d = false) → Lexes E rest cores →
      Lexes E (w.toList ++ rest) ((wordKind w, w) :: cores)

/-- The decimal digits of `n`, most significant first, in front of `acc`; `fuel`
bounds the number of digits. -/
def decimalAux : Nat → Nat → List Char → List Char
  | 0, _, acc => acc
  | fuel + 1, n, acc =>
    if n / 10 = 0 then Char.ofNat (0x30 + n % 10) :: acc
    else decimalAux fuel (n / 10) (Char.ofNat (0x30 + n % 10) :: acc)

/-- The decimal rendering of a natural number. -/
def decimal (n : Nat) : List Char :=
  decimalAux (n + 1) n []

/-- The decimal rendering of an integer: a `-` when it is negative, then the
digits of its absolute value. -/
def renderInt (n : Int) : List Char :=
  numberLiteral (decide (n < 0)) (decimal n.natAbs) []

/-- The values of the properties of an object document: an integer, a boolean or
`null`. -/
inductive Scalar where
  | int (n : Int)
  | bool (b : Bool)
  | null
  deriving DecidableEq, Repr

/-- The text of a value. -/
def Scalar.render : Scalar → List Char
  | .int n => renderInt n
  | .bool b => if b then "true".toList else "false".toList
  | .null => "null".toList

/-- The `interface{}` value of a value. -/
def Scalar.toAny : Scalar → Any
  | .int n => .int n
  | .bool b => .bool b
  | .null => .nil

/-- Whether an integer value is a signed 64-bit integer. -/
def Scalar.inRange : Scalar → Prop
  | .int n => -2 ^ 63 ≤ n ∧ n < 2 ^ 63
  | _ => True

/-- The kind and the text of the token of a value. -/
def Scalar.core : Scalar → tokenKind × String
  | .int n => (intToken, String.mk (renderInt n))
  | .bool b => (booleanToken, if b then "true" else "false")
  | .null => (nullToken, "null")

/-- The text of a property: the key between quotes, `:` and the value. -/
def renderProp (p : String × Scalar) : List Char :=
  '"' :: (p.1.toList ++ ['"']) ++ (':' :: p.2.render)

/-- The properties `k1:v1,...,kn:vn` of an object document. -/
def renderProps : List (String × Scalar) → List Char
  | [] => []
  | [p] => renderProp p
  | p :: q :: ps => renderProp p ++ (',' :: renderProps (q :: ps))

/-- The object document `{k1:v1,...,kn:vn}`. -/
def renderObject (ps : List (String × Scalar)) : List Char :=
  '\x7b' :: (renderProps ps ++ ['\x7d'])

/-- The kinds and texts of the tokens of `renderProps`. -/
def propsCores : List (String × Scalar) → List (tokenKind × String)
  | [] => []
  | [p] => [(stringToken, p.1), (symbolToken, ":"), p.2.core]
  | p :: q :: ps =>
    [(stringToken, p.1), (symbolToken, ":"), p.2.core, (symbolToken, ",")]
      ++ propsCores (q :: ps)

/-- Go's `m[key]`, with `none` for a key that is not in the map. -/
def mapGet (m : List (String × Any)) (key : String) : Option Any :=
  match m with
  | [] => none
  | (k, v) :: rest => if k = key then some v else mapGet rest key

/-- The value of the last property of key `k`. -/
def lastValue : List (String × Scalar) → String → Option Scalar
  | [], _ => none
  | (k', v) :: rest, k =>
    match lastValue rest k with
    | some w => some w
    | none => if k' = k then some v else none

/-- The map in which the properties are set one after the other. -/
def setAll (m : List (String × Any)) (ps : List (String × Scalar)) : List (String × Any) :=
  ps.foldl (fun m p => mapSet m p.1 p.2.toAny) m

namespace Run

@[simp] theorem pure_eq {α : Type} (a : α) : (pure a : Run α) = done a := rfl
@[simp] theorem done_bind {α β : Type} (a : α) (f : α → Run β) :
    (done a >>= f) = f a := rfl
@[simp] theorem panic_bind {α β : Type} (p : PanicValue) (f : α → Run β) :
    ((panic p : Run α) >>= f) = panic p := rfl
@[simp] theorem outOfFuel_bind {α β : Type} (f : α → Run β) :
    ((outOfFuel : Run α) >>= f) = outOfFuel := rfl

end Run

/-! ## From the lexer and the top-level value to the result of `Parse` -/

theorem Parse_of_done (E : GoEnv) (fuel : Nat) (source : String) (tokens : List token)
    (cursor : Nat) (v : Any)
    (hl : buildTokens E fuel source.toList = done tokens)
    (hp : parseJSONValue E fuel tokens 0 = done (cursor, v))
    (hc : cursor ≤ tokens.length) :
    Parse E fuel source = done (finish v) := by
  simp only [Parse, hl, hp]
  split
  · rename_i hne
    have hlt : cursor < tokens.length := by omega
    simp [index, List.getElem?_eq_getElem hlt, getTokenParseError]
  · rfl

theorem Parse_of_lexer_panic (E : GoEnv) (fuel : Nat) (source : String) (p : PanicValue)
    (hl : buildTokens E fuel source.toList = .panic p) :
    Parse E fuel source = done (recover .nil p) := by
  simp only [Parse, hl]

theorem Parse_of_parser_panic (E : GoEnv) (fuel : Nat) (source : String)
    (tokens : List token) (p : PanicValue)
    (hl : buildTokens E fuel source.toList = done tokens)
    (hp : parseJSONValue E fuel tokens 0 = .panic p) :
    Parse E fuel source = done (recover .nil p) := by
  simp only [Parse, hl, hp]

/-! ## Running the lexer and the parser on a concrete input

The tables above Latin-1 and `strconv.ParseFloat` play no part on an input
within Latin-1 whose tokens hold no Float: there every environment gives what
`latin1Env` gives, and that is computed. -/

theorem isDigit_latin1 (E E' : GoEnv) (c : Char) (h : c.toNat ≤ maxLatin1) :
    isDigit E c = isDigit E' c := by
  simp [isDigit, h]

theorem isLetter_latin1 (E E' : GoEnv) (c : Char) (h : c.toNat ≤ maxLatin1) :
    isLetter E c = isLetter E' c := by
  simp [isLetter, h]

theorem mem_of_getElem? {α : Type} (s : List α) (i : Nat) (x : α) (h : s[i]? = some x) :
    x ∈ s := by
  rw [List.getElem?_eq_some] at h
  obtain ⟨hlt, rfl⟩ := h
  exact List.getElem_mem _

theorem mem_of_index {α : Type} (s : List α) (i : Nat) (x : α) (h : index s i = done x) :
    x ∈ s := by
  unfold index at h
  split at h
  · rename_i a ha
    cases h
    exact mem_of_getElem? s i _ ha
  · cases h

theorem safeGetCurrentRune_latin1 (s : List Char) (hs : ∀ c ∈ s, c.toNat ≤ maxLatin1)
    (i : Nat) : (safeGetCurrentRune s i).toNat ≤ maxLatin1 := by
  unfold safeGetCurrentRune
  split
  · decide
  · rename_i h
    have hlt : i < s.length := by simpa [hasConsumedAllRunes] using h
    rw [List.getD_eq_getElem _ _ hlt]
    exact hs _ (List.getElem_mem _)

theorem safeGetNextRune_latin1 (s : List Char) (hs : ∀ c ∈ s, c.toNat ≤ maxLatin1)
    (i : Nat) : (safeGetNextRune s i).toNat ≤ maxLatin1 := by
  unfold safeGetNextRune
  split
  · decide
  · rename_i h
    have hlt : i + 1 < s.length := by omega
    rw [List.getD_eq_getElem _ _ hlt]
    exact hs _ (List.getElem_mem _)

theorem makeNumberToken_latin1 (E E' : GoEnv) (s : List Char)
    (hs : ∀ c ∈ s, c.toNat ≤ maxLatin1) (cursor : Nat) :
    makeNumberToken E s cursor = makeNumberToken E' s cursor := by
  have hcur : ∀ i, isDigit E (safeGetCurrentRune s i) = isDigit E' (safeGetCurrentRune s i) :=
    fun i => isDigit_latin1 E E' _ (safeGetCurrentRune_latin1 s hs i)
  have hnext : ∀ i, isDigit E (safeGetNextRune s i) = isDigit E' (safeGetNextRune s i) :=
    fun i => isDigit_latin1 E E' _ (safeGetNextRune_latin1 s hs i)
  unfold makeNumberToken
  cases h1 : index s cursor with
  | outOfFuel => rfl
  | panic p => rfl
  | done c =>
    simp only [done_bind]
    cases h2 : index s (if decide (c = '-') = true then cursor + 1 else cursor) with
    | outOfFuel => rfl
    | panic p => rfl
    | done d =>
      simp only [done_bind, hcur, hnext, isDigit_latin1 E E' d (hs d (mem_of_index _ _ _ h2))]

theorem makeBooleanToken_latin1 (E E' : GoEnv) (s : List Char)
    (hs : ∀ c ∈ s, c.toNat ≤ maxLatin1) (cursor : Nat) :
    makeBooleanToken E s cursor = makeBooleanToken E' s cursor := by
  have hcur : ∀ i, isLetter E (safeGetCurrentRune s i) = isLetter E' (safeGetCurrentRune s i) :=
    fun i => isLetter_latin1 E E' _ (safeGetCurrentRune_latin1 s hs i)
  simp only [makeBooleanToken, hcur]

theorem makeNullToken_latin1 (E E' : GoEnv) (s : List Char)
    (hs : ∀ c ∈ s, c.toNat ≤ maxLatin1) (cursor : Nat) :
    makeNullToken E s cursor = makeNullToken E' s cursor := by
  have hcur : ∀ i, isLetter E (safeGetCurrentRune s i) = isLetter E' (safeGetCurrentRune s i) :=
    fun i => isLetter_latin1 E E' _ (safeGetCurrentRune_latin1 s hs i)
  simp only [makeNullToken, hcur]

theorem lexStep_latin1 (E E' : GoEnv) (s : List Char)
    (hs : ∀ c ∈ s, c.toNat ≤ maxLatin1) (st : LexState) :
    lexStep E s st = lexStep E' s st := by
  simp only [lexStep, makeNumberToken_latin1 E E' s hs, makeBooleanToken_latin1 E E' s hs,
    makeNullToken_latin1 E E' s hs]

theorem buildTokensLoop_latin1 (E E' : GoEnv) (s : List Char)
    (hs : ∀ c ∈ s, c.toNat ≤ maxLatin1) :
    ∀ (fuel : Nat) (st : LexState), buildTokensLoop E s fuel st = buildTokensLoop E' s fuel st := by
  intro fuel
  induction fuel with
  | zero => intro st; rfl
  | succ f ih =>
    intro st
    simp only [buildTokensLoop, lexStep_latin1 E E' s hs, ih]

/-- On an input within Latin-1 the lexer does not consult the tables above
Latin-1. -/
theorem buildTokens_latin1 (E E' : GoEnv) (fuel : Nat) (s : List Char)
    (hs : isLatin1 s = true) : buildTokens E fuel s = buildTokens E' fuel s := by
  refine buildTokensLoop_latin1 E E' s ?_ fuel _
  intro c hc
  have := List.all_eq_true.mp hs c hc
  simpa using this

theorem parseFloat_noFloat (E E' : GoEnv) (t : List token) (ht : hasFloatToken t = false)
    (c : Nat) : parseFloat E t c = parseFloat E' t c := by
  unfold parseFloat
  cases h : index t c with
  | outOfFuel => simp only [outOfFuel_bind]
  | panic p => simp only [panic_bind]
  | done tok =>
    have hk : tok.kind ≠ floatToken := by
      have hmem := mem_of_index t c tok h
      intro hk
      have : hasFloatToken t = true := by
        simp only [hasFloatToken, List.any_eq_true]
        exact ⟨tok, hmem, by simp [hk]⟩
      rw [ht] at this
      cases this
    simp only [done_bind, if_neg hk]

theorem tryRecognizers_congr (t : List token) (c : Nat) :
    ∀ (fs gs : List (List token → Nat → Run (Nat × Any))),
      List.Forall₂ (fun f g => f t c = g t c) fs gs →
      tryRecognizers t c fs = tryRecognizers t c gs := by
  intro fs gs hfg
  induction hfg with
  | nil => rfl
  | @cons f g fs gs hh _ ih => simp only [tryRecognizers, hh, ih]

theorem parser_noFloat (E E' : GoEnv) (t : List token) (ht : hasFloatToken t = false) :
    ∀ f : Nat,
    (∀ c i s, parseArrayLoop E f t c i s = parseArrayLoop E' f t c i s) ∧
    (∀ c, parseArray E f t c = parseArray E' f t c) ∧
    (∀ c i m, parseObjectLoop E f t c i m = parseObjectLoop E' f t c i m) ∧
    (∀ c, parseObject E f t c = parseObject E' f t c) ∧
    (∀ c, parseJSONValue E f t c = parseJSONValue E' f t c) := by
  intro f
  induction f with
  | zero =>
    refine ⟨?_, ?_, ?_, ?_, ?_⟩ <;> intros <;> rfl
  | succ f ih =>
    obtain ⟨ihAL, ihA, ihOL, ihO, ihV⟩ := ih
    refine ⟨?_, ?_, ?_, ?_, ?_⟩
    · intro c i s
      simp only [parseArrayLoop, ihAL, ihV]
    · intro c
      simp only [parseArray, ihAL]
    · intro c i m
      simp only [parseObjectLoop, ihOL, ihV]
    · intro c
      simp only [parseObject, ihOL]
    · intro c
      simp only [parseJSONValue]
      rw [tryRecognizers_congr t c
        [parseArray E f, parseBoolean, parseFloat E, parseInteger, parseNil, parseString,
          parseObject E f]
        [parseArray E' f, parseBoolean, parseFloat E', parseInteger, parseNil, parseString,
          parseObject E' f]
        (.cons (ihA c) (.cons rfl (.cons (parseFloat_noFloat E E' t ht c)
          (.cons rfl (.cons rfl (.cons rfl (.cons (ihO c) .nil)))))))]

/-- Without a token of kind Float the parser does not call `strconv.ParseFloat`. -/
theorem parseJSONValue_noFloat (E E' : GoEnv) (fuel : Nat) (t : List token) (c : Nat)
    (ht : hasFloatToken t = false) : parseJSONValue E fuel t c = parseJSONValue E' fuel t c :=
  (parser_noFloat E E' t ht fuel).2.2.2.2 c

mutual

theorem Any.eq_of_beq : ∀ (a b : Any), Any.beq a b = true → a = b
  | .nil, b, h => by cases b <;> simp_all [Any.beq]
  | .str a, b, h => by cases b <;> simp_all [Any.beq]
  | .int a, b, h => by cases b <;> simp_all [Any.beq]
  | .float a, b, h => by cases b <;> simp_all [Any.beq]
  | .bool a, b, h => by cases b <;> simp_all [Any.beq]
  | .error a, b, h => by cases b <;> simp_all [Any.beq]
  | .slice xs, b, h => by
    cases b <;> simp [Any.beq] at h
    rename_i ys
    rw [Any.eq_of_beqList xs ys h]
  | .map m, b, h => by
    cases b <;> simp [Any.beq] at h
    rename_i n
    rw [Any.eq_of_beqMap m n h]

theorem Any.eq_of_beqList : ∀ (xs ys : List Any), Any.beqList xs ys = true → xs = ys
  | [], ys, h => by cases ys <;> simp_all [Any.beqList]
  | x :: xs, ys, h => by
    cases ys with
    | nil => simp [Any.beqList] at h
    | cons y ys =>
      simp [Any.beqList] at h
      rw [Any.eq_of_beq x y h.1, Any.eq_of_beqList xs ys h.2]

theorem Any.eq_of_beqMap : ∀ (xs ys : List (String × Any)), Any.beqMap xs ys = true → xs = ys
  | [], ys, h => by cases ys <;> simp_all [Any.beqMap]
  | (k, x) :: xs, ys, h => by
    cases ys with
    | nil => simp [Any.beqMap] at h
    | cons y ys =>
      obtain ⟨l, y⟩ := y
      simp [Any.beqMap] at h
      rw [h.1.1, Any.eq_of_beq x y h.1.2, Any.eq_of_beqMap xs ys h.2]

end

theorem eq_of_resultBeq (r r' : Run (Nat × Any)) (h : resultBeq r r' = true) : r = r' := by
  cases r with
  | done a =>
    cases r' with
    | done b =>
      obtain ⟨c, v⟩ := a
      obtain ⟨c', v'⟩ := b
      simp only [resultBeq, Bool.and_eq_true, beq_iff_eq] at h
      rw [h.1, Any.eq_of_beq v v' h.2]
    | panic q => simp [resultBeq] at h
    | outOfFuel => simp [resultBeq] at h
  | panic p =>
    cases r' with
    | done b => simp [resultBeq] at h
    | panic q => simp only [resultBeq, beq_iff_eq] at h; rw [h]
    | outOfFuel => simp [resultBeq] at h
  | outOfFuel =>
    cases r' <;> first | rfl | simp [resultBeq] at h

theorem buildTokens_eval (E : GoEnv) (fuel : Nat) (s : List Char) (r : Run (List token))
    (hs : isLatin1 s = true) (h : buildTokens latin1Env fuel s = r) :
    buildTokens E fuel s = r := by
  rw [buildTokens_latin1 E latin1Env fuel s hs, h]

theorem parseJSONValue_eval (E : GoEnv) (fuel : Nat) (t : List token) (c : Nat)
    (r : Run (Nat × Any)) (ht : hasFloatToken t = false)
    (h : resultBeq (parseJSONValue latin1Env fuel t c) r = true) :
    parseJSONValue E fuel t c = r := by
  rw [parseJSONValue_noFloat E latin1Env fuel t c ht]
  exact eq_of_resultBeq _ _ h

/-! ## More fuel does not change a result -/

theorem buildTokensLoop_mono (E : GoEnv) (s : List Char) :
    ∀ (f : Nat) (st : LexState) (k : Nat), buildTokensLoop E s f st ≠ .outOfFuel →
      buildTokensLoop E s (f + k) st = buildTokensLoop E s f st := by
  intro f
  induction f with
  | zero => intro st k h; simp [buildTokensLoop] at h
  | succ f ih =>
    intro st k h
    have hk : f + 1 + k = (f + k) + 1 := by omega
    rw [hk]
    simp only [buildTokensLoop] at h ⊢
    split
    · rename_i hlt
      simp only [hlt, if_true] at h
      cases hstep : lexStep E s st with
      | done st' =>
        simp only [hstep] at h ⊢
        exact ih st' k h
      | panic p => rfl
      | outOfFuel => rfl
    · rfl

theorem buildTokens_mono (E : GoEnv) (s : List Char) (f k : Nat)
    (h : buildTokens E f s ≠ .outOfFuel) : buildTokens E (f + k) s = buildTokens E f s :=
  buildTokensLoop_mono E s f _ k h

/-- Two budgets that both suffice give the same tokens. -/
theorem buildTokens_fuel (E : GoEnv) (s : List Char) (f f' : Nat) (r : Run (List token))
    (h : buildTokens E f s = r) (hr : r ≠ .outOfFuel) :
    buildTokens E f' s = .outOfFuel ∨ buildTokens E f' s = r := by
  by_cases hle : f ≤ f'
  · right
    obtain ⟨k, rfl⟩ := Nat.exists_eq_add_of_le hle
    rw [buildTokens_mono E s f k (h ▸ hr), h]
  · by_cases ho : buildTokens E f' s = .outOfFuel
    · exact Or.inl ho
    · right
      obtain ⟨k, rfl⟩ := Nat.exists_eq_add_of_le (Nat.le_of_not_le hle)
      rw [← h, buildTokens_mono E s f' k ho]

theorem tryRecognizers_mono (t : List token) (c : Nat) :
    ∀ (fs gs : List (List token → Nat → Run (Nat × Any))),
      List.Forall₂ (fun f g => f t c ≠ .outOfFuel → g t c = f t c) fs gs →
      tryRecognizers t c fs ≠ .outOfFuel →
      tryRecognizers t c gs = tryRecognizers t c fs := by
  intro fs gs hfg
  induction hfg with
  | nil => intro _; rfl
  | @cons f g fs gs hh _ ih =>
    intro h
    simp only [tryRecognizers] at h ⊢
    cases hf : f t c with
    | outOfFuel => simp [hf] at h
    | panic p => rw [hh (by simp [hf]), hf]
    | done cv =>
      obtain ⟨c', v⟩ := cv
      rw [hh (by simp [hf]), hf]
      simp only [hf] at h ⊢
      by_cases hc : c' ≠ c
      · rw [if_pos hc, if_pos hc]
      · rw [if_neg hc] at h ⊢
        rw [if_neg hc]
        cases v <;> first | rfl | exact ih h



theorem parser_mono (E : GoEnv) : ∀ f : Nat,
    (∀ k t c i s, parseArrayLoop E f t c i s ≠ .outOfFuel →
      parseArrayLoop E (f + k) t c i s = parseArrayLoop E f t c i s) ∧
    (∀ k t c, parseArray E f t c ≠ .outOfFuel →
      parseArray E (f + k) t c = parseArray E f t c) ∧
    (∀ k t c i m, parseObjectLoop E f t c i m ≠ .outOfFuel →
      parseObjectLoop E (f + k) t c i m = parseObjectLoop E f t c i m) ∧
    (∀ k t c, parseObject E f t c ≠ .outOfFuel →
      parseObject E (f + k) t c = parseObject E f t c) ∧
    (∀ k t c, parseJSONValue E f t c ≠ .outOfFuel →
      parseJSONValue E (f + k) t c = parseJSONValue E f t c) := by
  intro f
  induction f with
  | zero =>
    refine ⟨?_, ?_, ?_, ?_, ?_⟩ <;> intros <;>
      simp [parseArrayLoop, parseArray, parseObjectLoop, parseObject, parseJSONValue] at *
  | succ f ih =>
    obtain ⟨ihAL, ihA, ihOL, ihO, ihV⟩ := ih
    refine ⟨?_, ?_, ?_, ?_, ?_⟩
    · intro k t c i s h
      have hk : f + 1 + k = (f + k) + 1 := by omega
      rw [hk]
      simp only [parseArrayLoop] at h ⊢
      cases hs : safeGetToken t i with
      | none => simp only [hs]
      | some tt =>
        simp only [hs] at h ⊢
        cases hv : parseJSONValue E f t i with
        | outOfFuel => simp [hv] at h
        | panic p => rw [ihV k t i (by simp [hv]), hv]; rfl
        | done cv =>
          obtain ⟨vc, val⟩ := cv
          rw [ihV k t i (by simp [hv])]
          revert h
          simp only [hv, done_bind]
          repeat' split
          all_goals first
            | (intro _; rfl)
            | (intro h; exact ihAL k _ _ _ _ h)
    · intro k t c h
      have hk : f + 1 + k = (f + k) + 1 := by omega
      rw [hk]
      revert h
      simp only [parseArray]
      repeat' split
      all_goals first
        | (intro _; rfl)
        | (intro h; exact ihAL k _ _ _ _ h)
    · intro k t c i m h
      have hk : f + 1 + k = (f + k) + 1 := by omega
      rw [hk]
      simp only [parseObjectLoop] at h ⊢
      cases hs : safeGetToken t i with
      | none => simp only [hs]
      | some tt =>
        have hkey : parseJSONKey t i = done (i + 1, .str tt.value) := by
          simp [parseJSONKey, hs]
        simp only [hs, hkey, done_bind] at h ⊢
        cases hkind : tt.kind with
        | stringToken =>
          simp only [hkind] at h ⊢
          cases hs1 : safeGetToken t (i + 1) with
          | none => simp only [hs1]
          | some nt =>
            simp only [hs1] at h ⊢
            cases hv : parseJSONValue E f t (i + 1 + 1) with
            | outOfFuel => simp [hv] at h
            | panic p => rw [ihV k t _ (by simp [hv]), hv]; rfl
            | done cv =>
              obtain ⟨vc, val⟩ := cv
              rw [ihV k t _ (by simp [hv])]
              revert h
              simp only [hv, done_bind]
              repeat' split
              all_goals first
                | (intro _; rfl)
                | (intro h; exact ihOL k _ _ _ _ h)
        | symbolToken =>
          revert h
          simp only [hkind]
          repeat' split
          all_goals first
            | (intro _; rfl)
            | (intro h; exact ihOL k _ _ _ _ h)
        | intToken => simp only [hkind]
        | floatToken => simp only [hkind]
        | booleanToken => simp only [hkind]
        | nullToken => simp only [hkind]
        | endOfFileToken => simp only [hkind]
    · intro k t c h
      have hk : f + 1 + k = (f + k) + 1 := by omega
      rw [hk]
      revert h
      simp only [parseObject]
      repeat' split
      all_goals first
        | (intro _; rfl)
        | (intro h; exact ihOL k _ _ _ _ h)
    · intro k t c h
      have hk : f + 1 + k = (f + k) + 1 := by omega
      rw [hk]
      simp only [parseJSONValue] at h ⊢
      by_cases hc : (!hasCompletedTokens t c) = true
      · simp only [hc, if_true] at h ⊢
        have hne : tryRecognizers t c [parseArray E f, parseBoolean, parseFloat E,
            parseInteger, parseNil, parseString, parseObject E f] ≠ .outOfFuel := by
          intro h0
          simp [h0] at h
        rw [tryRecognizers_mono t c _ _ ?_ hne]
        refine .cons (ihA k t c) (.cons (fun _ => rfl) (.cons (fun _ => rfl)
          (.cons (fun _ => rfl) (.cons (fun _ => rfl) (.cons (fun _ => rfl)
          (.cons (ihO k t c) .nil))))))
      · rw [if_neg hc, if_neg hc]

theorem parseJSONValue_of_le (E : GoEnv) (f f' : Nat) (t : List token) (c : Nat)
    (r : Nat × Any) (h : parseJSONValue E f t c = done r) (hle : f ≤ f') :
    parseJSONValue E f' t c = done r := by
  obtain ⟨k, rfl⟩ := Nat.exists_eq_add_of_le hle
  rw [(parser_mono E f).2.2.2.2 k t c (by simp [h]), h]

/-! ## Tokens and cursors -/

theorem index_of_safeGetToken (t : List token) (c : Nat) (tt : token)
    (h : safeGetToken t c = some tt) : index t c = done tt := by
  unfold safeGetToken at h
  split at h
  · simp only [index, h]
  · simp at h

theorem hasCompletedTokens_of_safeGetToken (t : List token) (c : Nat) (tt : token)
    (h : safeGetToken t c = some tt) : hasCompletedTokens t c = false := by
  unfold safeGetToken at h
  split at h
  · rename_i hc
    simpa using hc
  · simp at h

/-! ## One iteration of the loops of `parseArray` and `parseObject` -/

/-- One iteration of the loop of `parseArray` in which an element is parsed. -/
theorem parseArrayLoop_element (E : GoEnv) (f : Nat) (t : List token) (cursor idx : Nat)
    (s : List Any) (tt : token) (vc : Nat) (val : Any)
    (hs : safeGetToken t idx = some tt)
    (hv : parseJSONValue E f t idx = done (vc, val)) (hvc : vc ≠ idx) :
    parseArrayLoop E (f + 1) t cursor idx s =
      match safeGetToken t vc with
      | none => parseArrayLoop E f t cursor vc (s ++ [val])
      | some nt =>
        if nt.value = "," then
          match safeGetToken t (vc + 1) with
          | none => parseArrayLoop E f t cursor (vc + 1) (s ++ [val])
          | some ntt =>
            if ntt.kind = symbolToken then
              done (cursor, .error (.token
                ("unexpected " ++ nt.value ++ " after array element in JSON")
                tt.value tt.lineNumber tt.linePosition))
            else parseArrayLoop E f t cursor (vc + 1) (s ++ [val])
        else parseArrayLoop E f t cursor vc (s ++ [val]) := by
  simp only [parseArrayLoop, hs, hv, done_bind, if_pos hvc]
  repeat' split
  all_goals rfl

/-- One iteration of the loop of `parseArray` in which no element is parsed. -/
theorem parseArrayLoop_no_element (E : GoEnv) (f : Nat) (t : List token) (cursor idx : Nat)
    (s : List Any) (tt : token) (val : Any)
    (hs : safeGetToken t idx = some tt)
    (hv : parseJSONValue E f t idx = done (idx, val)) :
    parseArrayLoop E (f + 1) t cursor idx s =
      if tt.value = "]" then done (idx + 1, .slice s)
      else done (cursor, .error (.token "expected ',' or ']' before array element in JSON"
        tt.value tt.lineNumber tt.linePosition)) := by
  simp only [parseArrayLoop, hs, hv, done_bind]
  simp only [ne_eq, not_true_eq_false, if_false]
  split <;> rfl

/-- One iteration of the loop of `parseObject` in which a property is parsed. -/
theorem parseObjectLoop_property (E : GoEnv) (f : Nat) (t : List token) (cursor idx : Nat)
    (m : List (String × Any)) (tt nt : token) (vc : Nat) (val : Any)
    (hs : safeGetToken t idx = some tt) (hk : tt.kind = stringToken)
    (hnt : safeGetToken t (idx + 1) = some nt)
    (hv : parseJSONValue E f t (idx + 2) = done (vc, val)) (hvc : vc ≠ idx + 2) :
    parseObjectLoop E (f + 1) t cursor idx m =
      match safeGetToken t vc with
      | none => parseObjectLoop E f t cursor vc (mapSet m tt.value val)
      | some nt =>
        if nt.value = "," then
          match safeGetToken t (vc + 1) with
          | none => parseObjectLoop E f t cursor (vc + 1) (mapSet m tt.value val)
          | some ntt =>
            if ntt.kind = symbolToken then
              done (cursor, .error (.token
                ("unexpected " ++ nt.value ++ " after array element in JSON")
                tt.value tt.lineNumber tt.linePosition))
            else parseObjectLoop E f t cursor (vc + 1) (mapSet m tt.value val)
        else parseObjectLoop E f t cursor vc (mapSet m tt.value val) := by
  have hkey : parseJSONKey t idx = done (idx + 1, .str tt.value) := by
    simp [parseJSONKey, hs]
  simp only [parseObjectLoop, hs, hk, hkey, hnt, hv, done_bind, if_neg hvc]
  repeat' split
  all_goals rfl

/-- One iteration of the loop of `parseObject` in which the value of the property
is not parsed. -/
theorem parseObjectLoop_no_value (E : GoEnv) (f : Nat) (t : List token) (cursor idx : Nat)
    (m : List (String × Any)) (tt nt : token) (e : GoError)
    (hs : safeGetToken t idx = some tt) (hk : tt.kind = stringToken)
    (hnt : safeGetToken t (idx + 1) = some nt)
    (hv : parseJSONValue E f t (idx + 2) = done (idx + 2, .error e)) :
    parseObjectLoop E (f + 1) t cursor idx m = done (cursor, .error e) := by
  have hkey : parseJSONKey t idx = done (idx + 1, .str tt.value) := by
    simp [parseJSONKey, hs]
  simp only [parseObjectLoop, hs, hk, hkey, hnt, hv, done_bind, if_true]
  rfl

/-! ## The loop of `parseObject` on a symbol that is not `}` -/

/-- In the loop of `parseObject` the case `symbolToken` returns for `}` only;
for any other symbol the `switch` ends and the loop starts over with the same
`idx`: no budget is enough. -/
theorem parseObjectLoop_stuck (E : GoEnv) (t : List token) (cursor idx : Nat)
    (m : List (String × Any)) (tt : token) (hs : safeGetToken t idx = some tt)
    (hk : tt.kind = symbolToken) (hv : tt.value ≠ "\x7d") :
    ∀ fuel, parseObjectLoop E fuel t cursor idx m = .outOfFuel := by
  intro fuel
  induction fuel with
  | zero => simp [parseObjectLoop]
  | succ f ih => simp only [parseObjectLoop, hs, hk]; simp [hv, ih]

/-- On the symbol `{` only `parseObject` matches, so `parseJSONValue` does not
return when the loop of `parseObject` does not. -/
theorem parseJSONValue_stuck_of_object (E : GoEnv) (t : List token) (c : Nat) (tt : token)
    (hs : safeGetToken t c = some tt) (hk : tt.kind = symbolToken) (hv : tt.value = "\x7b")
    (hloop : ∀ fuel, parseObjectLoop E fuel t c (c + 1) [] = .outOfFuel) :
    ∀ fuel, parseJSONValue E fuel t c = .outOfFuel := by
  intro fuel
  cases fuel with
  | zero => simp [parseJSONValue]
  | succ f =>
    cases f with
    | zero =>
      simp [parseJSONValue, hasCompletedTokens_of_safeGetToken t c tt hs, tryRecognizers,
        parseArray]
    | succ f =>
      simp [parseJSONValue, hasCompletedTokens_of_safeGetToken t c tt hs, tryRecognizers,
        parseArray, parseBoolean, parseFloat, parseInteger, parseNil, parseString, parseObject,
        index_of_safeGetToken t c tt hs, hs, hk, hv, hloop]

/-- A loop of `parseObject` that exhausts every large budget exhausts every
budget. -/
theorem parseObjectLoop_outOfFuel_of_ge (E : GoEnv) (t : List token) (cursor idx : Nat)
    (m : List (String × Any)) (n : Nat)
    (h : ∀ f, n ≤ f → parseObjectLoop E f t cursor idx m = .outOfFuel) :
    ∀ fuel, parseObjectLoop E fuel t cursor idx m = .outOfFuel := by
  intro fuel
  by_contra hne
  have hmono := (parser_mono E fuel).2.2.1 n t cursor idx m hne
  rw [h (fuel + n) (by omega)] at hmono
  exact hne hmono.symm

theorem Parse_outOfFuel_of_tokens (E : GoEnv) (source : String) (f0 : Nat)
    (tokens : List token) (hl : buildTokens E f0 source.toList = done tokens)
    (hp : ∀ fuel, parseJSONValue E fuel tokens 0 = .outOfFuel) :
    ∀ fuel, Parse E fuel source = .outOfFuel := by
  intro fuel
  rcases buildTokens_fuel E _ f0 fuel _ hl (by simp) with h | h
  · simp only [Parse, h]
  · simp only [Parse, h, hp]

/-! ## Errors on the way up -/

theorem invokes_error (E : GoEnv) (t : List token) (f g : Nat) (a b : Frame)
    (o : Option token) (h : Invokes E t f a g b o) (e : GoError)
    (hb : b.run E g t = done (b.cursor, .error e)) (hq : b.notAtClose t) :
    a.run E f t = done (a.cursor, .error (errorThrough o e)) ∧ a.notAtClose t := by
  cases h with
  | @arrayOpen _ c tt hs hv =>
    refine ⟨?_, ⟨tt, hs, by rw [hv]; decide⟩⟩
    simp only [Frame.run, Frame.cursor, errorThrough] at hb ⊢
    simp [parseJSONValue, hasCompletedTokens_of_safeGetToken t c tt hs, tryRecognizers,
      parseArray, hs, hv, hb]
  | @arrayElement _ c idx s tt hs =>
    obtain ⟨tt', hs', hne⟩ := hq
    obtain rfl : tt = tt' := Option.some.inj (hs.symm.trans hs')
    simp only [Frame.run, Frame.cursor, errorThrough] at hb ⊢
    refine ⟨?_, trivial⟩
    rw [parseArrayLoop_no_element E g t c idx s tt _ hs hb, if_neg hne]
  | @arrayNext _ c idx vc s tt val hs hv hvc hnc =>
    refine ⟨?_, trivial⟩
    simp only [Frame.run, Frame.cursor, errorThrough] at hb ⊢
    rw [parseArrayLoop_element E g t c idx s tt vc val hs hv hvc]
    cases hn : safeGetToken t vc with
    | none => exact hb
    | some nt => simp only [if_neg (hnc nt hn)]; exact hb
  | @arrayNextComma _ c idx vc s tt nt val hs hv hvc hn hcomma hnsym =>
    refine ⟨?_, trivial⟩
    simp only [Frame.run, Frame.cursor, errorThrough] at hb ⊢
    rw [parseArrayLoop_element E g t c idx s tt vc val hs hv hvc]
    simp only [hn, if_pos hcomma]
    cases hn2 : safeGetToken t (vc + 1) with
    | none => exact hb
    | some ntt => simp only [if_neg (hnsym ntt hn2)]; exact hb
  | @objectOpen _ c tt hs hk hv =>
    refine ⟨?_, ⟨tt, hs, by rw [hv]; decide⟩⟩
    simp only [Frame.run, Frame.cursor, errorThrough] at hb ⊢
    simp [parseJSONValue, hasCompletedTokens_of_safeGetToken t c tt hs, tryRecognizers,
      parseArray, parseBoolean, parseFloat, parseInteger, parseNil, parseString, parseObject,
      index_of_safeGetToken t c tt hs, hs, hk, hv, hb]
  | @objectValue _ c idx m tt ct hs hk hct =>
    refine ⟨?_, trivial⟩
    simp only [Frame.run, Frame.cursor, errorThrough] at hb ⊢
    exact parseObjectLoop_no_value E g t c idx m tt ct e hs hk hct hb
  | @objectNext _ c idx vc m tt ct val hs hk hct hv hvc hnc =>
    refine ⟨?_, trivial⟩
    simp only [Frame.run, Frame.cursor, errorThrough] at hb ⊢
    rw [parseObjectLoop_property E g t c idx m tt ct vc val hs hk hct hv hvc]
    cases hn : safeGetToken t vc with
    | none => exact hb
    | some nt => simp only [if_neg (hnc nt hn)]; exact hb
  | @objectNextComma _ c idx vc m tt ct nt val hs hk hct hv hvc hn hcomma hnsym =>
    refine ⟨?_, trivial⟩
    simp only [Frame.run, Frame.cursor, errorThrough] at hb ⊢
    rw [parseObjectLoop_property E g t c idx m tt ct vc val hs hk hct hv hvc]
    simp only [hn, if_pos hcomma]
    cases hn2 : safeGetToken t (vc + 1) with
    | none => exact hb
    | some ntt => simp only [if_neg (hnsym ntt hn2)]; exact hb
  | @objectAgain _ c idx m tt hs hk hv =>
    refine ⟨?_, trivial⟩
    simp only [Frame.run, Frame.cursor, errorThrough] at hb ⊢
    simp only [parseObjectLoop, hs, hk, if_neg hv]
    exact hb

theorem errorThrough_outermost (o o' : Option token) (e : GoError) :
    errorThrough o (errorThrough o' e) = errorThrough (outermost o o') e := by
  cases o <;> rfl

/-- An error that a frame returns with its cursor comes out of the frames that run
it: as the error of the outermost array whose element it is part of, or as it is. -/
theorem runs_error (E : GoEnv) (t : List token) (f g : Nat) (a b : Frame)
    (o : Option token) (h : Runs E t f a g b o) :
    ∀ e, b.run E g t = done (b.cursor, .error e) → b.notAtClose t →
      a.run E f t = done (a.cursor, .error (errorThrough o e)) := by
  induction h with
  | refl => intro e hb _; exact hb
  | tail _ hinv ih =>
    intro e hc hq
    obtain ⟨h1, hq1⟩ := invokes_error E t _ _ _ _ _ hinv e hc hq
    rw [← errorThrough_outermost]
    exact ih _ h1 hq1

theorem notAtClose_of_isLoop (t : List token) (b : Frame) (h : b.isLoop = true) :
    b.notAtClose t := by
  cases b with
  | value c => cases h
  | arrayLoop c idx s => trivial
  | objectLoop c idx m => trivial

/-! ## The lexer at a malformed numeric form -/

theorem loopWhile_eq (cond : Nat → Bool) :
    ∀ (fuel start e : Nat), (∀ i, start ≤ i → i < e → cond i = true) → cond e = false →
      start ≤ e → e - start < fuel → loopWhile cond fuel start = e := by
  intro fuel
  induction fuel with
  | zero => intro start e _ _ _ h; omega
  | succ f ih =>
    intro start e hin hout hle hf
    by_cases hse : start = e
    · subst hse
      simp [loopWhile, hout]
    · have hlt : start < e := by omega
      simp only [loopWhile, hin start (le_refl _) hlt, if_true]
      exact ih (start + 1) e (fun i h1 h2 => hin i (by omega) h2) hout (by omega) (by omega)

theorem length_of_getElem? {α : Type} (s : List α) (c : Nat) (x : α) (h : s[c]? = some x) :
    c < s.length := by
  rw [List.getElem?_eq_some] at h
  exact h.1

theorem index_of_getElem? {α : Type} (s : List α) (c : Nat) (x : α) (h : s[c]? = some x) :
    index s c = done x := by
  simp only [index, h]

theorem safeGetCurrentRune_of_getElem? (s : List Char) (c : Nat) (x : Char)
    (h : s[c]? = some x) : safeGetCurrentRune s c = x := by
  have hlt := length_of_getElem? s c x h
  rw [List.getElem?_eq_some] at h
  obtain ⟨_, rfl⟩ := h
  simp [safeGetCurrentRune, hasConsumedAllRunes, hlt, List.getD_eq_getElem _ _ hlt]

theorem isDigit_safeGetNextRune (E : GoEnv) (s : List Char) (c : Nat)
    (h : ∀ d, s[c + 1]? = some d → isDigit E d = false) :
    isDigit E (safeGetNextRune s c) = false := by
  unfold safeGetNextRune
  split
  · rfl
  · rename_i hlt
    have hlt' : c + 1 < s.length := by omega
    rw [List.getD_eq_getElem _ _ hlt']
    exact h _ (List.getElem?_eq_getElem hlt')

/-- A digit is none of the characters the earlier steps of the loop look for. -/
theorem isDigit_ne (E : GoEnv) (x : Char) (h : isDigit E x = true) :
    x ≠ '\n' ∧ x ≠ '\r' ∧ x ≠ '[' ∧ x ≠ ']' ∧ x ≠ '{' ∧ x ≠ '}' ∧ x ≠ ':' ∧ x ≠ ',' ∧
      x ≠ '"' ∧ x ≠ '-' ∧ x ≠ '.' := by
  refine ⟨?_, ?_, ?_, ?_, ?_, ?_, ?_, ?_, ?_, ?_, ?_⟩ <;>
    (intro hx; subst hx; rw [isDigit_latin1 E latin1Env _ (by decide)] at h; revert h; decide)


/-- The steps of the loop before `makeNumberToken` leave a character alone that is
no line return, no white space, no symbol and no quote. -/
theorem lexStep_before_number (E : GoEnv) (s : List Char) (st : LexState) (x : Char)
    (hc : s[st.cursor]? = some x) (hsp : isSpace x = false)
    (hsym : x ≠ '[' ∧ x ≠ ']' ∧ x ≠ '{' ∧ x ≠ '}' ∧ x ≠ ':' ∧ x ≠ ',') (hq : x ≠ '"') :
    lexStep E s st =
      (makeNumberToken E s st.cursor >>= fun r =>
        match r.2 with
        | some t => done (emit st r.1 t)
        | none =>
          match (makeBooleanToken E s r.1).2 with
          | some t => done (emit st (makeBooleanToken E s r.1).1 t)
          | none =>
            match (makeNullToken E s (makeBooleanToken E s r.1).1).2 with
            | some t => done (emit st (makeNullToken E s (makeBooleanToken E s r.1).1).1 t)
            | none =>
              .panic (.str ("failed to parse JSON at (line " ++ toString st.lineNumber ++
                ", column " ++ toString st.linePosition ++ ")"))) := by
  have hcur := safeGetCurrentRune_of_getElem? s _ _ hc
  have hidx := index_of_getElem? s _ _ hc
  have hn : x ≠ '\n' ∧ x ≠ '\r' := by
    constructor <;> (intro hx; subst hx; revert hsp; decide)
  have h1 : consumeLineReturn s st.cursor = (0, st.cursor) := by
    simp [consumeLineReturn, hcur, hn.1, hn.2]
  have h2 : consumeWhiteSpace s st.cursor = done st.cursor := by
    simp [consumeWhiteSpace, hidx, hsp]
  have h3 : makeSymbolToken s st.cursor = done (st.cursor, none) := by
    simp [makeSymbolToken, hidx, hsym]
  have h4 : makeStringToken s st.cursor = done (st.cursor, none) := by
    simp [makeStringToken, hidx, hq]
  simp only [lexStep, h1, h2, h3, h4, done_bind, pure_eq, ne_eq, not_true_eq_false, if_false]

theorem makeNumberToken_minus (E : GoEnv) (s : List Char) (c : Nat)
    (hc : s[c]? = some '-') (hnext : ∀ d, s[c + 1]? = some d → isDigit E d = false) :
    ∃ p, makeNumberToken E s c = .panic p := by
  have hidx := index_of_getElem? s _ _ hc
  cases hn : s[c + 1]? with
  | none =>
    refine ⟨.runtime (.indexOutOfRange (c + 1) s.length), ?_⟩
    have hidx1 : index s (c + 1) = .panic (.runtime (.indexOutOfRange (c + 1) s.length)) := by
      simp only [index, hn]
    simp [makeNumberToken, hidx, hidx1]
  | some d =>
    refine ⟨.str "no number after -", ?_⟩
    have hidx1 := index_of_getElem? s _ _ hn
    simp [makeNumberToken, hidx, hidx1, hnext d hn]

theorem makeNumberToken_digits_dot (E : GoEnv) (s : List Char) (c start e : Nat) (x : Char)
    (hc : s[c]? = some x)
    (hstart : (start = c ∧ x ≠ '-') ∨ (x = '-' ∧ start = c + 1))
    (hlt : start < e)
    (hdig : ∀ i, start ≤ i → i < e → ∃ d, s[i]? = some d ∧ isDigit E d = true)
    (hdot : s[e]? = some '.')
    (hnext : ∀ d, s[e + 1]? = some d → isDigit E d = false) :
    makeNumberToken E s c = .panic (.str "couldn't parse float") := by
  have hidx := index_of_getElem? s _ _ hc
  obtain ⟨d0, hd0, hdig0⟩ := hdig start (le_refl _) hlt
  have hidx0 := index_of_getElem? s _ _ hd0
  have hloop : loopWhile (fun e => isDigit E (safeGetCurrentRune s e)) (s.length + 1) start
      = e := by
    apply loopWhile_eq
    · intro i h1 h2
      obtain ⟨d, hd, hdd⟩ := hdig i h1 h2
      simp only [safeGetCurrentRune_of_getElem? s i d hd, hdd]
    · simp only [safeGetCurrentRune_of_getElem? s e _ hdot]
      rfl
    · omega
    · have := length_of_getElem? s e _ hdot
      omega
  have hcur := safeGetCurrentRune_of_getElem? s e _ hdot
  have hnx := isDigit_safeGetNextRune E s e hnext
  rcases hstart with ⟨rfl, hx⟩ | ⟨rfl, rfl⟩
  · obtain rfl : d0 = x := Option.some.inj (hd0.symm.trans hc)
    simp [makeNumberToken, hidx, hx, hdig0, hloop, hcur, hnx]
  · simp [makeNumberToken, hidx, hidx0, hdig0, hloop, hcur, hnx]

theorem loopWhile_stop (cond : Nat → Bool) (fuel start : Nat) (h : cond start = false) :
    loopWhile cond fuel start = start := by
  cases fuel with
  | zero => rfl
  | succ f => simp [loopWhile, h]

theorem lexStep_dot (E : GoEnv) (s : List Char) (st : LexState)
    (hc : s[st.cursor]? = some '.') : ∃ p, lexStep E s st = .panic p := by
  have hidx := index_of_getElem? s _ _ hc
  have hcur := safeGetCurrentRune_of_getElem? s _ _ hc
  have hnum : makeNumberToken E s st.cursor = done (st.cursor, none) := by
    have hd : isDigit E '.' = false := rfl
    simp [makeNumberToken, hidx, hd]
  have hloop : loopWhile (fun e => isLetter E (safeGetCurrentRune s e)) (s.length + 1)
      st.cursor = st.cursor := by
    apply loopWhile_stop
    simp only [hcur]
    rfl
  have hslice : slice s st.cursor st.cursor = [] := by simp [slice]
  have hb : ¬ (String.mk [] = "true" ∨ String.mk [] = "false") := by decide
  have hn : ¬ (String.mk [] = "null") := by decide
  have hbool : makeBooleanToken E s st.cursor = (st.cursor, none) := by
    simp only [makeBooleanToken, hloop, hslice, if_neg hb]
  have hnull : makeNullToken E s st.cursor = (st.cursor, none) := by
    simp only [makeNullToken, hloop, hslice, if_neg hn]
  refine ⟨.str ("failed to parse JSON at (line " ++ toString st.lineNumber ++
    ", column " ++ toString st.linePosition ++ ")"), ?_⟩
  rw [lexStep_before_number E s st '.' hc (by decide) (by decide) (by decide)]
  simp only [hnum, done_bind, hbool, hnull]

/-- At a malformed numeric form the iteration of the lexer's loop panics. -/
theorem lexStep_malformed (E : GoEnv) (s : List Char) (st : LexState)
    (h : MalformedNumberAt E s st.cursor) : ∃ p, lexStep E s st = .panic p := by
  rcases h with ⟨hc, hnext⟩ | ⟨start, e, hstart, hlt, hdig, hdot, hnext⟩ | hc
  · obtain ⟨p, hp⟩ := makeNumberToken_minus E s _ hc hnext
    refine ⟨p, ?_⟩
    rw [lexStep_before_number E s st '-' hc (by decide) (by decide) (by decide), hp]
    rfl
  · refine ⟨.str "couldn't parse float", ?_⟩
    rcases hstart with ⟨rfl, hsp⟩ | ⟨hc, rfl⟩
    · obtain ⟨x, hx, hxd⟩ := hdig _ (le_refl _) hlt
      have hne := isDigit_ne E x hxd
      rw [lexStep_before_number E s st x hx (hsp x hx)
        ⟨hne.2.2.1, hne.2.2.2.1, hne.2.2.2.2.1, hne.2.2.2.2.2.1, hne.2.2.2.2.2.2.1,
          hne.2.2.2.2.2.2.2.1⟩ hne.2.2.2.2.2.2.2.2.1,
        makeNumberToken_digits_dot E s _ _ e x hx (Or.inl ⟨rfl, hne.2.2.2.2.2.2.2.2.2.1⟩) hlt
          hdig hdot hnext]
      rfl
    · rw [lexStep_before_number E s st '-' hc (by decide) (by decide) (by decide),
        makeNumberToken_digits_dot E s _ _ e '-' hc (Or.inr ⟨rfl, rfl⟩) hlt hdig hdot hnext]
      rfl
  · exact lexStep_dot E s st hc

/-- The loop of `buildTokens` from its start and from a state it reaches. -/
theorem buildTokensLoop_of_reach (E : GoEnv) (s : List Char) (n : Nat) (st : LexState)
    (h : LexReach E s n st) :
    ∀ k, buildTokensLoop E s (n + k) LexState.init = buildTokensLoop E s k st := by
  induction h with
  | start => intro k; simp
  | @step n st st' _ hlt hstep ih =>
    intro k
    have : n + 1 + k = n + (k + 1) := by omega
    rw [this, ih (k + 1)]
    simp only [buildTokensLoop, hlt, if_true, hstep]

theorem cursor_lt_of_malformed (E : GoEnv) (s : List Char) (c : Nat)
    (h : MalformedNumberAt E s c) : c < s.length := by
  rcases h with ⟨hc, _⟩ | ⟨start, e, hstart, hlt, hdig, _, _⟩ | hc
  · exact length_of_getElem? s c _ hc
  · rcases hstart with ⟨rfl, _⟩ | ⟨hc, _⟩
    · obtain ⟨d, hd, _⟩ := hdig _ (le_refl _) hlt
      exact length_of_getElem? s _ _ hd
    · exact length_of_getElem? s c _ hc
  · exact length_of_getElem? s c _ hc

/-! ## A quoted text -/

theorem quoted_getElem?_zero (body : List Char) :
    ('"' :: (body ++ ['"']))[0]? = some '"' := by
  simp

theorem quoted_getElem?_body (body : List Char) (i : Nat) (h : i < body.length) :
    ('"' :: (body ++ ['"']))[i + 1]? = some body[i] := by
  simp [List.getElem?_append_left h, List.getElem?_eq_getElem h]

theorem quoted_getElem?_close (body : List Char) :
    ('"' :: (body ++ ['"']))[body.length + 1]? = some '"' := by
  simp

/-- The lexer on a quoted text without an inner quote: one String token that holds
the text between the quotes. -/
theorem buildTokens_quoted (E : GoEnv) (body : List Char) (hq : '"' ∉ body) (fuel : Nat)
    (hf : 2 ≤ fuel) :
    buildTokens E fuel ('"' :: (body ++ ['"']))
      = done [⟨stringToken, String.mk body, 1,
          ((body.length + 2 : Nat) : Int) - 1 - ((String.mk body).utf8ByteSize : Int)⟩] := by
  obtain ⟨f, rfl⟩ : ∃ f, fuel = f + 2 := ⟨fuel - 2, by omega⟩
  have hlen : ('"' :: (body ++ ['"'])).length = body.length + 2 := by simp
  have hcur := safeGetCurrentRune_of_getElem? _ 0 _ (quoted_getElem?_zero body)
  have hidx := index_of_getElem? _ 0 _ (quoted_getElem?_zero body)
  have h1 : consumeLineReturn ('"' :: (body ++ ['"'])) 0 = (0, 0) := by
    simp [consumeLineReturn, hcur]
  have h2 : consumeWhiteSpace ('"' :: (body ++ ['"'])) 0 = done 0 := by
    have : isSpace '"' = false := by decide
    simp [consumeWhiteSpace, hidx, this]
  have h3 : makeSymbolToken ('"' :: (body ++ ['"'])) 0 = done (0, none) := by
    simp [makeSymbolToken, hidx]
  have hloop : loopWhile
      (fun e => safeGetCurrentRune ('"' :: (body ++ ['"'])) e != '"' &&
        !hasConsumedAllRunes ('"' :: (body ++ ['"'])) e)
      (('"' :: (body ++ ['"'])).length + 1) (0 + 1) = body.length + 1 := by
    apply loopWhile_eq
    · intro i h1 h2
      obtain ⟨j, rfl⟩ : ∃ j, i = j + 1 := ⟨i - 1, by omega⟩
      have hj : j < body.length := by omega
      have hne : body[j] ≠ '"' := fun h => hq (h ▸ List.getElem_mem _)
      rw [safeGetCurrentRune_of_getElem? _ _ _ (quoted_getElem?_body body j hj)]
      simp [hne, hasConsumedAllRunes]
      omega
    · rw [safeGetCurrentRune_of_getElem? _ _ _ (quoted_getElem?_close body)]
      simp
    · omega
    · rw [hlen]; omega
  have hslice : slice ('"' :: (body ++ ['"'])) (0 + 1) (body.length + 1 + 1 - 1) = body := by
    simp [slice]
  have h4 : makeStringToken ('"' :: (body ++ ['"'])) 0
      = done (body.length + 2, some ⟨stringToken, String.mk body, 0, 0⟩) := by
    have hnc : hasConsumedAllRunes ('"' :: (body ++ ['"'])) (body.length + 1) = false := by
      simp [hasConsumedAllRunes]
    simp only [makeStringToken, hidx, done_bind, if_true, hloop, hnc, hslice]
    rfl
  have hstep : lexStep E ('"' :: (body ++ ['"'])) LexState.init
      = done (emit LexState.init (body.length + 2) ⟨stringToken, String.mk body, 0, 0⟩) := by
    have hc0 : LexState.init.cursor = 0 := rfl
    simp only [lexStep, hc0, h1, h2, h3, h4, done_bind, pure_eq, ne_eq, not_true_eq_false,
      if_false]
  show buildTokensLoop E _ (f + 2) LexState.init = _
  have hc0 : LexState.init.cursor < ('"' :: (body ++ ['"'])).length := by
    rw [hlen]; exact Nat.succ_pos _
  simp only [buildTokensLoop, hc0, if_true, hstep]
  have hc1 : ¬ (emit LexState.init (body.length + 2)
      ⟨stringToken, String.mk body, 0, 0⟩).cursor < ('"' :: (body ++ ['"'])).length := by
    rw [hlen]; simp [emit]
  simp only [hc1, if_false]
  rfl

/-- The parser on a single String token whose text is not `[`. -/
theorem parseJSONValue_string (E : GoEnv) (tok : token) (hk : tok.kind = stringToken)
    (hv : tok.value ≠ "[") (fuel : Nat) (hf : 2 ≤ fuel) :
    parseJSONValue E fuel [tok] 0 = done (1, .str tok.value) := by
  obtain ⟨f, rfl⟩ : ∃ f, fuel = f + 2 := ⟨fuel - 2, by omega⟩
  have hs : safeGetToken [tok] 0 = some tok := rfl
  simp [parseJSONValue, hasCompletedTokens_of_safeGetToken _ 0 tok hs, tryRecognizers,
    parseArray, parseBoolean, parseFloat, parseInteger, parseNil, parseString,
    index_of_safeGetToken _ 0 tok hs, hs, hk, hv]

/-- A quoted text without an inner quote, other than `"["`, parses to the text
between the quotes. -/
theorem Parse_string_body (E : GoEnv) (body : List Char) (hq : '"' ∉ body)
    (hb : body ≠ ['[']) (fuel : Nat) (hf : 2 ≤ fuel) :
    Parse E fuel (String.mk ('"' :: (body ++ ['"']))) = done (.str (String.mk body), none) := by
  have hl := buildTokens_quoted E body hq fuel hf
  have hv : (String.mk body) ≠ "[" := by
    intro h
    apply hb
    have := congrArg String.data h
    simpa using this
  exact Parse_of_done E fuel _ _ 1 _ hl
    (parseJSONValue_string E ⟨stringToken, String.mk body, 1, _⟩ rfl hv fuel hf) (by simp)

/-! ## The cursor of the lexer -/

theorem loopWhile_ge (cond : Nat → Bool) : ∀ (fuel start : Nat),
    start ≤ loopWhile cond fuel start := by
  intro fuel
  induction fuel with
  | zero => intro start; exact le_refl _
  | succ f ih =>
    intro start
    simp only [loopWhile]
    split
    · exact le_trans (Nat.le_succ _) (ih (start + 1))
    · exact le_refl _

/-- A loop whose condition fails from `n` on stops at `n` at the latest. -/
theorem loopWhile_le (cond : Nat → Bool) (n : Nat) (hn : ∀ e, n ≤ e → cond e = false) :
    ∀ (fuel start : Nat), start ≤ n → loopWhile cond fuel start ≤ n := by
  intro fuel
  induction fuel with
  | zero => intro start h; exact h
  | succ f ih =>
    intro start h
    simp only [loopWhile]
    split
    · rename_i hc
      have hlt : start < n := by
        by_contra hge
        rw [hn start (by omega)] at hc
        cases hc
      exact ih (start + 1) hlt
    · exact h

/-- With a budget of `n + 1` tests such a loop stops because its condition
fails, not because the budget ends. -/
theorem loopWhile_exit (cond : Nat → Bool) (n : Nat) (hn : ∀ e, n ≤ e → cond e = false) :
    ∀ (fuel start : Nat), n < start + fuel → cond (loopWhile cond fuel start) = false := by
  intro fuel
  induction fuel with
  | zero => intro start h; exact hn _ (by simpa [loopWhile] using le_of_lt h)
  | succ f ih =>
    intro start h
    simp only [loopWhile]
    split
    · exact ih (start + 1) (by omega)
    · rename_i hc
      simpa using hc

theorem loopWhile_gt (cond : Nat → Bool) (fuel start : Nat) (h : cond start = true) :
    start < loopWhile cond (fuel + 1) start := by
  simp only [loopWhile, h, if_true]
  exact lt_of_lt_of_le (Nat.lt_succ_self _) (loopWhile_ge cond fuel (start + 1))

theorem safeGetCurrentRune_end (s : List Char) (e : Nat) (h : s.length ≤ e) :
    safeGetCurrentRune s e = Char.ofNat 0 := by
  simp [safeGetCurrentRune, hasConsumedAllRunes, h]

theorem isDigit_cond_end (E : GoEnv) (s : List Char) (e : Nat) (h : s.length ≤ e) :
    isDigit E (safeGetCurrentRune s e) = false := by
  rw [safeGetCurrentRune_end s e h]; rfl

theorem isLetter_cond_end (E : GoEnv) (s : List Char) (e : Nat) (h : s.length ≤ e) :
    isLetter E (safeGetCurrentRune s e) = false := by
  rw [safeGetCurrentRune_end s e h]; rfl

theorem string_cond_end (s : List Char) (e : Nat) (h : s.length ≤ e) :
    (safeGetCurrentRune s e != '"' && !hasConsumedAllRunes s e) = false := by
  simp [hasConsumedAllRunes, h]

theorem consumeLineReturn_cases (s : List Char) (c : Nat) :
    consumeLineReturn s c = (0, c) ∨ (consumeLineReturn s c = (1, c + 1) ∧ c < s.length) := by
  unfold consumeLineReturn
  by_cases hlt : c < s.length
  · simp only []
    split
    · exact Or.inr ⟨rfl, hlt⟩
    · split
      · exact Or.inr ⟨rfl, hlt⟩
      · exact Or.inl rfl
  · left
    have : safeGetCurrentRune s c = Char.ofNat 0 := safeGetCurrentRune_end s c (by omega)
    simp only [this]
    rfl

theorem consumeWhiteSpace_cases (s : List Char) (c : Nat) (r : Nat)
    (h : consumeWhiteSpace s c = done r) : c < s.length ∧ (r = c ∨ r = c + 1) := by
  unfold consumeWhiteSpace at h
  cases hx : index s c with
  | outOfFuel => simp [hx] at h
  | panic p => simp [hx] at h
  | done x =>
    have hlt : c < s.length := by
      unfold index at hx
      split at hx
      · rename_i a ha
        exact (List.getElem?_eq_some.mp ha).1
      · cases hx
    simp only [hx, done_bind] at h
    split at h
    · cases h; exact ⟨hlt, Or.inr rfl⟩
    · cases h; exact ⟨hlt, Or.inl rfl⟩

theorem makeSymbolToken_cases (s : List Char) (c : Nat) (r : Nat × Option token)
    (h : makeSymbolToken s c = done r) :
    (r = (c, none)) ∨ (c < s.length ∧ r.1 = c + 1 ∧ r.2.isSome = true) := by
  unfold makeSymbolToken at h
  cases hx : index s c with
  | outOfFuel => simp [hx] at h
  | panic p => simp [hx] at h
  | done x =>
    have hlt : c < s.length := by
      unfold index at hx
      split at hx
      · rename_i a ha
        exact (List.getElem?_eq_some.mp ha).1
      · cases hx
    simp only [hx, done_bind] at h
    split at h
    · cases h; exact Or.inr ⟨hlt, rfl, rfl⟩
    · cases h; exact Or.inl rfl

theorem makeStringToken_cases (s : List Char) (c : Nat) (r : Nat × Option token)
    (h : makeStringToken s c = done r) :
    (r = (c, none)) ∨ (c < r.1 ∧ r.1 ≤ s.length ∧ r.2.isSome = true) := by
  unfold makeStringToken at h
  cases hx : index s c with
  | outOfFuel => simp [hx] at h
  | panic p => simp [hx] at h
  | done x =>
    simp only [hx, done_bind] at h
    split at h
    · split at h
      · cases h
      · rename_i hnc
        cases h
        right
        have hge := loopWhile_ge
          (fun e => safeGetCurrentRune s e != '"' && !hasConsumedAllRunes s e)
          (s.length + 1) (c + 1)
        have hlt : loopWhile
            (fun e => safeGetCurrentRune s e != '"' && !hasConsumedAllRunes s e)
            (s.length + 1) (c + 1) < s.length := by
          simpa [hasConsumedAllRunes] using hnc
        exact ⟨by simp only []; omega, by simp only []; omega, rfl⟩
    · cases h; exact Or.inl rfl

theorem makeNumberToken_cases (E : GoEnv) (s : List Char) (c : Nat)
    (r : Nat × Option token) (h : makeNumberToken E s c = done r) :
    (r = (c, none)) ∨ (c < r.1 ∧ r.1 ≤ s.length ∧ r.2.isSome = true) := by
  unfold makeNumberToken at h
  cases hx : index s c with
  | outOfFuel => simp [hx] at h
  | panic p => simp [hx] at h
  | done x =>
    simp only [hx, done_bind] at h
    have hstart : c ≤ (if decide (x = '-') = true then c + 1 else c) := by
      split <;> omega
    generalize (if decide (x = '-') = true then c + 1 else c) = start at h hstart
    cases hy : index s start with
    | outOfFuel => simp [hy] at h
    | panic p => simp [hy] at h
    | done d =>
      simp only [hy, done_bind] at h
      have hslt : start < s.length := by
        unfold index at hy
        split at hy
        · rename_i a ha
          exact (List.getElem?_eq_some.mp ha).1
        · cases hy
      have hd : safeGetCurrentRune s start = d := by
        unfold index at hy
        split at hy
        · rename_i a ha
          cases hy
          exact safeGetCurrentRune_of_getElem? s start _ ha
        · cases hy
      split at h
      · rename_i hdig
        have hgt : start < loopWhile (fun e => isDigit E (safeGetCurrentRune s e))
            (s.length + 1) start :=
          loopWhile_gt _ _ _ (by simp only [hd, hdig])
        have hle : loopWhile (fun e => isDigit E (safeGetCurrentRune s e))
            (s.length + 1) start ≤ s.length :=
          loopWhile_le _ s.length (isDigit_cond_end E s) _ _ (le_of_lt hslt)
        split at h
        · rename_i hdot
          split at h
          · cases h
          · cases h
            right
            have hdlt : loopWhile (fun e => isDigit E (safeGetCurrentRune s e))
                (s.length + 1) start < s.length := by
              by_contra hge
              rw [safeGetCurrentRune_end s _ (by omega)] at hdot
              revert hdot
              decide
            have hge2 := loopWhile_ge (fun e => isDigit E (safeGetCurrentRune s e))
              (s.length + 1) (loopWhile (fun e => isDigit E (safeGetCurrentRune s e))
                (s.length + 1) start + 1)
            have hle2 := loopWhile_le (fun e => isDigit E (safeGetCurrentRune s e)) s.length
              (isDigit_cond_end E s) (s.length + 1)
              (loopWhile (fun e => isDigit E (safeGetCurrentRune s e))
                (s.length + 1) start + 1) (by omega)
            exact ⟨by simp only []; omega, hle2, rfl⟩
        · cases h
          right
          exact ⟨by simp only []; omega, hle, rfl⟩
      · split at h
        · cases h
        · cases h; exact Or.inl rfl
theorem letters_cases (E : GoEnv) (s : List Char) (c : Nat) (hc : c ≤ s.length)
    (v : String) (hv : v ≠ "")
    (h : String.mk (slice s c (loopWhile (fun e => isLetter E (safeGetCurrentRune s e))
      (s.length + 1) c)) = v) :
    c < loopWhile (fun e => isLetter E (safeGetCurrentRune s e)) (s.length + 1) c ∧
      loopWhile (fun e => isLetter E (safeGetCurrentRune s e)) (s.length + 1) c ≤ s.length := by
  have hle := loopWhile_le (fun e => isLetter E (safeGetCurrentRune s e)) s.length
    (isLetter_cond_end E s) (s.length + 1) c hc
  have hge := loopWhile_ge (fun e => isLetter E (safeGetCurrentRune s e)) (s.length + 1) c
  refine ⟨?_, hle⟩
  by_contra hnot
  have heq : loopWhile (fun e => isLetter E (safeGetCurrentRune s e)) (s.length + 1) c = c := by
    omega
  rw [heq] at h
  apply hv
  rw [← h]
  simp [slice]

theorem makeBooleanToken_cases (E : GoEnv) (s : List Char) (c : Nat) (hc : c ≤ s.length) :
    makeBooleanToken E s c = (c, none) ∨
      (c < (makeBooleanToken E s c).1 ∧ (makeBooleanToken E s c).1 ≤ s.length ∧
        (makeBooleanToken E s c).2.isSome = true) := by
  unfold makeBooleanToken
  simp only []
  split
  · rename_i hv
    right
    rcases hv with hv | hv
    · have := letters_cases E s c hc "true" (by decide) hv
      exact ⟨this.1, this.2, rfl⟩
    · have := letters_cases E s c hc "false" (by decide) hv
      exact ⟨this.1, this.2, rfl⟩
  · exact Or.inl rfl

theorem makeNullToken_cases (E : GoEnv) (s : List Char) (c : Nat) (hc : c ≤ s.length) :
    makeNullToken E s c = (c, none) ∨
      (c < (makeNullToken E s c).1 ∧ (makeNullToken E s c).1 ≤ s.length ∧
        (makeNullToken E s c).2.isSome = true) := by
  unfold makeNullToken
  simp only []
  split
  · rename_i hv
    right
    have := letters_cases E s c hc "null" (by decide) hv
    exact ⟨this.1, this.2, rfl⟩
  · exact Or.inl rfl

theorem emit_cursor (st : LexState) (c : Nat) (t : token) : (emit st c t).cursor = c := rfl

/-- An iteration of the loop of `buildTokens` that does not panic moves the cursor
forward, and not beyond the end of the input. -/
theorem lexStep_progress (E : GoEnv) (s : List Char) (st st' : LexState)
    (hlt : st.cursor < s.length) (h : lexStep E s st = done st') :
    st.cursor < st'.cursor ∧ st'.cursor ≤ s.length := by
  unfold lexStep at h
  rcases consumeLineReturn_cases s st.cursor with h1 | ⟨h1, _⟩
  · simp only [h1, ne_eq, not_true_eq_false, if_false] at h
    cases hws : consumeWhiteSpace s st.cursor with
    | outOfFuel => simp [hws] at h
    | panic p => simp [hws] at h
    | done w =>
      simp only [hws, done_bind] at h
      rcases (consumeWhiteSpace_cases s st.cursor w hws).2 with rfl | rfl
      · simp only [ne_eq, not_true_eq_false, if_false] at h
        cases hsym : makeSymbolToken s st.cursor with
        | outOfFuel => simp [hsym] at h
        | panic p => simp [hsym] at h
        | done r1 =>
          simp only [hsym, done_bind] at h
          rcases makeSymbolToken_cases s st.cursor r1 hsym with rfl | ⟨_, h2, h3⟩
          · simp only [] at h
            cases hstr : makeStringToken s st.cursor with
            | outOfFuel => simp [hstr] at h
            | panic p => simp [hstr] at h
            | done r2 =>
              simp only [hstr, done_bind] at h
              rcases makeStringToken_cases s st.cursor r2 hstr with rfl | ⟨h4, h5, h6⟩
              · simp only [] at h
                cases hnum : makeNumberToken E s st.cursor with
                | outOfFuel => simp [hnum] at h
                | panic p => simp [hnum] at h
                | done r3 =>
                  simp only [hnum, done_bind] at h
                  rcases makeNumberToken_cases E s st.cursor r3 hnum with rfl | ⟨h7, h8, h9⟩
                  · simp only [] at h
                    rcases makeBooleanToken_cases E s st.cursor (le_of_lt hlt) with
                      hb | ⟨hb1, hb2, hb3⟩
                    · simp only [hb] at h
                      rcases makeNullToken_cases E s st.cursor (le_of_lt hlt) with
                        hn | ⟨hn1, hn2, hn3⟩
                      · simp [hn] at h
                      · obtain ⟨t, ht⟩ := Option.isSome_iff_exists.mp hn3
                        simp only [ht, pure_eq] at h
                        cases h
                        exact ⟨hn1, hn2⟩
                    · obtain ⟨t, ht⟩ := Option.isSome_iff_exists.mp hb3
                      simp only [ht, pure_eq] at h
                      cases h
                      exact ⟨hb1, hb2⟩
                  · obtain ⟨c3, o3⟩ := r3
                    obtain ⟨t, ht⟩ := Option.isSome_iff_exists.mp h9
                    simp only [] at ht h7 h8
                    subst ht
                    simp only [pure_eq] at h
                    cases h
                    exact ⟨h7, h8⟩
              · obtain ⟨c2, o2⟩ := r2
                obtain ⟨t, ht⟩ := Option.isSome_iff_exists.mp h6
                simp only [] at ht h4 h5
                subst ht
                simp only [pure_eq] at h
                cases h
                exact ⟨h4, h5⟩
          · obtain ⟨c1, o1⟩ := r1
            obtain ⟨t, ht⟩ := Option.isSome_iff_exists.mp h3
            simp only [] at ht h2
            subst ht h2
            simp only [pure_eq] at h
            cases h
            exact ⟨Nat.lt_succ_self _, hlt⟩
      · simp only [ne_eq, Nat.succ_ne_self, not_false_eq_true, if_true, pure_eq] at h
        cases h
        exact ⟨Nat.lt_succ_self _, hlt⟩
  · simp only [h1, ne_eq, Nat.succ_ne_self, not_false_eq_true, if_true, pure_eq,
      one_ne_zero] at h
    cases h
    exact ⟨Nat.lt_succ_self _, hlt⟩
theorem bind_ne_outOfFuel {α β : Type} (x : Run α) (f : α → Run β)
    (hx : x ≠ .outOfFuel) (hf : ∀ a, f a ≠ .outOfFuel) : (x >>= f) ≠ .outOfFuel := by
  cases x with
  | done a => exact hf a
  | panic p => intro h; cases h
  | outOfFuel => exact absurd rfl hx

theorem index_ne_outOfFuel {α : Type} (s : List α) (i : Nat) : index s i ≠ .outOfFuel := by
  unfold index
  split <;> (intro h; cases h)

theorem consumeWhiteSpace_ne_outOfFuel (s : List Char) (c : Nat) :
    consumeWhiteSpace s c ≠ .outOfFuel := by
  unfold consumeWhiteSpace
  refine bind_ne_outOfFuel _ _ (index_ne_outOfFuel s c) ?_
  intro a
  split <;> (intro h; cases h)

theorem makeSymbolToken_ne_outOfFuel (s : List Char) (c : Nat) :
    makeSymbolToken s c ≠ .outOfFuel := by
  unfold makeSymbolToken
  refine bind_ne_outOfFuel _ _ (index_ne_outOfFuel s c) ?_
  intro a
  split <;> (intro h; cases h)

theorem makeStringToken_ne_outOfFuel (s : List Char) (c : Nat) :
    makeStringToken s c ≠ .outOfFuel := by
  intro h
  unfold makeStringToken at h
  cases hx : index s c with
  | outOfFuel => exact index_ne_outOfFuel s c hx
  | panic p => simp [hx] at h
  | done x =>
    simp only [hx, done_bind] at h
    split at h
    · split at h <;> cases h
    · cases h

theorem makeNumberToken_ne_outOfFuel (E : GoEnv) (s : List Char) (c : Nat) :
    makeNumberToken E s c ≠ .outOfFuel := by
  intro h
  unfold makeNumberToken at h
  cases hx : index s c with
  | outOfFuel => exact index_ne_outOfFuel s c hx
  | panic p => simp [hx] at h
  | done x =>
    simp only [hx, done_bind] at h
    generalize (if decide (x = '-') = true then c + 1 else c) = start at h
    cases hy : index s start with
    | outOfFuel => exact index_ne_outOfFuel s start hy
    | panic p => simp [hy] at h
    | done y =>
      simp only [hy, done_bind] at h
      split at h
      · split at h
        · split at h <;> cases h
        · cases h
      · split at h <;> cases h

/-- An iteration of the loop of `buildTokens` returns or panics. -/
theorem lexStep_ne_outOfFuel (E : GoEnv) (s : List Char) (st : LexState) :
    lexStep E s st ≠ .outOfFuel := by
  intro h
  unfold lexStep at h
  simp only [] at h
  split at h
  · cases h
  · cases hws : consumeWhiteSpace s st.cursor with
    | outOfFuel => exact consumeWhiteSpace_ne_outOfFuel s _ hws
    | panic p => simp [hws] at h
    | done w =>
      simp only [hws, done_bind] at h
      split at h
      · cases h
      · cases hsym : makeSymbolToken s st.cursor with
        | outOfFuel => exact makeSymbolToken_ne_outOfFuel s _ hsym
        | panic p => simp [hsym] at h
        | done r1 =>
          simp only [hsym, done_bind] at h
          split at h
          · cases h
          · cases hstr : makeStringToken s r1.1 with
            | outOfFuel => exact makeStringToken_ne_outOfFuel s _ hstr
            | panic p => simp [hstr] at h
            | done r2 =>
              simp only [hstr, done_bind] at h
              split at h
              · cases h
              · cases hnum : makeNumberToken E s r2.1 with
                | outOfFuel => exact makeNumberToken_ne_outOfFuel E s _ hnum
                | panic p => simp [hnum] at h
                | done r3 =>
                  simp only [hnum, done_bind] at h
                  repeat' split at h
                  all_goals cases h

/-- The loop of `buildTokens` ends within as many iterations as characters are
left. -/
theorem buildTokensLoop_terminates (E : GoEnv) (s : List Char) :
    ∀ (fuel : Nat) (st : LexState), st.cursor ≤ s.length → s.length - st.cursor < fuel →
      buildTokensLoop E s fuel st ≠ .outOfFuel := by
  intro fuel
  induction fuel with
  | zero => intro st _ h; omega
  | succ f ih =>
    intro st hle hf
    simp only [buildTokensLoop]
    split
    · rename_i hlt
      cases hstep : lexStep E s st with
      | outOfFuel => exact absurd hstep (lexStep_ne_outOfFuel E s st)
      | panic p => intro h; cases h
      | done st' =>
        have hp := lexStep_progress E s st st' hlt hstep
        exact ih st' hp.2 (by omega)
    · intro h; cases h

/-- When the loop of `buildTokens` returns, it has reached a state whose cursor is
the length of the input and whose tokens it returns. -/
theorem buildTokensLoop_done (E : GoEnv) (s : List Char) :
    ∀ (fuel n : Nat) (st : LexState) (toks : List token), LexReach E s n st →
      st.cursor ≤ s.length → buildTokensLoop E s fuel st = done toks →
      ∃ m st', LexReach E s m st' ∧ st'.cursor = s.length ∧ st'.tokens = toks := by
  intro fuel
  induction fuel with
  | zero => intro n st toks _ _ h; cases h
  | succ f ih =>
    intro n st toks hr hle h
    simp only [buildTokensLoop] at h
    split at h
    · rename_i hlt
      cases hstep : lexStep E s st with
      | outOfFuel => simp [hstep] at h
      | panic p => simp [hstep] at h
      | done st' =>
        simp only [hstep] at h
        have hp := lexStep_progress E s st st' hlt hstep
        exact ih (n + 1) st' toks (.step hr hlt hstep) hp.2 h
    · rename_i hge
      cases h
      exact ⟨n, st, hr, by omega, rfl⟩

/-! ## The cursor of the parser -/

theorem cursorOK_same (t : List token) (i : Nat) (v : Any) (h : i ≤ t.length) :
    CursorOK t i (i, v) :=
  ⟨le_refl _, h, fun _ => rfl, fun h => absurd h (lt_irrefl _)⟩

theorem cursorOK_next (t : List token) (i : Nat) (v : Any) (h : i < t.length)
    (hv : v.isError = false) : CursorOK t i (i + 1, v) :=
  ⟨Nat.le_succ _, h, fun h' => by simp [hv] at h', fun _ => hv⟩

theorem parseInteger_cursor (t : List token) (i : Nat) (r : Nat × Any) (hi : i < t.length)
    (h : parseInteger t i = done r) : CursorOK t i r := by
  unfold parseInteger at h
  cases hx : index t i with
  | outOfFuel => simp [hx] at h
  | panic p => simp [hx] at h
  | done tok =>
    simp only [hx, done_bind] at h
    split at h
    · split at h
      · cases h; exact cursorOK_same t i _ (le_of_lt hi)
      · cases h; exact cursorOK_next t i _ hi rfl
    · cases h; exact cursorOK_same t i _ (le_of_lt hi)

theorem parseFloat_cursor (E : GoEnv) (t : List token) (i : Nat) (r : Nat × Any)
    (hi : i < t.length) (h : parseFloat E t i = done r) : CursorOK t i r := by
  unfold parseFloat at h
  cases hx : index t i with
  | outOfFuel => simp [hx] at h
  | panic p => simp [hx] at h
  | done tok =>
    simp only [hx, done_bind] at h
    split at h
    · split at h
      · cases h
      · cases h; exact cursorOK_next t i _ hi rfl
    · cases h; exact cursorOK_same t i _ (le_of_lt hi)

theorem parseBoolean_cursor (t : List token) (i : Nat) (r : Nat × Any) (hi : i < t.length)
    (h : parseBoolean t i = done r) : CursorOK t i r := by
  unfold parseBoolean at h
  cases hx : index t i with
  | outOfFuel => simp [hx] at h
  | panic p => simp [hx] at h
  | done tok =>
    simp only [hx, done_bind] at h
    split at h
    · split at h
      · cases h; exact cursorOK_next t i _ hi rfl
      · split at h
        · cases h; exact cursorOK_next t i _ hi rfl
        · cases h; exact cursorOK_same t i _ (le_of_lt hi)
    · cases h; exact cursorOK_same t i _ (le_of_lt hi)

theorem parseString_cursor (t : List token) (i : Nat) (r : Nat × Any) (hi : i < t.length)
    (h : parseString t i = done r) : CursorOK t i r := by
  unfold parseString at h
  split at h
  · split at h
    · cases h; exact cursorOK_next t i _ hi rfl
    · cases h; exact cursorOK_same t i _ (le_of_lt hi)
  · cases h; exact cursorOK_same t i _ (le_of_lt hi)

theorem parseNil_cursor (t : List token) (i : Nat) (r : Nat × Any) (hi : i < t.length)
    (h : parseNil t i = done r) : CursorOK t i r := by
  unfold parseNil at h
  split at h
  · split at h
    · cases h; exact cursorOK_next t i _ hi rfl
    · cases h; exact cursorOK_same t i _ (le_of_lt hi)
  · cases h; exact cursorOK_same t i _ (le_of_lt hi)

theorem length_of_safeGetToken (t : List token) (i : Nat) (tt : token)
    (h : safeGetToken t i = some tt) : i < t.length := by
  have := hasCompletedTokens_of_safeGetToken t i tt h
  simpa [hasCompletedTokens] using this

theorem tryRecognizers_cursor (t : List token) (i : Nat) (hi : i ≤ t.length) :
    ∀ (fs : List (List token → Nat → Run (Nat × Any))),
      (∀ f ∈ fs, ∀ r, f t i = done r → CursorOK t i r) →
      ∀ r, tryRecognizers t i fs = done (some r) → CursorOK t i r := by
  intro fs
  induction fs with
  | nil => intro _ r h; simp [tryRecognizers] at h
  | cons f fs ih =>
    intro hfs r h
    simp only [tryRecognizers] at h
    cases hf : f t i with
    | outOfFuel => simp [hf] at h
    | panic p => simp [hf] at h
    | done cv =>
      obtain ⟨c, v⟩ := cv
      have hok := hfs f (List.mem_cons_self _ _) _ hf
      simp only [hf] at h
      by_cases hc : c ≠ i
      · rw [if_pos hc] at h
        cases h
        exact hok
      · rw [if_neg hc] at h
        cases v <;> first
          | exact ih (fun g hg => hfs g (List.mem_cons_of_mem _ hg)) r h
          | (cases h; exact cursorOK_same t i _ hi)
theorem cursorOK_error (t : List token) (c : Nat) (e : GoError) (h : c ≤ t.length) :
    CursorOK t c (c, .error e) := cursorOK_same t c _ h

theorem cursorOK_close (t : List token) (c idx : Nat) (v : Any) (hc : c < idx)
    (hidx : idx < t.length) (hv : v.isError = false) : CursorOK t c (idx + 1, v) :=
  ⟨by omega, hidx, fun h => by simp [hv] at h, fun _ => hv⟩

theorem parser_cursor (E : GoEnv) : ∀ f : Nat,
    (∀ t c i s r, c < i → parseArrayLoop E f t c i s = done r → CursorOK t c r) ∧
    (∀ t c r, c < t.length → parseArray E f t c = done r → CursorOK t c r) ∧
    (∀ t c i m r, c < i → parseObjectLoop E f t c i m = done r → CursorOK t c r) ∧
    (∀ t c r, c < t.length → parseObject E f t c = done r → CursorOK t c r) ∧
    (∀ t c r, parseJSONValue E f t c = done r → CursorOK t c r) := by
  intro f
  induction f with
  | zero =>
    refine ⟨?_, ?_, ?_, ?_, ?_⟩ <;> intros <;>
      simp [parseArrayLoop, parseArray, parseObjectLoop, parseObject, parseJSONValue] at *
  | succ f ih =>
    obtain ⟨ihAL, ihA, ihOL, ihO, ihV⟩ := ih
    refine ⟨?_, ?_, ?_, ?_, ?_⟩
    · intro t c i s r hci h
      simp only [parseArrayLoop] at h
      cases hs : safeGetToken t i with
      | none => simp [hs, getTokenParseError] at h
      | some tt =>
        have hlen := length_of_safeGetToken t i tt hs
        simp only [hs] at h
        cases hv : parseJSONValue E f t i with
        | outOfFuel => simp [hv] at h
        | panic p => simp [hv] at h
        | done cv =>
          obtain ⟨vc, val⟩ := cv
          have hok := ihV t i _ hv
          have hvc : i ≤ vc := hok.1
          revert h
          simp only [hv, done_bind, getTokenParseError, pure_eq]
          repeat' split
          all_goals intro h
          all_goals first
            | exact ihAL t c _ _ r (by omega) h
            | (cases h; exact cursorOK_error t c _ (by omega))
            | (cases h; exact cursorOK_close t c i _ hci hlen rfl)
    · intro t c r hc h
      simp only [parseArray] at h
      revert h
      repeat' split
      all_goals intro h
      all_goals first
        | exact ihAL t c _ _ r (Nat.lt_succ_self _) h
        | (cases h; exact cursorOK_same t c _ (le_of_lt hc))
    · intro t c i m r hci h
      simp only [parseObjectLoop] at h
      cases hs : safeGetToken t i with
      | none => simp [hs, getTokenParseError] at h
      | some tt =>
        have hlen := length_of_safeGetToken t i tt hs
        have hkey : parseJSONKey t i = done (i + 1, .str tt.value) := by
          simp [parseJSONKey, hs]
        simp only [hs, hkey, done_bind] at h
        cases hkind : tt.kind with
        | stringToken =>
          simp only [hkind] at h
          cases hs1 : safeGetToken t (i + 1) with
          | none => simp [hs1, getTokenParseError] at h
          | some nt =>
            simp only [hs1] at h
            cases hv : parseJSONValue E f t (i + 1 + 1) with
            | outOfFuel => simp [hv] at h
            | panic p => simp [hv] at h
            | done cv =>
              obtain ⟨vc, val⟩ := cv
              have hok := ihV t _ _ hv
              have hvc : i + 1 + 1 ≤ vc := hok.1
              revert h
              simp only [hv, done_bind, getTokenParseError, pure_eq]
              repeat' split
              all_goals intro h
              all_goals first
                | exact ihOL t c _ _ r (by omega) h
                | (cases h; exact cursorOK_error t c _ (by omega))
                | cases h
        | symbolToken =>
          revert h
          simp only [hkind]
          repeat' split
          all_goals intro h
          all_goals first
            | exact ihOL t c _ _ r hci h
            | (cases h; exact cursorOK_close t c i _ hci hlen rfl)
        | intToken =>
          simp only [hkind, getTokenParseError, done_bind, pure_eq] at h
          cases h; exact cursorOK_error t c _ (by omega)
        | floatToken =>
          simp only [hkind, getTokenParseError, done_bind, pure_eq] at h
          cases h; exact cursorOK_error t c _ (by omega)
        | booleanToken =>
          simp only [hkind, getTokenParseError, done_bind, pure_eq] at h
          cases h; exact cursorOK_error t c _ (by omega)
        | nullToken =>
          simp only [hkind, getTokenParseError, done_bind, pure_eq] at h
          cases h; exact cursorOK_error t c _ (by omega)
        | endOfFileToken =>
          simp only [hkind, getTokenParseError, done_bind, pure_eq] at h
          cases h; exact cursorOK_error t c _ (by omega)
    · intro t c r hc h
      simp only [parseObject] at h
      revert h
      repeat' split
      all_goals intro h
      all_goals first
        | exact ihOL t c _ _ r (Nat.lt_succ_self _) h
        | (cases h; exact cursorOK_same t c _ (le_of_lt hc))
    · intro t c r h
      simp only [parseJSONValue] at h
      by_cases hc : (!hasCompletedTokens t c) = true
      · have hlt : c < t.length := by simpa [hasCompletedTokens] using hc
        simp only [hc, if_true] at h
        cases htry : tryRecognizers t c [parseArray E f, parseBoolean, parseFloat E,
            parseInteger, parseNil, parseString, parseObject E f] with
        | outOfFuel => simp [htry] at h
        | panic p => simp [htry] at h
        | done o =>
          simp only [htry, done_bind] at h
          cases o with
          | some cv =>
            simp only [pure_eq] at h
            cases h
            refine tryRecognizers_cursor t c (le_of_lt hlt) _ ?_ _ htry
            intro g hg r' hr'
            simp only [List.mem_cons, List.mem_singleton, List.not_mem_nil, or_false] at hg
            rcases hg with rfl | rfl | rfl | rfl | rfl | rfl | rfl
            · exact ihA t c r' hlt hr'
            · exact parseBoolean_cursor t c r' hlt hr'
            · exact parseFloat_cursor E t c r' hlt hr'
            · exact parseInteger_cursor t c r' hlt hr'
            · exact parseNil_cursor t c r' hlt hr'
            · exact parseString_cursor t c r' hlt hr'
            · exact ihO t c r' hlt hr'
          | none =>
            cases hx : index t c with
            | outOfFuel => simp [hx] at h
            | panic p => simp [hx] at h
            | done tok =>
              simp only [hx, done_bind, getTokenParseError, pure_eq] at h
              cases h
              exact cursorOK_error t c _ (le_of_lt hlt)
      · have hge : t.length ≤ c := by simpa [hasCompletedTokens] using hc
        rw [if_neg hc] at h
        have hx : index t c = .panic (.runtime (.indexOutOfRange c t.length)) := by
          simp [index, List.getElem?_eq_none hge]
        simp [hx] at h

/-! ## Number tokens -/

theorem isDigit_zero (E : GoEnv) : isDigit E (Char.ofNat 0) = false := by
  rw [isDigit_latin1 E latin1Env _ (by decide)]
  decide

/-- The loop over a run of digits stops at the end of the run. -/
theorem loopWhile_digits (E : GoEnv) (s : List Char) (start e : Nat) (hle : start ≤ e)
    (hes : e ≤ s.length)
    (hdig : ∀ i, start ≤ i → i < e → ∃ d, s[i]? = some d ∧ isDigit E d = true)
    (hend : ∀ d, s[e]? = some d → isDigit E d = false) :
    loopWhile (fun e => isDigit E (safeGetCurrentRune s e)) (s.length + 1) start = e := by
  apply loopWhile_eq
  · intro i h1 h2
    obtain ⟨d, hd, hdd⟩ := hdig i h1 h2
    simp only [safeGetCurrentRune_of_getElem? s i d hd, hdd]
  · cases he : s[e]? with
    | some d => simp only [safeGetCurrentRune_of_getElem? s e d he, hend d he]
    | none =>
      have hge : s.length ≤ e := by
        by_contra hc
        have := List.getElem?_eq_getElem (Nat.lt_of_not_le hc)
        rw [he] at this
        cases this
      simp [safeGetCurrentRune, hasConsumedAllRunes, hge, isDigit_zero]
  · exact hle
  · omega

theorem slice_minus (s : List Char) (c e : Nat) (hc : s[c]? = some '-') (hlt : c < e) :
    '-' :: slice s (c + 1) e = slice s c e := by
  have hl := length_of_getElem? s c _ hc
  rw [List.getElem?_eq_some] at hc
  obtain ⟨_, hc⟩ := hc
  unfold slice
  rw [List.drop_eq_getElem_cons hl, hc]
  have : e - c = (e - (c + 1)) + 1 := by omega
  rw [this, List.take_succ_cons]

/-- On an optional `-` and a run of digits that neither a digit nor a `.` follows,
`makeNumberToken` makes an Integer token of them. -/
theorem makeNumberToken_int (E : GoEnv) (s : List Char) (c start e : Nat) (x : Char)
    (hc : s[c]? = some x)
    (hstart : (start = c ∧ x ≠ '-') ∨ (x = '-' ∧ start = c + 1))
    (hlt : start < e)
    (hdig : ∀ i, start ≤ i → i < e → ∃ d, s[i]? = some d ∧ isDigit E d = true)
    (hend : ∀ d, s[e]? = some d → isDigit E d = false ∧ d ≠ '.') :
    makeNumberToken E s c = done (e, some ⟨intToken, String.mk (slice s c e), 0, 0⟩) := by
  have hidx := index_of_getElem? s _ _ hc
  obtain ⟨d0, hd0, hdig0⟩ := hdig start (le_refl _) hlt
  have hidx0 := index_of_getElem? s _ _ hd0
  have hes : e ≤ s.length := by
    obtain ⟨d, hd, _⟩ := hdig (e - 1) (by omega) (by omega)
    have := length_of_getElem? s _ _ hd
    omega
  have hloop := loopWhile_digits E s start e (le_of_lt hlt) hes hdig (fun d hd => (hend d hd).1)
  have hcur : safeGetCurrentRune s e ≠ '.' := by
    cases he : s[e]? with
    | some d =>
      rw [safeGetCurrentRune_of_getElem? s e d he]
      exact (hend d he).2
    | none =>
      have hge : s.length ≤ e := by
        by_contra hcon
        have := List.getElem?_eq_getElem (Nat.lt_of_not_le hcon)
        rw [he] at this
        cases this
      simp [safeGetCurrentRune, hasConsumedAllRunes, hge]
  rcases hstart with ⟨rfl, hx⟩ | ⟨rfl, rfl⟩
  · obtain rfl : d0 = x := Option.some.inj (hd0.symm.trans hc)
    simp [makeNumberToken, hidx, hx, hdig0, hloop, hcur]
  · simp [makeNumberToken, hidx, hidx0, hdig0, hloop, hcur]
    exact congrArg String.mk (slice_minus s c e hc (by omega))

/-- On an optional `-`, a run of digits, a `.` and a run of digits that no digit
follows, `makeNumberToken` makes a Float token of them. -/
theorem makeNumberToken_float (E : GoEnv) (s : List Char) (c start e e2 : Nat) (x : Char)
    (hc : s[c]? = some x)
    (hstart : (start = c ∧ x ≠ '-') ∨ (x = '-' ∧ start = c + 1))
    (hlt : start < e)
    (hdig : ∀ i, start ≤ i → i < e → ∃ d, s[i]? = some d ∧ isDigit E d = true)
    (hdot : s[e]? = some '.')
    (hlt2 : e + 1 < e2)
    (hdig2 : ∀ i, e + 1 ≤ i → i < e2 → ∃ d, s[i]? = some d ∧ isDigit E d = true)
    (hend : ∀ d, s[e2]? = some d → isDigit E d = false) :
    makeNumberToken E s c = done (e2, some ⟨floatToken, String.mk (slice s c e2), 0, 0⟩) := by
  have hidx := index_of_getElem? s _ _ hc
  obtain ⟨d0, hd0, hdig0⟩ := hdig start (le_refl _) hlt
  have hidx0 := index_of_getElem? s _ _ hd0
  have hes : e ≤ s.length := le_of_lt (length_of_getElem? s _ _ hdot)
  have hloop := loopWhile_digits E s start e (le_of_lt hlt) hes hdig
    (fun d hd => by
      obtain rfl : d = '.' := Option.some.inj (hd.symm.trans hdot)
      rfl)
  have hcur := safeGetCurrentRune_of_getElem? s e _ hdot
  obtain ⟨d1, hd1, hdig1⟩ := hdig2 (e + 1) (le_refl _) hlt2
  have hl1 := length_of_getElem? s _ _ hd1
  have hnx : isDigit E (safeGetNextRune s e) = true := by
    unfold safeGetNextRune
    rw [if_neg (by omega), List.getD_eq_getElem _ _ hl1]
    rw [List.getElem?_eq_some] at hd1
    obtain ⟨_, hd1⟩ := hd1
    rw [hd1]
    exact hdig1
  have hes2 : e2 ≤ s.length := by
    obtain ⟨d, hd, _⟩ := hdig2 (e2 - 1) (by omega) (by omega)
    have := length_of_getElem? s _ _ hd
    omega
  have hloop2 := loopWhile_digits E s (e + 1) e2 (le_of_lt hlt2) hes2 hdig2 hend
  rcases hstart with ⟨rfl, hx⟩ | ⟨rfl, rfl⟩
  · obtain rfl : d0 = x := Option.some.inj (hd0.symm.trans hc)
    simp [makeNumberToken, hidx, hx, hdig0, hloop, hcur, hnx, hloop2]
  · simp [makeNumberToken, hidx, hidx0, hdig0, hloop, hcur, hnx, hloop2]
    exact congrArg String.mk (slice_minus s c e2 hc (by omega))

theorem isDigit_of_isAsciiDigit (E : GoEnv) (c : Char) (h : isAsciiDigit c = true) :
    isDigit E c = true := by
  unfold isAsciiDigit at h
  unfold isDigit
  have h2 : c.toNat ≤ 0x39 := by
    simp only [Bool.and_eq_true, decide_eq_true_eq] at h
    exact h.2
  rw [if_pos (by unfold maxLatin1; omega)]
  exact h

theorem isSpace_of_isAsciiDigit (c : Char) (h : isAsciiDigit c = true) :
    isSpace c = false := by
  unfold isAsciiDigit at h
  simp only [Bool.and_eq_true, decide_eq_true_eq] at h
  unfold isSpace
  simp only [Bool.or_eq_false_iff, Bool.and_eq_false_iff, decide_eq_false_iff_not,
    beq_eq_false_iff_ne, ne_eq]
  omega

/-- The characters of the middle part of an input. -/
theorem getElem?_mid {α : Type} (a b c : List α) (i : Nat) (hi : i < b.length) :
    (a ++ b ++ c)[a.length + i]? = b[i]? := by
  rw [List.append_assoc, List.getElem?_append_right (Nat.le_add_right _ _)]
  simp only [Nat.add_sub_cancel_left]
  exact List.getElem?_append_left hi

theorem getElem?_mid_mem {α : Type} (a b c : List α) (i : Nat) (h1 : a.length ≤ i)
    (h2 : i < a.length + b.length) : ∃ d, (a ++ b ++ c)[i]? = some d ∧ d ∈ b := by
  obtain ⟨j, rfl⟩ : ∃ j, i = a.length + j := ⟨i - a.length, by omega⟩
  have hj : j < b.length := by omega
  rw [getElem?_mid a b c j hj, List.getElem?_eq_getElem hj]
  exact ⟨_, rfl, List.getElem_mem _⟩

/-- The character after the middle part of an input. -/
theorem getElem?_after {α : Type} (a b c : List α) :
    (a ++ b ++ c)[a.length + b.length]? = c.head? := by
  rw [← List.length_append, List.getElem?_append_right (le_refl _)]
  simp only [Nat.sub_self]
  cases c <;> simp

theorem slice_mid {α : Type} (a b c : List α) :
    slice (a ++ b ++ c) a.length (a.length + b.length) = b := by
  unfold slice
  rw [List.append_assoc, List.drop_left, Nat.add_sub_cancel_left, List.take_left]

theorem isAsciiDigit_ne_minus (c : Char) (h : isAsciiDigit c = true) : c ≠ '-' := by
  intro hc
  subst hc
  revert h
  decide

/-- On an input that holds at `pre.length` an optional `-` and the digits `ds`,
followed by `tl`. -/
theorem makeNumberToken_sign_digits (E : GoEnv) (pre tl : List Char) (neg : Bool)
    (ds : List Char) (hds : ds ≠ []) (hd : ∀ d ∈ ds, isAsciiDigit d = true) :
    ∃ (x : Char) (start : Nat),
      (pre ++ ((if neg then ['-'] else []) ++ ds) ++ tl)[pre.length]? = some x ∧
      ((start = pre.length ∧ x ≠ '-') ∨ (x = '-' ∧ start = pre.length + 1)) ∧
      start + ds.length = pre.length + ((if neg then ['-'] else []) ++ ds).length ∧
      start < start + ds.length ∧
      (∀ i, start ≤ i → i < start + ds.length →
        ∃ d, (pre ++ ((if neg then ['-'] else []) ++ ds) ++ tl)[i]? = some d ∧
          isDigit E d = true) := by
  have hpos : 0 < ds.length := List.length_pos.mpr hds
  cases neg with
  | false =>
    obtain ⟨d0, ds', rfl⟩ := List.exists_cons_of_ne_nil hds
    refine ⟨d0, pre.length, ?_, Or.inl ⟨rfl, isAsciiDigit_ne_minus d0 (hd d0 (by simp))⟩,
      by simp, by omega, ?_⟩
    · have := getElem?_mid pre (d0 :: ds') tl 0 (by simp)
      simpa using this
    · intro i h1 h2
      obtain ⟨d, hd1, hd2⟩ := getElem?_mid_mem pre (d0 :: ds') tl i h1 h2
      exact ⟨d, by simpa using hd1, isDigit_of_isAsciiDigit E d (hd d hd2)⟩
  | true =>
    refine ⟨'-', pre.length + 1, ?_, Or.inr ⟨rfl, rfl⟩, by simp; omega, by omega, ?_⟩
    · have := getElem?_mid pre ('-' :: ds) tl 0 (by simp)
      simpa using this
    · intro i h1 h2
      obtain ⟨d, hd1, hd2⟩ := getElem?_mid_mem (pre ++ ['-']) ds tl i (by simpa using h1)
        (by simpa using h2)
      exact ⟨d, by simpa using hd1, isDigit_of_isAsciiDigit E d (hd d hd2)⟩

/-- The result of `makeNumberToken` at a numeric literal of ASCII digits. -/
theorem makeNumberToken_of_literal (E : GoEnv) (pre rest : List Char) (neg : Bool)
    (ds fs : List Char) (hds : ds ≠ []) (hd : ∀ d ∈ ds, isAsciiDigit d = true)
    (hf : ∀ d ∈ fs, isAsciiDigit d = true)
    (hrest : ∀ d, rest.head? = some d → isDigit E d = false)
    (hdot : fs = [] → rest.head? ≠ some '.') :
    makeNumberToken E (pre ++ numberLiteral neg ds fs ++ rest) pre.length
      = done (pre.length + (numberLiteral neg ds fs).length,
          some ⟨if fs = [] then intToken else floatToken,
            String.mk (numberLiteral neg ds fs), 0, 0⟩) := by
  by_cases hfs : fs = []
  · subst hfs
    obtain ⟨x, start, hx, hstart, he, hlt, hdig⟩ :=
      makeNumberToken_sign_digits E pre rest neg ds hds hd
    have hlit : numberLiteral neg ds [] = (if neg then ['-'] else []) ++ ds := by
      simp [numberLiteral]
    rw [hlit, if_pos rfl, ← he]
    have hend : ∀ d, (pre ++ ((if neg then ['-'] else []) ++ ds) ++ rest)[start + ds.length]?
        = some d → isDigit E d = false ∧ d ≠ '.' := by
      intro d hd'
      rw [he, getElem?_after] at hd'
      exact ⟨hrest d hd', fun h => hdot rfl (h ▸ hd')⟩
    rw [makeNumberToken_int E _ pre.length start (start + ds.length) x hx hstart hlt hdig hend,
      he, slice_mid]
  · obtain ⟨x, start, hx, hstart, he, hlt, hdig⟩ :=
      makeNumberToken_sign_digits E pre ('.' :: fs ++ rest) neg ds hds hd
    have hs : pre ++ numberLiteral neg ds fs ++ rest
        = pre ++ ((if neg then ['-'] else []) ++ ds) ++ ('.' :: fs ++ rest) := by
      simp [numberLiteral, hfs]
    have hs2 : pre ++ numberLiteral neg ds fs ++ rest
        = (pre ++ ((if neg then ['-'] else []) ++ ds) ++ ['.']) ++ fs ++ rest := by
      simp [numberLiteral, hfs]
    have hlen : (numberLiteral neg ds fs).length
        = ((if neg then ['-'] else []) ++ ds).length + 1 + fs.length := by
      simp [numberLiteral, hfs]
      omega
    have hfpos : 0 < fs.length := List.length_pos.mpr hfs
    have ha : (pre ++ ((if neg then ['-'] else []) ++ ds) ++ ['.']).length
        = start + ds.length + 1 := by
      rw [he]
      simp
      omega
    have hdot' : (pre ++ numberLiteral neg ds fs ++ rest)[start + ds.length]? = some '.' := by
      rw [hs, he, getElem?_after]
      rfl
    have hdig2 : ∀ i, start + ds.length + 1 ≤ i → i < start + ds.length + 1 + fs.length →
        ∃ d, (pre ++ numberLiteral neg ds fs ++ rest)[i]? = some d ∧ isDigit E d = true := by
      intro i h1 h2
      rw [hs2]
      obtain ⟨d, hd1, hd2⟩ := getElem?_mid_mem
        (pre ++ ((if neg then ['-'] else []) ++ ds) ++ ['.']) fs rest i (by omega) (by omega)
      exact ⟨d, hd1, isDigit_of_isAsciiDigit E d (hf d hd2)⟩
    have hend : ∀ d, (pre ++ numberLiteral neg ds fs ++ rest)[start + ds.length + 1 + fs.length]?
        = some d → isDigit E d = false := by
      intro d hd'
      rw [hs2, ← ha, getElem?_after] at hd'
      exact hrest d hd'
    rw [if_neg hfs]
    have hx' : (pre ++ numberLiteral neg ds fs ++ rest)[pre.length]? = some x := by
      rw [hs]
      exact hx
    have hdig' : ∀ i, start ≤ i → i < start + ds.length →
        ∃ d, (pre ++ numberLiteral neg ds fs ++ rest)[i]? = some d ∧ isDigit E d = true := by
      rw [hs]
      exact hdig
    rw [makeNumberToken_float E _ pre.length start (start + ds.length)
      (start + ds.length + 1 + fs.length) x hx' hstart hlt hdig' hdot' (by omega) hdig2 hend]
    have he2 : start + ds.length + 1 + fs.length
        = pre.length + (numberLiteral neg ds fs).length := by
      rw [hlen, he]
      omega
    rw [he2, slice_mid]

/-! ## The lexer on a text of lexemes -/

theorem emit_cores (st : LexState) (c : Nat) (t : token) :
    (emit st c t).tokens.map token.core = st.tokens.map token.core ++ [t.core] := by
  simp [emit, token.core]

/-- An iteration of the lexer's loop at a white space character. -/
theorem lexStep_space (E : GoEnv) (s : List Char) (st : LexState) (x : Char)
    (hc : s[st.cursor]? = some x) (hsp : isSpace x = true) :
    lexStep E s st = done
      { cursor := st.cursor + 1
        tokens := st.tokens
        lineNumber := if x = '\n' ∨ x = '\r' then st.lineNumber + 1 else st.lineNumber
        linePosition := if x = '\n' ∨ x = '\r' then (st.cursor : Int) else st.linePosition } := by
  have hcur := safeGetCurrentRune_of_getElem? s _ _ hc
  have hidx := index_of_getElem? s _ _ hc
  by_cases hn : x = '\n' ∨ x = '\r'
  · have h1 : consumeLineReturn s st.cursor = (1, st.cursor + 1) := by
      rcases hn with rfl | rfl <;> simp [consumeLineReturn, hcur]
    simp only [lexStep, h1, ne_eq, Nat.succ_ne_self, not_false_eq_true, if_true, pure_eq,
      one_ne_zero, if_pos hn]
  · have hn' : x ≠ '\n' ∧ x ≠ '\r' := by
      constructor <;> (intro h; exact hn (by simp [h]))
    have h1 : consumeLineReturn s st.cursor = (0, st.cursor) := by
      simp [consumeLineReturn, hcur, hn'.1, hn'.2]
    have h2 : consumeWhiteSpace s st.cursor = done (st.cursor + 1) := by
      simp [consumeWhiteSpace, hidx, hsp]
    simp only [lexStep, h1, h2, done_bind, ne_eq, not_true_eq_false, if_false,
      Nat.succ_ne_self, not_false_eq_true, if_true, pure_eq, if_neg hn]

/-- An iteration of the lexer's loop at a symbol. -/
theorem lexStep_symbol (E : GoEnv) (s : List Char) (st : LexState) (x : Char)
    (hc : s[st.cursor]? = some x) (hsym : isSymbol x = true) :
    lexStep E s st = done (emit st (st.cursor + 1) ⟨symbolToken, String.mk [x], 0, 0⟩) := by
  have hcur := safeGetCurrentRune_of_getElem? s _ _ hc
  have hidx := index_of_getElem? s _ _ hc
  have hx : x = '[' ∨ x = ']' ∨ x = '\x7b' ∨ x = '\x7d' ∨ x = ':' ∨ x = ',' := by
    simp only [isSymbol, Bool.or_eq_true, decide_eq_true_eq] at hsym
    tauto
  have hn : x ≠ '\n' ∧ x ≠ '\r' ∧ isSpace x = false := by
    rcases hx with rfl | rfl | rfl | rfl | rfl | rfl <;> decide
  have h1 : consumeLineReturn s st.cursor = (0, st.cursor) := by
    simp [consumeLineReturn, hcur, hn.1, hn.2.1]
  have h2 : consumeWhiteSpace s st.cursor = done st.cursor := by
    simp [consumeWhiteSpace, hidx, hn.2.2]
  have h3 : makeSymbolToken s st.cursor
      = done (st.cursor + 1, some ⟨symbolToken, String.mk [x], 0, 0⟩) := by
    simp [makeSymbolToken, hidx, hx]
  simp only [lexStep, h1, h2, h3, done_bind, pure_eq, ne_eq, not_true_eq_false, if_false]

/-- An iteration of the lexer's loop at a quoted text without an inner quote. -/
theorem lexStep_string (E : GoEnv) (pre body rest : List Char) (st : LexState)
    (hq : '"' ∉ body) (hst : st.cursor = pre.length) :
    lexStep E (pre ++ ('"' :: (body ++ ['"'])) ++ rest) st
      = done (emit st (pre.length + (body.length + 2)) ⟨stringToken, String.mk body, 0, 0⟩) := by
  generalize hs : pre ++ ('"' :: (body ++ ['"'])) ++ rest = s
  have hs2 : s = (pre ++ ['"']) ++ body ++ ('"' :: rest) := by
    rw [← hs]
    simp
  have hlen : s.length = pre.length + body.length + 2 + rest.length := by
    rw [← hs]
    simp
    omega
  have hc : s[st.cursor]? = some '"' := by
    rw [hst, ← hs]
    have := getElem?_mid pre ('"' :: (body ++ ['"'])) rest 0 (by simp)
    simpa using this
  have hcur := safeGetCurrentRune_of_getElem? s _ _ hc
  have hidx := index_of_getElem? s _ _ hc
  have h1 : consumeLineReturn s st.cursor = (0, st.cursor) := by
    simp [consumeLineReturn, hcur]
  have h2 : consumeWhiteSpace s st.cursor = done st.cursor := by
    have : isSpace '"' = false := by decide
    simp [consumeWhiteSpace, hidx, this]
  have h3 : makeSymbolToken s st.cursor = done (st.cursor, none) := by
    simp [makeSymbolToken, hidx]
  have hclose : s[pre.length + 1 + body.length]? = some '"' := by
    rw [hs2]
    have := getElem?_after (pre ++ ['"']) body ('"' :: rest)
    simpa using this
  have hloop : loopWhile
      (fun e => safeGetCurrentRune s e != '"' && !hasConsumedAllRunes s e)
      (s.length + 1) (st.cursor + 1) = pre.length + 1 + body.length := by
    apply loopWhile_eq
    · intro i h1 h2
      obtain ⟨d, hd1, hd2⟩ := getElem?_mid_mem (pre ++ ['"']) body ('"' :: rest) i
        (by simp; omega) (by simp; omega)
      rw [← hs2] at hd1
      have hne : d ≠ '"' := fun h => hq (h ▸ hd2)
      rw [safeGetCurrentRune_of_getElem? _ _ _ hd1]
      have := length_of_getElem? _ _ _ hd1
      simp [hne, hasConsumedAllRunes]
      omega
    · rw [safeGetCurrentRune_of_getElem? _ _ _ hclose]
      simp
    · omega
    · omega
  have hslice : slice s (st.cursor + 1) (pre.length + 1 + body.length + 1 - 1) = body := by
    rw [hs2, hst]
    have := slice_mid (pre ++ ['"']) body ('"' :: rest)
    simpa using this
  have h4 : makeStringToken s st.cursor
      = done (pre.length + (body.length + 2), some ⟨stringToken, String.mk body, 0, 0⟩) := by
    have hnc : hasConsumedAllRunes s (pre.length + 1 + body.length) = false := by
      simp [hasConsumedAllRunes]
      omega
    simp only [makeStringToken, hidx, done_bind, if_true, hloop, hnc, hslice]
    have : pre.length + 1 + body.length + 1 = pre.length + (body.length + 2) := by omega
    rw [this]
    rfl
  simp only [lexStep, h1, h2, h3, h4, done_bind, pure_eq, ne_eq, not_true_eq_false, if_false]

theorem numberLiteral_head (neg : Bool) (ds fs : List Char) (hds : ds ≠ [])
    (hd : ∀ d ∈ ds, isAsciiDigit d = true) :
    ∃ x, (numberLiteral neg ds fs).head? = some x ∧ (x = '-' ∨ isAsciiDigit x = true) := by
  obtain ⟨d0, ds', rfl⟩ := List.exists_cons_of_ne_nil hds
  cases neg with
  | true => exact ⟨'-', by simp [numberLiteral], Or.inl rfl⟩
  | false => exact ⟨d0, by simp [numberLiteral], Or.inr (hd d0 (by simp))⟩

theorem getElem?_head {α : Type} (a b c : List α) (x : α) (h : b.head? = some x) :
    (a ++ b ++ c)[a.length]? = some x := by
  cases b with
  | nil => cases h
  | cons y b' =>
    have := getElem?_mid a (y :: b') c 0 (by simp)
    simp only [List.head?_cons, Option.some.injEq] at h
    subst h
    simpa using this

/-- An iteration of the lexer's loop at an integer literal. -/
theorem lexStep_int (E : GoEnv) (pre rest : List Char) (st : LexState) (neg : Bool)
    (ds : List Char) (hds : ds ≠ []) (hd : ∀ d ∈ ds, isAsciiDigit d = true)
    (hrest : ∀ d, rest.head? = some d → isDigit E d = false ∧ d ≠ '.')
    (hst : st.cursor = pre.length) :
    lexStep E (pre ++ numberLiteral neg ds [] ++ rest) st
      = done (emit st (pre.length + (numberLiteral neg ds []).length)
          ⟨intToken, String.mk (numberLiteral neg ds []), 0, 0⟩) := by
  obtain ⟨x, hx, hxd⟩ := numberLiteral_head neg ds [] hds hd
  have hc : (pre ++ numberLiteral neg ds [] ++ rest)[st.cursor]? = some x := by
    rw [hst]
    exact getElem?_head pre _ rest x hx
  have hnum := makeNumberToken_of_literal E pre rest neg ds [] hds hd (by simp) (fun d h => (hrest d h).1) (fun _ h => (hrest _ h).2 rfl)
  have hfacts : isSpace x = false ∧
      (x ≠ '[' ∧ x ≠ ']' ∧ x ≠ '\x7b' ∧ x ≠ '\x7d' ∧ x ≠ ':' ∧ x ≠ ',') ∧ x ≠ '"' := by
    rcases hxd with rfl | hxd
    · decide
    · have hne := isDigit_ne E x (isDigit_of_isAsciiDigit E x hxd)
      exact ⟨isSpace_of_isAsciiDigit x hxd,
        ⟨hne.2.2.1, hne.2.2.2.1, hne.2.2.2.2.1, hne.2.2.2.2.2.1, hne.2.2.2.2.2.2.1,
          hne.2.2.2.2.2.2.2.1⟩, hne.2.2.2.2.2.2.2.2.1⟩
  rw [if_pos rfl] at hnum
  rw [lexStep_before_number E _ st x hc hfacts.1 hfacts.2.1 hfacts.2.2, hst, hnum]
  rfl

theorem isLetter_zero (E : GoEnv) : isLetter E (Char.ofNat 0) = false := by
  rw [isLetter_latin1 E latin1Env _ (by decide)]
  decide

/-- The loop over a run of letters stops at the end of the run. -/
theorem loopWhile_letters (E : GoEnv) (a b c : List Char)
    (hb : ∀ d ∈ b, isLetter E d = true)
    (hc : ∀ d, c.head? = some d → isLetter E d = false) :
    loopWhile (fun e => isLetter E (safeGetCurrentRune (a ++ b ++ c) e))
      ((a ++ b ++ c).length + 1) a.length = a.length + b.length := by
  apply loopWhile_eq
  · intro i h1 h2
    obtain ⟨d, hd1, hd2⟩ := getElem?_mid_mem a b c i h1 h2
    simp only [safeGetCurrentRune_of_getElem? _ i d hd1, hb d hd2]
  · cases he : c.head? with
    | some d =>
      have := getElem?_after a b c
      rw [he] at this
      simp only [safeGetCurrentRune_of_getElem? _ _ d this, hc d he]
    | none =>
      have hc' : c = [] := by
        cases c with
        | nil => rfl
        | cons _ _ => cases he
      subst hc'
      simp [safeGetCurrentRune, hasConsumedAllRunes, isLetter_zero]
  · omega
  · simp
    omega

theorem word_letters (E : GoEnv) (w : String) (hw : w = "true" ∨ w = "false" ∨ w = "null") :
    (∀ d ∈ w.toList, isLetter E d = true) ∧
    (∃ x, w.toList.head? = some x ∧ isSpace x = false ∧ isSymbol x = false ∧ x ≠ '"' ∧
      x ≠ '-' ∧ isDigit E x = false) := by
  have hl : ∀ d : Char, d ∈ "truefalsn".toList → isLetter E d = true := by
    intro d hd
    have h8 : d.toNat ≤ maxLatin1 := by
      simp only [String.toList, List.mem_cons, List.mem_singleton] at hd
      rcases hd with rfl | rfl | rfl | rfl | rfl | rfl | rfl | rfl | rfl | hd
      all_goals first | decide | cases hd
    rw [isLetter_latin1 E latin1Env d h8]
    simp only [String.toList, List.mem_cons, List.mem_singleton] at hd
    rcases hd with rfl | rfl | rfl | rfl | rfl | rfl | rfl | rfl | rfl | hd
    all_goals first | decide | cases hd
  have hdg : ∀ x : Char, x.toNat ≤ maxLatin1 → isDigit latin1Env x = false →
      isDigit E x = false := fun x h8 h => (isDigit_latin1 E latin1Env x h8).trans h
  rcases hw with rfl | rfl | rfl
  · refine ⟨fun d hd => hl d ?_, 't', rfl, by decide, by decide, by decide, by decide,
      hdg _ (by decide) (by decide)⟩
    revert hd d
    decide
  · refine ⟨fun d hd => hl d ?_, 'f', rfl, by decide, by decide, by decide, by decide,
      hdg _ (by decide) (by decide)⟩
    revert hd d
    decide
  · refine ⟨fun d hd => hl d ?_, 'n', rfl, by decide, by decide, by decide, by decide,
      hdg _ (by decide) (by decide)⟩
    revert hd d
    decide

/-- An iteration of the lexer's loop at one of the words `true`, `false` and
`null` that no letter follows. -/
theorem lexStep_word (E : GoEnv) (pre rest : List Char) (st : LexState) (w : String)
    (hw : w = "true" ∨ w = "false" ∨ w = "null")
    (hrest : ∀ d, rest.head? = some d → isLetter E d = false)
    (hst : st.cursor = pre.length) :
    lexStep E (pre ++ w.toList ++ rest) st
      = done (emit st (pre.length + w.toList.length) ⟨wordKind w, w, 0, 0⟩) := by
  obtain ⟨hlet, x, hx, hsp, hsym, hq, hm, hdg⟩ := word_letters E w hw
  have hc : (pre ++ w.toList ++ rest)[st.cursor]? = some x := by
    rw [hst]
    exact getElem?_head pre _ rest x hx
  have hidx := index_of_getElem? _ _ _ hc
  have hsym' : x ≠ '[' ∧ x ≠ ']' ∧ x ≠ '\x7b' ∧ x ≠ '\x7d' ∧ x ≠ ':' ∧ x ≠ ',' := by
    simp only [isSymbol, Bool.or_eq_false_iff, decide_eq_false_iff_not] at hsym
    tauto
  have hnum : makeNumberToken E (pre ++ w.toList ++ rest) st.cursor = done (st.cursor, none) := by
    generalize pre ++ w.toList ++ rest = s at hidx
    simp [makeNumberToken, hidx, hm, hdg]
  have hloop := loopWhile_letters E pre w.toList rest hlet hrest
  have hslice := slice_mid pre w.toList rest
  have hbool : makeBooleanToken E (pre ++ w.toList ++ rest) pre.length
      = if w = "true" ∨ w = "false" then
          (pre.length + w.toList.length, some ⟨booleanToken, w, 0, 0⟩)
        else (pre.length, none) := by
    simp only [makeBooleanToken, hloop, hslice]
    rfl
  have hnull : makeNullToken E (pre ++ w.toList ++ rest) pre.length
      = if w = "null" then (pre.length + w.toList.length, some ⟨nullToken, w, 0, 0⟩)
        else (pre.length, none) := by
    simp only [makeNullToken, hloop, hslice]
    rfl
  rw [lexStep_before_number E _ st x hc hsp hsym' hq, hnum]
  simp only [done_bind, hst]
  rcases hw with rfl | rfl | rfl
  · rw [hbool, if_pos (by decide)]
    rfl
  · rw [hbool, if_pos (by decide)]
    rfl
  · rw [hbool, if_neg (by decide)]
    simp only []
    rw [hnull, if_pos rfl]
    rfl

theorem buildTokensLoop_step (E : GoEnv) (s : List Char) (f : Nat) (st st' : LexState)
    (hlt : st.cursor < s.length) (h : lexStep E s st = done st') :
    buildTokensLoop E s (f + 1) st = buildTokensLoop E s f st' := by
  simp only [buildTokensLoop, hlt, if_true, h]

/-- The lexer's loop on a text of lexemes: it returns tokens of the kinds and texts
of the lexemes, after the tokens it had. -/
theorem buildTokensLoop_lexes (E : GoEnv) (suffix : List Char)
    (cores : List (tokenKind × String)) (h : Lexes E suffix cores) :
    ∀ (pre : List Char) (st : LexState) (fuel : Nat), st.cursor = pre.length →
      suffix.length < fuel →
      ∃ toks, buildTokensLoop E (pre ++ suffix) fuel st = done toks ∧
        toks.map token.core = st.tokens.map token.core ++ cores := by
  induction h with
  | nil =>
    intro pre st fuel hst hf
    obtain ⟨f, rfl⟩ : ∃ f, fuel = f + 1 := ⟨fuel - 1, by omega⟩
    refine ⟨st.tokens, ?_, by simp⟩
    simp [buildTokensLoop, hst]
  | space x rest cores hsp _ ih =>
    intro pre st fuel hst hf
    obtain ⟨f, rfl⟩ : ∃ f, fuel = f + 1 := ⟨fuel - 1, by omega⟩
    have hs : pre ++ x :: rest = (pre ++ [x]) ++ rest := by simp
    rw [hs]
    have hc : (pre ++ [x] ++ rest)[st.cursor]? = some x := by
      rw [hst]
      exact getElem?_head pre [x] rest x rfl
    have hlt := length_of_getElem? _ _ _ hc
    rw [buildTokensLoop_step E _ f st _ hlt (lexStep_space E _ st x hc hsp)]
    exact ih (pre ++ [x]) _ f (by simp [hst]) (by simpa using hf)
  | symbol x rest cores hsym _ ih =>
    intro pre st fuel hst hf
    obtain ⟨f, rfl⟩ : ∃ f, fuel = f + 1 := ⟨fuel - 1, by omega⟩
    have hs : pre ++ x :: rest = (pre ++ [x]) ++ rest := by simp
    rw [hs]
    have hc : (pre ++ [x] ++ rest)[st.cursor]? = some x := by
      rw [hst]
      exact getElem?_head pre [x] rest x rfl
    have hlt := length_of_getElem? _ _ _ hc
    rw [buildTokensLoop_step E _ f st _ hlt (lexStep_symbol E _ st x hc hsym)]
    obtain ⟨toks, h1, h2⟩ := ih (pre ++ [x])
      (emit st (st.cursor + 1) ⟨symbolToken, String.mk [x], 0, 0⟩) f
      (by simp [emit, hst]) (by simpa using hf)
    refine ⟨toks, h1, ?_⟩
    rw [h2, emit_cores]
    simp [token.core]
  | string body rest cores hq _ ih =>
    intro pre st fuel hst hf
    obtain ⟨f, rfl⟩ : ∃ f, fuel = f + 1 := ⟨fuel - 1, by omega⟩
    have hs : pre ++ ('"' :: (body ++ ['"']) ++ rest) = pre ++ ('"' :: (body ++ ['"'])) ++ rest := by
      simp
    rw [hs]
    have hlt : st.cursor < (pre ++ ('"' :: (body ++ ['"'])) ++ rest).length := by
      rw [hst]
      simp
    rw [buildTokensLoop_step E _ f st _ hlt (lexStep_string E pre body rest st hq hst)]
    obtain ⟨toks, h1, h2⟩ := ih (pre ++ ('"' :: (body ++ ['"'])))
      (emit st (pre.length + (body.length + 2)) ⟨stringToken, String.mk body, 0, 0⟩) f
      (by simp [emit]) (by simp at hf; omega)
    refine ⟨toks, h1, ?_⟩
    rw [h2, emit_cores]
    simp [token.core]
  | int neg ds rest cores hds hd hrest _ ih =>
    intro pre st fuel hst hf
    obtain ⟨f, rfl⟩ : ∃ f, fuel = f + 1 := ⟨fuel - 1, by omega⟩
    rw [← List.append_assoc]
    obtain ⟨x, hx, _⟩ := numberLiteral_head neg ds [] hds hd
    have hlt : st.cursor < (pre ++ numberLiteral neg ds [] ++ rest).length := by
      rw [hst]
      exact length_of_getElem? _ _ _ (getElem?_head pre _ rest x hx)
    have hpos : 0 < (numberLiteral neg ds []).length := by
      cases hl : numberLiteral neg ds [] with
      | nil => rw [hl] at hx; cases hx
      | cons _ _ => simp
    rw [buildTokensLoop_step E _ f st _ hlt (lexStep_int E pre rest st neg ds hds hd hrest hst)]
    obtain ⟨toks, h1, h2⟩ := ih (pre ++ numberLiteral neg ds [])
      (emit st (pre.length + (numberLiteral neg ds []).length)
        ⟨intToken, String.mk (numberLiteral neg ds []), 0, 0⟩) f
      (by simp [emit]) (by simp at hf; omega)
    refine ⟨toks, h1, ?_⟩
    rw [h2, emit_cores]
    simp [token.core]
  | word w rest cores hw hrest _ ih =>
    intro pre st fuel hst hf
    obtain ⟨f, rfl⟩ : ∃ f, fuel = f + 1 := ⟨fuel - 1, by omega⟩
    rw [← List.append_assoc]
    obtain ⟨_, x, hx, _⟩ := word_letters E w hw
    have hlt : st.cursor < (pre ++ w.toList ++ rest).length := by
      rw [hst]
      exact length_of_getElem? _ _ _ (getElem?_head pre _ rest x hx)
    have hpos : 0 < w.toList.length := by
      cases hl : w.toList with
      | nil => rw [hl] at hx; cases hx
      | cons _ _ => simp
    rw [buildTokensLoop_step E _ f st _ hlt (lexStep_word E pre rest st w hw hrest hst)]
    obtain ⟨toks, h1, h2⟩ := ih (pre ++ w.toList)
      (emit st (pre.length + w.toList.length) ⟨wordKind w, w, 0, 0⟩) f
      (by simp [emit]) (by simp at hf; simp at hpos; omega)
    refine ⟨toks, h1, ?_⟩
    rw [h2, emit_cores]
    simp [token.core]

/-- The lexer on a text of lexemes returns tokens of their kinds and texts. -/
theorem buildTokens_lexes (E : GoEnv) (s : List Char) (cores : List (tokenKind × String))
    (h : Lexes E s cores) (fuel : Nat) (hf : s.length < fuel) :
    ∃ toks, buildTokens E fuel s = done toks ∧ toks.map token.core = cores := by
  have := buildTokensLoop_lexes E s cores h [] LexState.init fuel rfl hf
  simpa [buildTokens, LexState.init] using this

/-! ## The parser on the tokens of a text of lexemes -/

/-- On a symbol that opens neither an array nor an object no recognizer matches. -/
theorem parseJSONValue_symbol (E : GoEnv) (f : Nat) (t : List token) (c : Nat) (tt : token)
    (hs : safeGetToken t c = some tt) (hk : tt.kind = symbolToken)
    (hv1 : tt.value ≠ "[") (hv2 : tt.value ≠ "\x7b") :
    parseJSONValue E (f + 2) t c
      = done (c, .error (.token "failed to parse JSON" tt.value tt.lineNumber
          tt.linePosition)) := by
  simp [parseJSONValue, hasCompletedTokens_of_safeGetToken t c tt hs, tryRecognizers,
    parseArray, parseBoolean, parseFloat, parseInteger, parseNil, parseString, parseObject,
    index_of_safeGetToken t c tt hs, hs, hk, hv1, hv2, getTokenParseError]

/-- The value of an Integer token that `strconv.Atoi` converts. -/
theorem parseJSONValue_int (E : GoEnv) (f : Nat) (t : List token) (c : Nat) (tt : token)
    (n : Int) (hs : safeGetToken t c = some tt) (hk : tt.kind = intToken)
    (ha : Atoi tt.value = some n) :
    parseJSONValue E (f + 2) t c = done (c + 1, .int n) := by
  have hv : tt.value ≠ "[" := by
    intro h
    rw [h] at ha
    have hn : Atoi "[" = none := by decide
    rw [hn] at ha
    cases ha
  simp [parseJSONValue, hasCompletedTokens_of_safeGetToken t c tt hs, tryRecognizers,
    parseArray, parseBoolean, parseFloat, parseInteger,
    index_of_safeGetToken t c tt hs, hs, hk, hv, ha]

/-- The value of a Boolean token. -/
theorem parseJSONValue_bool (E : GoEnv) (f : Nat) (t : List token) (c : Nat) (tt : token)
    (b : Bool) (hs : safeGetToken t c = some tt) (hk : tt.kind = booleanToken)
    (hv : tt.value = if b then "true" else "false") :
    parseJSONValue E (f + 2) t c = done (c + 1, .bool b) := by
  cases b with
  | true =>
    simp only [if_true] at hv
    simp [parseJSONValue, hasCompletedTokens_of_safeGetToken t c tt hs, tryRecognizers,
      parseArray, parseBoolean, index_of_safeGetToken t c tt hs, hs, hk, hv]
  | false =>
    simp only [Bool.false_eq_true, if_false] at hv
    simp [parseJSONValue, hasCompletedTokens_of_safeGetToken t c tt hs, tryRecognizers,
      parseArray, parseBoolean, index_of_safeGetToken t c tt hs, hs, hk, hv]

/-- The value of a Null token. -/
theorem parseJSONValue_null (E : GoEnv) (f : Nat) (t : List token) (c : Nat) (tt : token)
    (hs : safeGetToken t c = some tt) (hk : tt.kind = nullToken) (hv : tt.value = "null") :
    parseJSONValue E (f + 2) t c = done (c + 1, .nil) := by
  simp [parseJSONValue, hasCompletedTokens_of_safeGetToken t c tt hs, tryRecognizers,
    parseArray, parseBoolean, parseFloat, parseInteger, parseNil,
    index_of_safeGetToken t c tt hs, hs, hk, hv]

/-- On the symbol `[` the value is what the loop of `parseArray` returns beyond
the cursor. -/
theorem parseJSONValue_array (E : GoEnv) (f : Nat) (t : List token) (c : Nat) (tt : token)
    (r : Nat × Any) (hs : safeGetToken t c = some tt) (hv : tt.value = "[")
    (hloop : parseArrayLoop E f t c (c + 1) [] = done r) (hr : r.1 ≠ c) :
    parseJSONValue E (f + 2) t c = done r := by
  obtain ⟨rc, rv⟩ := r
  simp only [] at hr
  simp [parseJSONValue, hasCompletedTokens_of_safeGetToken t c tt hs, tryRecognizers,
    parseArray, hs, hv, hloop, hr]

/-- On the symbol `{` the value is what the loop of `parseObject` returns beyond
the cursor. -/
theorem parseJSONValue_object (E : GoEnv) (f : Nat) (t : List token) (c : Nat) (tt : token)
    (r : Nat × Any) (hs : safeGetToken t c = some tt) (hk : tt.kind = symbolToken)
    (hv : tt.value = "\x7b")
    (hloop : parseObjectLoop E f t c (c + 1) [] = done r) (hr : r.1 ≠ c) :
    parseJSONValue E (f + 2) t c = done r := by
  obtain ⟨rc, rv⟩ := r
  simp only [] at hr
  simp [parseJSONValue, hasCompletedTokens_of_safeGetToken t c tt hs, tryRecognizers,
    parseArray, parseBoolean, parseFloat, parseInteger, parseNil, parseString, parseObject,
    index_of_safeGetToken t c tt hs, hs, hk, hv, hloop, hr]

/-- The token at a position of a token sequence whose kinds and texts are known. -/
theorem safeGetToken_of_cores (t : List token) (cores : List (tokenKind × String))
    (h : t.map token.core = cores) (i : Nat) (k : tokenKind) (v : String)
    (hi : cores[i]? = some (k, v)) :
    ∃ tt, safeGetToken t i = some tt ∧ tt.kind = k ∧ tt.value = v := by
  subst h
  rw [List.getElem?_map] at hi
  cases ht : t[i]? with
  | none => rw [ht] at hi; cases hi
  | some tt =>
    rw [ht] at hi
    simp only [Option.map_some', Option.some.injEq, token.core, Prod.mk.injEq] at hi
    have hlt := length_of_getElem? t i tt ht
    refine ⟨tt, ?_, hi.1, hi.2⟩
    simp [safeGetToken, hasCompletedTokens, hlt, ht]

theorem lexes_spaces (E : GoEnv) (ws : List Char) (h : ∀ c ∈ ws, isSpace c = true)
    (rest : List Char) (cores : List (tokenKind × String)) (hr : Lexes E rest cores) :
    Lexes E (ws ++ rest) cores := by
  induction ws with
  | nil => exact hr
  | cons x ws ih =>
    exact .space x (ws ++ rest) cores (h x (by simp))
      (ih (fun c hc => h c (List.mem_cons_of_mem _ hc)))

/-- The parser on the two tokens `[` and `]`. -/
theorem parseJSONValue_empty_array (E : GoEnv) (t : List token)
    (h : t.map token.core = [(symbolToken, "["), (symbolToken, "]")]) (fuel : Nat)
    (hf : 5 ≤ fuel) : parseJSONValue E fuel t 0 = done (2, .slice []) := by
  obtain ⟨t0, hs0, _, hv0⟩ := safeGetToken_of_cores t _ h 0 symbolToken "[" rfl
  obtain ⟨t1, hs1, hk1, hv1⟩ := safeGetToken_of_cores t _ h 1 symbolToken "]" rfl
  have hval := parseJSONValue_symbol E 0 t 1 t1 hs1 hk1 (by rw [hv1]; decide)
    (by rw [hv1]; decide)
  have hloop : parseArrayLoop E 3 t 0 (0 + 1) [] = done (2, .slice []) := by
    rw [parseArrayLoop_no_element E 2 t 0 1 [] t1 _ hs1 hval, if_pos hv1]
  exact parseJSONValue_of_le E 5 fuel t 0 _
    (parseJSONValue_array E 3 t 0 t0 _ hs0 hv0 hloop (by decide)) hf

/-- The parser on the two tokens `{` and `}`. -/
theorem parseJSONValue_empty_object (E : GoEnv) (t : List token)
    (h : t.map token.core = [(symbolToken, "\x7b"), (symbolToken, "\x7d")]) (fuel : Nat)
    (hf : 3 ≤ fuel) : parseJSONValue E fuel t 0 = done (2, .map []) := by
  obtain ⟨t0, hs0, hk0, hv0⟩ := safeGetToken_of_cores t _ h 0 symbolToken "\x7b" rfl
  obtain ⟨t1, hs1, hk1, hv1⟩ := safeGetToken_of_cores t _ h 1 symbolToken "\x7d" rfl
  have hloop : parseObjectLoop E 1 t 0 (0 + 1) [] = done (2, .map []) := by
    simp [parseObjectLoop, hs1, hk1, hv1]
  exact parseJSONValue_of_le E 3 fuel t 0 _
    (parseJSONValue_object E 1 t 0 t0 _ hs0 hk0 hv0 hloop (by decide)) hf

/-- From the lexemes of a text and the value of their tokens to the result of
`Parse`. -/
theorem Parse_of_lexes (E : GoEnv) (s : List Char) (cores : List (tokenKind × String))
    (v : Any) (fuel : Nat) (hl : Lexes E s cores) (hf : s.length < fuel)
    (hp : ∀ t : List token, t.map token.core = cores →
      parseJSONValue E fuel t 0 = done (cores.length, v)) :
    Parse E fuel (String.mk s) = done (finish v) := by
  obtain ⟨toks, h1, h2⟩ := buildTokens_lexes E s cores hl fuel hf
  have hlen : toks.length = cores.length := by
    rw [← h2, List.length_map]
  exact Parse_of_done E fuel (String.mk s) toks cores.length v h1 (hp toks h2) (by omega)

theorem lexes_spaces_end (E : GoEnv) (ws : List Char) (h : ∀ c ∈ ws, isSpace c = true) :
    Lexes E ws [] := by
  have := lexes_spaces E ws h [] [] .nil
  simpa using this

theorem Parse_empty_of_spaces (E : GoEnv) (ws1 ws2 ws3 : List Char)
    (h1 : ∀ c ∈ ws1, isSpace c = true) (h2 : ∀ c ∈ ws2, isSpace c = true)
    (h3 : ∀ c ∈ ws3, isSpace c = true) (fuel : Nat)
    (hf : ws1.length + ws2.length + ws3.length + 5 ≤ fuel) :
    Parse E fuel (String.mk (ws1 ++ '[' :: (ws2 ++ ']' :: ws3))) = done (.slice [], none) ∧
    Parse E fuel (String.mk (ws1 ++ '\x7b' :: (ws2 ++ '\x7d' :: ws3)))
      = done (.map [], none) := by
  constructor
  · refine Parse_of_lexes E _ [(symbolToken, "["), (symbolToken, "]")] (.slice []) fuel
      (lexes_spaces E ws1 h1 _ _ (.symbol '[' _ _ (by decide)
        (lexes_spaces E ws2 h2 _ _ (.symbol ']' _ _ (by decide)
          (lexes_spaces_end E ws3 h3))))) ?_ ?_
    · simp
      omega
    · intro t ht
      exact parseJSONValue_empty_array E t ht fuel (by omega)
  · refine Parse_of_lexes E _ [(symbolToken, "\x7b"), (symbolToken, "\x7d")] (.map []) fuel
      (lexes_spaces E ws1 h1 _ _ (.symbol '\x7b' _ _ (by decide)
        (lexes_spaces E ws2 h2 _ _ (.symbol '\x7d' _ _ (by decide)
          (lexes_spaces_end E ws3 h3))))) ?_ ?_
    · simp
      omega
    · intro t ht
      exact parseJSONValue_empty_object E t ht fuel (by omega)

/-! ## The decimal rendering of an integer -/

theorem digitChar (r : Nat) (hr : r < 10) :
    isAsciiDigit (Char.ofNat (0x30 + r)) = true ∧ (Char.ofNat (0x30 + r)).toNat = 0x30 + r := by
  interval_cases r <;> decide

theorem digitsValue_cons (c : Char) (cs : List Char) (a : Nat) (h : isAsciiDigit c = true) :
    digitsValue (c :: cs) a = digitsValue cs (a * 10 + (c.toNat - 0x30)) := by
  unfold isAsciiDigit at h
  simp only [digitsValue, h, if_true]

/-- The digits that `decimalAux` puts in front of `acc` are ASCII digits whose
value is `n`. -/
theorem decimalAux_spec : ∀ (fuel n : Nat) (acc : List Char), n < fuel →
    ∃ ds, decimalAux fuel n acc = ds ++ acc ∧ ds ≠ [] ∧
      (∀ d ∈ ds, isAsciiDigit d = true) ∧
      (∀ (a : Nat) (tl : List Char),
        digitsValue (ds ++ tl) a = digitsValue tl (a * 10 ^ ds.length + n)) := by
  intro fuel
  induction fuel with
  | zero => intro n acc h; omega
  | succ f ih =>
    intro n acc hn
    have hr : n % 10 < 10 := Nat.mod_lt _ (by decide)
    obtain ⟨hc1, hc2⟩ := digitChar (n % 10) hr
    unfold decimalAux
    split
    · rename_i h0
      refine ⟨[Char.ofNat (0x30 + n % 10)], rfl, by simp, ?_, ?_⟩
      · intro d hd
        simp only [List.mem_singleton] at hd
        rw [hd]
        exact hc1
      · intro a tl
        have hn' : n % 10 = n := by omega
        rw [List.singleton_append, digitsValue_cons _ _ _ hc1, hc2]
        simp only [List.length_singleton, pow_one, Nat.add_sub_cancel_left, hn']
    · rename_i h0
      obtain ⟨ds, h1, h2, h3, h4⟩ := ih (n / 10) (Char.ofNat (0x30 + n % 10) :: acc) (by omega)
      refine ⟨ds ++ [Char.ofNat (0x30 + n % 10)], by rw [h1]; simp, by simp, ?_, ?_⟩
      · intro d hd
        rcases List.mem_append.mp hd with hd | hd
        · exact h3 d hd
        · simp only [List.mem_singleton] at hd
          rw [hd]
          exact hc1
      · intro a tl
        rw [List.append_assoc, h4, List.singleton_append, digitsValue_cons _ _ _ hc1, hc2]
        congr 1
        simp only [List.length_append, List.length_singleton, Nat.add_sub_cancel_left]
        have := Nat.div_add_mod n 10
        rw [pow_succ]
        nlinarith [Nat.div_add_mod n 10]

theorem decimal_spec (n : Nat) :
    decimal n ≠ [] ∧ (∀ d ∈ decimal n, isAsciiDigit d = true) ∧
      digitsValue (decimal n) 0 = some n := by
  obtain ⟨ds, h1, h2, h3, h4⟩ := decimalAux_spec (n + 1) n [] (Nat.lt_succ_self _)
  have hd : decimal n = ds := by
    unfold decimal
    rw [h1, List.append_nil]
  rw [hd]
  refine ⟨h2, h3, ?_⟩
  have := h4 0 []
  simpa [digitsValue] using this

/-- What `strconv.Atoi` makes of the decimal rendering of a 64-bit integer. -/
theorem Atoi_renderInt (n : Int) (h1 : -2 ^ 63 ≤ n) (h2 : n < 2 ^ 63) :
    Atoi (String.mk (renderInt n)) = some n := by
  obtain ⟨hne, hdig, hval⟩ := decimal_spec n.natAbs
  obtain ⟨d0, ds, hds⟩ := List.exists_cons_of_ne_nil hne
  by_cases hneg : n < 0
  · have hr : renderInt n = '-' :: (d0 :: ds) := by
      simp [renderInt, numberLiteral, hneg, hds]
    have hle : n.natAbs ≤ 9223372036854775808 := by omega
    have hn : -(n.natAbs : Int) = n := by omega
    rw [hds] at hval
    simp [Atoi, hr, hval, hle]
    rw [abs_of_neg hneg, neg_neg]
  · have hr : renderInt n = d0 :: ds := by
      simp [renderInt, numberLiteral, hneg, hds]
    have hlt : n.natAbs < 9223372036854775808 := by omega
    have hn : (n.natAbs : Int) = n := by omega
    have hd0 := hdig d0 (by rw [hds]; simp)
    have hm : d0 ≠ '-' := isAsciiDigit_ne_minus d0 hd0
    have hp : d0 ≠ '+' := by
      intro h
      subst h
      revert hd0
      decide
    rw [hds] at hval
    simp [Atoi, hr, hm, hp, hval, hlt, hn]

/-- The parser on a single Integer token that `strconv.Atoi` converts. -/
theorem parseJSONValue_single_int (E : GoEnv) (t : List token) (v : String) (n : Int)
    (h : t.map token.core = [(intToken, v)]) (ha : Atoi v = some n) (fuel : Nat)
    (hf : 2 ≤ fuel) : parseJSONValue E fuel t 0 = done (1, .int n) := by
  obtain ⟨t0, hs0, hk0, hv0⟩ := safeGetToken_of_cores t _ h 0 intToken v rfl
  exact parseJSONValue_of_le E 2 fuel t 0 _
    (parseJSONValue_int E 0 t 0 t0 n hs0 hk0 (by rw [hv0]; exact ha)) hf

theorem Parse_renderInt (E : GoEnv) (n : Int) (h1 : -2 ^ 63 ≤ n) (h2 : n < 2 ^ 63)
    (fuel : Nat) (hf : (renderInt n).length + 2 ≤ fuel) :
    Parse E fuel (String.mk (renderInt n)) = done (.int n, none) := by
  obtain ⟨hne, hdig, _⟩ := decimal_spec n.natAbs
  have hl : Lexes E (renderInt n) [(intToken, String.mk (renderInt n))] := by
    have := Lexes.int (E := E) (decide (n < 0)) (decimal n.natAbs) [] [] hne hdig
      (fun d h => by cases h) .nil
    simpa [renderInt] using this
  exact Parse_of_lexes E _ _ (.int n) fuel hl (by omega)
    (fun t ht => parseJSONValue_single_int E t _ n ht (Atoi_renderInt n h1 h2) fuel (by omega))

/-! ## Object documents -/

theorem mapGet_mapSet (m : List (String × Any)) (k k' : String) (v : Any) :
    mapGet (mapSet m k v) k' = if k = k' then some v else mapGet m k' := by
  induction m with
  | nil => simp [mapSet, mapGet]
  | cons kv rest ih =>
    obtain ⟨k0, v0⟩ := kv
    simp only [mapSet]
    by_cases h0 : k0 = k
    · subst h0
      simp only [if_true, mapGet]
      split <;> rfl
    · simp only [if_neg h0, mapGet, ih]
      by_cases h1 : k0 = k'
      · subst h1
        have : ¬ k = k0 := fun h => h0 h.symm
        simp [this]
      · simp [h1]

theorem keys_mapSet (m : List (String × Any)) (k : String) (v : Any) :
    (∀ k', k' ∈ (mapSet m k v).map Prod.fst ↔ (k' = k ∨ k' ∈ m.map Prod.fst)) ∧
    ((m.map Prod.fst).Nodup → ((mapSet m k v).map Prod.fst).Nodup) := by
  induction m with
  | nil => simp [mapSet]
  | cons kv rest ih =>
    obtain ⟨k0, v0⟩ := kv
    simp only [mapSet]
    by_cases h0 : k0 = k
    · subst h0
      simp
    · simp only [if_neg h0, List.map_cons, List.mem_cons, List.nodup_cons]
      refine ⟨fun k' => ?_, fun hnd => ⟨?_, ih.2 hnd.2⟩⟩
      · rw [ih.1 k']
        tauto
      · intro hmem
        rcases (ih.1 k0).mp hmem with h | h
        · exact h0 h
        · exact hnd.1 h

/-- The map made of the properties: its keys are the keys it had and the keys of
the properties, each once, and each key of a property has the value of its last
property. -/
theorem setAll_spec (ps : List (String × Scalar)) : ∀ m : List (String × Any),
    (∀ k, k ∈ (setAll m ps).map Prod.fst ↔ (k ∈ m.map Prod.fst ∨ k ∈ ps.map Prod.fst)) ∧
    ((m.map Prod.fst).Nodup → ((setAll m ps).map Prod.fst).Nodup) ∧
    (∀ k, mapGet (setAll m ps) k =
      match lastValue ps k with
      | some w => some w.toAny
      | none => mapGet m k) := by
  induction ps with
  | nil =>
    intro m
    simp [setAll, lastValue]
  | cons p rest ih =>
    intro m
    obtain ⟨k0, v0⟩ := p
    have hstep : setAll m ((k0, v0) :: rest) = setAll (mapSet m k0 v0.toAny) rest := rfl
    obtain ⟨i1, i2, i3⟩ := ih (mapSet m k0 v0.toAny)
    obtain ⟨s1, s2⟩ := keys_mapSet m k0 v0.toAny
    rw [hstep]
    refine ⟨fun k => ?_, fun hnd => i2 (s2 hnd), fun k => ?_⟩
    · rw [i1 k, s1 k]
      simp only [List.map_cons, List.mem_cons]
      tauto
    · rw [i3 k, mapGet_mapSet]
      simp only [lastValue]
      cases lastValue rest k with
      | some w => rfl
      | none =>
        by_cases h : k0 = k
        · simp [h]
        · simp [h]

theorem after_value (E : GoEnv) (rest : List Char)
    (hrest : rest.head? = some ',' ∨ rest.head? = some '\x7d') :
    (∀ d, rest.head? = some d → isDigit E d = false ∧ d ≠ '.') ∧
    (∀ d, rest.head? = some d → isLetter E d = false) := by
  have h1 : isDigit E ',' = false := (isDigit_latin1 E latin1Env _ (by decide)).trans (by decide)
  have h2 : isDigit E '\x7d' = false :=
    (isDigit_latin1 E latin1Env _ (by decide)).trans (by decide)
  have h3 : isLetter E ',' = false :=
    (isLetter_latin1 E latin1Env _ (by decide)).trans (by decide)
  have h4 : isLetter E '\x7d' = false :=
    (isLetter_latin1 E latin1Env _ (by decide)).trans (by decide)
  constructor
  · intro d hd
    rcases hrest with h | h
    · obtain rfl : ',' = d := Option.some.inj (h.symm.trans hd)
      exact ⟨h1, by decide⟩
    · obtain rfl : '\x7d' = d := Option.some.inj (h.symm.trans hd)
      exact ⟨h2, by decide⟩
  · intro d hd
    rcases hrest with h | h
    · obtain rfl : ',' = d := Option.some.inj (h.symm.trans hd)
      exact h3
    · obtain rfl : '\x7d' = d := Option.some.inj (h.symm.trans hd)
      exact h4

/-- The lexemes of a value that `,` or `}` follows. -/
theorem lexes_scalar (E : GoEnv) (v : Scalar) (rest : List Char)
    (cores : List (tokenKind × String))
    (hrest : rest.head? = some ',' ∨ rest.head? = some '\x7d') (h : Lexes E rest cores) :
    Lexes E (v.render ++ rest) (v.core :: cores) := by
  obtain ⟨hd, hl⟩ := after_value E rest hrest
  cases v with
  | int n =>
    obtain ⟨hne, hdig, _⟩ := decimal_spec n.natAbs
    exact Lexes.int (decide (n < 0)) (decimal n.natAbs) rest cores hne hdig hd h
  | bool b =>
    cases b with
    | true => exact Lexes.word "true" rest cores (Or.inl rfl) hl h
    | false => exact Lexes.word "false" rest cores (Or.inr (Or.inl rfl)) hl h
  | null => exact Lexes.word "null" rest cores (Or.inr (Or.inr rfl)) hl h

/-- The lexemes of a property that `,` or `}` follows. -/
theorem lexes_prop (E : GoEnv) (p : String × Scalar) (rest : List Char)
    (cores : List (tokenKind × String)) (hq : '"' ∉ p.1.toList)
    (hrest : rest.head? = some ',' ∨ rest.head? = some '\x7d') (h : Lexes E rest cores) :
    Lexes E (renderProp p ++ rest)
      ((stringToken, p.1) :: (symbolToken, ":") :: p.2.core :: cores) := by
  have h1 := lexes_scalar E p.2 rest cores hrest h
  have h2 := Lexes.symbol (E := E) ':' _ _ (by decide) h1
  have h3 := Lexes.string (E := E) p.1.toList _ _ hq h2
  have hs : renderProp p ++ rest
      = '"' :: (p.1.toList ++ ['"']) ++ (':' :: (p.2.render ++ rest)) := by
    simp [renderProp]
  rw [hs]
  exact h3

/-- The lexemes of the properties of an object that `}` follows. -/
theorem lexes_props (E : GoEnv) : ∀ (ps : List (String × Scalar)) (rest : List Char)
    (cores : List (tokenKind × String)), (∀ p ∈ ps, '"' ∉ p.1.toList) →
    rest.head? = some '\x7d' → Lexes E rest cores →
    Lexes E (renderProps ps ++ rest) (propsCores ps ++ cores)
  | [], rest, cores, _, _, h => h
  | [p], rest, cores, hk, hrest, h => by
    have := lexes_prop E p rest cores (hk p (by simp)) (Or.inr hrest) h
    simpa [renderProps, propsCores] using this
  | p :: q :: ps, rest, cores, hk, hrest, h => by
    have ih := lexes_props E (q :: ps) rest cores
      (fun x hx => hk x (List.mem_cons_of_mem _ hx)) hrest h
    have h1 := Lexes.symbol (E := E) ',' _ _ (by decide) ih
    have h2 := lexes_prop E p (',' :: (renderProps (q :: ps) ++ rest)) _ (hk p (by simp))
      (Or.inl rfl) h1
    have hs : renderProps (p :: q :: ps) ++ rest
        = renderProp p ++ (',' :: (renderProps (q :: ps) ++ rest)) := by
      simp [renderProps]
    rw [hs]
    exact h2

/-- The lexemes of an object document. -/
theorem lexes_object (E : GoEnv) (ps : List (String × Scalar))
    (hk : ∀ p ∈ ps, '"' ∉ p.1.toList) :
    Lexes E (renderObject ps)
      ((symbolToken, "\x7b") :: (propsCores ps ++ [(symbolToken, "\x7d")])) :=
  Lexes.symbol '\x7b' _ _ (by decide)
    (lexes_props E ps ['\x7d'] [(symbolToken, "\x7d")] hk rfl
      (Lexes.symbol '\x7d' [] [] (by decide) .nil))

/-- The value of the token of an integer, a boolean or `null`. -/
theorem parseJSONValue_scalar (E : GoEnv) (f : Nat) (t : List token) (c : Nat) (tt : token)
    (v : Scalar) (hs : safeGetToken t c = some tt) (hk : tt.kind = v.core.1)
    (hv : tt.value = v.core.2) (hr : v.inRange) :
    parseJSONValue E (f + 2) t c = done (c + 1, v.toAny) := by
  cases v with
  | int n =>
    exact parseJSONValue_int E f t c tt n hs hk (by rw [hv]; exact Atoi_renderInt n hr.1 hr.2)
  | bool b => exact parseJSONValue_bool E f t c tt b hs hk hv
  | null => exact parseJSONValue_null E f t c tt hs hk hv

theorem getElem?_append_add {α : Type} (a l : List α) (j : Nat) :
    (a ++ l)[a.length + j]? = l[j]? := by
  rw [List.getElem?_append_right (Nat.le_add_right _ _), Nat.add_sub_cancel_left]

theorem propsCores_head (q : String × Scalar) (ps : List (String × Scalar))
    (tl : List (tokenKind × String)) :
    (propsCores (q :: ps) ++ tl)[0]? = some (stringToken, q.1) := by
  cases ps <;> rfl

/-- The loop of `parseObject` at the properties of an object document: it returns
the map in which they are set one after the other. -/
theorem parseObjectLoop_props (E : GoEnv) : ∀ (ps : List (String × Scalar))
    (pre : List (tokenKind × String)) (m : List (String × Any)) (t : List token) (f : Nat),
    t.map token.core = pre ++ (propsCores ps ++ [(symbolToken, "\x7d")]) →
    (∀ p ∈ ps, p.2.inRange) → ps.length + 3 ≤ f →
    parseObjectLoop E f t 0 pre.length m = done (t.length, .map (setAll m ps))
  | [], pre, m, t, f, ht, _, hf => by
    obtain ⟨f, rfl⟩ : ∃ g, f = g + 1 := ⟨f - 1, by omega⟩
    obtain ⟨tt, hs, hk, hv⟩ := safeGetToken_of_cores t _ ht pre.length symbolToken "\x7d"
      (by rw [← Nat.add_zero pre.length, getElem?_append_add]; rfl)
    have hlen : t.length = pre.length + 1 := by
      have := congrArg List.length ht
      simpa [propsCores] using this
    simp [parseObjectLoop, hs, hk, hv, hlen, setAll]
  | [p], pre, m, t, f, ht, hr, hf => by
    obtain ⟨f, rfl⟩ : ∃ g, f = g + 3 := ⟨f - 3, by simp at hf; omega⟩
    obtain ⟨t0, hs0, hk0, hv0⟩ := safeGetToken_of_cores t _ ht pre.length stringToken p.1
      (by rw [← Nat.add_zero pre.length, getElem?_append_add]; rfl)
    obtain ⟨t1, hs1, _, _⟩ := safeGetToken_of_cores t _ ht (pre.length + 1) symbolToken ":"
      (by rw [getElem?_append_add]; rfl)
    obtain ⟨t2, hs2, hk2, hv2⟩ := safeGetToken_of_cores t _ ht (pre.length + 2)
      p.2.core.1 p.2.core.2 (by rw [getElem?_append_add]; rfl)
    obtain ⟨t3, hs3, hk3, hv3⟩ := safeGetToken_of_cores t _ ht (pre.length + 3)
      symbolToken "\x7d" (by rw [getElem?_append_add]; rfl)
    have hval := parseJSONValue_scalar E f t (pre.length + 2) t2 p.2 hs2 hk2 hv2
      (hr p (by simp))
    rw [parseObjectLoop_property E (f + 2) t 0 pre.length m t0 t1 (pre.length + 2 + 1)
      p.2.toAny hs0 hk0 hs1 hval (by omega)]
    have h3 : pre.length + 2 + 1 = pre.length + 3 := rfl
    rw [h3, hs3]
    have hne : ¬ t3.value = "," := by rw [hv3]; decide
    simp only [if_neg hne, hv0]
    have ht' : t.map token.core
        = (pre ++ [(stringToken, p.1), (symbolToken, ":"), p.2.core])
          ++ (propsCores [] ++ [(symbolToken, "\x7d")]) := by
      rw [ht]
      simp [propsCores]
    have := parseObjectLoop_props E [] _ (mapSet m p.1 p.2.toAny) t (f + 2) ht'
      (by simp) (by simp at hf ⊢; omega)
    simpa [setAll] using this
  | p :: q :: ps, pre, m, t, f, ht, hr, hf => by
    obtain ⟨f, rfl⟩ : ∃ g, f = g + 3 := ⟨f - 3, by simp at hf; omega⟩
    have hc : propsCores (p :: q :: ps) ++ [(symbolToken, "\x7d")]
        = [(stringToken, p.1), (symbolToken, ":"), p.2.core, (symbolToken, ",")]
          ++ (propsCores (q :: ps) ++ [(symbolToken, "\x7d")]) := by
      simp [propsCores]
    rw [hc] at ht
    obtain ⟨t0, hs0, hk0, hv0⟩ := safeGetToken_of_cores t _ ht pre.length stringToken p.1
      (by rw [← Nat.add_zero pre.length, getElem?_append_add]; rfl)
    obtain ⟨t1, hs1, _, _⟩ := safeGetToken_of_cores t _ ht (pre.length + 1) symbolToken ":"
      (by rw [getElem?_append_add]; rfl)
    obtain ⟨t2, hs2, hk2, hv2⟩ := safeGetToken_of_cores t _ ht (pre.length + 2)
      p.2.core.1 p.2.core.2 (by rw [getElem?_append_add]; rfl)
    obtain ⟨t3, hs3, hk3, hv3⟩ := safeGetToken_of_cores t _ ht (pre.length + 3)
      symbolToken "," (by rw [getElem?_append_add]; simp)
    obtain ⟨t4, hs4, hk4, _⟩ := safeGetToken_of_cores t _ ht (pre.length + 3 + 1)
      stringToken q.1 (by
        have h4 : pre.length + 3 + 1 = pre.length + 4 := rfl
        rw [h4, getElem?_append_add]
        exact (getElem?_append_add
          [(stringToken, p.1), (symbolToken, ":"), p.2.core, (symbolToken, ",")] _ 0).trans
          (propsCores_head q ps _))
    have hval := parseJSONValue_scalar E f t (pre.length + 2) t2 p.2 hs2 hk2 hv2
      (hr p (by simp))
    rw [parseObjectLoop_property E (f + 2) t 0 pre.length m t0 t1 (pre.length + 2 + 1)
      p.2.toAny hs0 hk0 hs1 hval (by omega)]
    have h3 : pre.length + 2 + 1 = pre.length + 3 := rfl
    rw [h3, hs3]
    have hne : ¬ t4.kind = symbolToken := by rw [hk4]; decide
    simp only [hv3, if_true, hs4, if_neg hne, hv0]
    have ht' : t.map token.core
        = (pre ++ [(stringToken, p.1), (symbolToken, ":"), p.2.core, (symbolToken, ",")])
          ++ (propsCores (q :: ps) ++ [(symbolToken, "\x7d")]) := by
      rw [ht]
      simp
    have := parseObjectLoop_props E (q :: ps) _ (mapSet m p.1 p.2.toAny) t (f + 2) ht'
      (fun x hx => hr x (List.mem_cons_of_mem _ hx)) (by simp at hf ⊢; omega)
    simpa [setAll] using this

/-- The parser on the tokens of an object document. -/
theorem parseJSONValue_props (E : GoEnv) (ps : List (String × Scalar)) (t : List token)
    (ht : t.map token.core
      = (symbolToken, "\x7b") :: (propsCores ps ++ [(symbolToken, "\x7d")]))
    (hr : ∀ p ∈ ps, p.2.inRange) (fuel : Nat) (hf : ps.length + 5 ≤ fuel) :
    parseJSONValue E fuel t 0 = done (t.length, .map (setAll [] ps)) := by
  obtain ⟨f, rfl⟩ : ∃ g, fuel = g + 2 := ⟨fuel - 2, by omega⟩
  obtain ⟨t0, hs0, hk0, hv0⟩ := safeGetToken_of_cores t _ ht 0 symbolToken "\x7b"
    (by simp)
  have hloop := parseObjectLoop_props E ps [(symbolToken, "\x7b")] [] t f ht hr (by omega)
  have hpos : t.length ≠ 0 := by
    intro h0
    have := congrArg List.length ht
    rw [List.length_map, h0] at this
    simp at this
  exact parseJSONValue_object E f t 0 t0 _ hs0 hk0 hv0 hloop hpos

theorem Parse_renderObject (E : GoEnv) (ps : List (String × Scalar))
    (hk : ∀ p ∈ ps, '"' ∉ p.1.toList) (hr : ∀ p ∈ ps, p.2.inRange) (fuel : Nat)
    (hf : (renderObject ps).length + ps.length + 5 ≤ fuel) :
    Parse E fuel (String.mk (renderObject ps)) = done (.map (setAll [] ps), none) := by
  refine Parse_of_lexes E _ _ (.map (setAll [] ps)) fuel (lexes_object E ps hk) (by omega) ?_
  intro t ht
  have := parseJSONValue_props E ps t ht hr fuel (by omega)
  rw [this]
  have hlen := congrArg List.length ht
  rw [List.length_map] at hlen
  rw [hlen]

/-! ## The texts of the number tokens -/

/-- C1, on the input `123 456`: the lexer produces two tokens, the top-level
`parseJSONValue` stops at cursor 1, and `Parse` still returns the value 123 with
a nil error; the `error` it builds for the left-over token is dropped. -/
theorem Parse_trailing_token_accepted (E : GoEnv) :
    buildTokens E 10 "123 456".toList
        = done [⟨intToken, "123", 1, -1⟩, ⟨intToken, "456", 1, 3⟩] ∧
      parseJSONValue E 10 [⟨intToken, "123", 1, -1⟩, ⟨intToken, "456", 1, 3⟩] 0
        = done (1, .int 123) ∧
      Parse E 10 "123 456" = done (.int 123, none) := by
  have hl : buildTokens E 10 "123 456".toList
      = done [⟨intToken, "123", 1, -1⟩, ⟨intToken, "456", 1, 3⟩] :=
    buildTokens_eval E 10 _ _ (by decide!) (by decide!)
  have hp : parseJSONValue E 10
        [⟨intToken, "123", 1, -1⟩, ⟨intToken, "456", 1, 3⟩] 0
      = done (1, .int 123) :=
    parseJSONValue_eval E 10 _ _ _ (by decide!) (by decide!)
  exact ⟨hl, hp, Parse_of_done E 10 _ _ _ _ hl hp (by decide)⟩

/-- C2, on the documents `[1,[2]]` and `{"a":[1,{"b":[true,null,"x"]}]}`: `Parse`
returns an error, not the tree; the `,` after the element `1` is followed by
the symbol token `[`, resp. `{`, which `parseArray` rejects as it rejects a
trailing comma. -/
theorem Parse_nested_after_comma_rejected (E : GoEnv) :
    Parse E 20 "[1,[2]]"
        = done (.error (.token "unexpected , after array element in JSON" "1" 1 0),
            some (.token "unexpected , after array element in JSON" "1" 1 0)) ∧
      Parse E 40 "\x7b\"a\":[1,\x7b\"b\":[true,null,\"x\"]\x7d]\x7d"
        = done (.error (.token "unexpected , after array element in JSON" "1" 1 5),
            some (.token "unexpected , after array element in JSON" "1" 1 5)) := by
  have hl1 : buildTokens E 20 "[1,[2]]".toList
      = done [⟨symbolToken, "[", 1, -1⟩, ⟨intToken, "1", 1, 0⟩, ⟨symbolToken, ",", 1, 1⟩,
          ⟨symbolToken, "[", 1, 2⟩, ⟨intToken, "2", 1, 3⟩, ⟨symbolToken, "]", 1, 4⟩,
          ⟨symbolToken, "]", 1, 5⟩] :=
    buildTokens_eval E 20 _ _ (by decide!) (by decide!)
  have hp1 : parseJSONValue E 20
        [⟨symbolToken, "[", 1, -1⟩, ⟨intToken, "1", 1, 0⟩, ⟨symbolToken, ",", 1, 1⟩,
          ⟨symbolToken, "[", 1, 2⟩, ⟨intToken, "2", 1, 3⟩, ⟨symbolToken, "]", 1, 4⟩,
          ⟨symbolToken, "]", 1, 5⟩] 0
      = done (0, .error (.token "unexpected , after array element in JSON" "1" 1 0)) :=
    parseJSONValue_eval E 20 _ _ _ (by decide!) (by decide!)
  have hl2 : buildTokens E 40 "\x7b\"a\":[1,\x7b\"b\":[true,null,\"x\"]\x7d]\x7d".toList
      = done [⟨symbolToken, "\x7b", 1, -1⟩, ⟨stringToken, "a", 1, 2⟩, ⟨symbolToken, ":", 1, 3⟩,
          ⟨symbolToken, "[", 1, 4⟩, ⟨intToken, "1", 1, 5⟩, ⟨symbolToken, ",", 1, 6⟩,
          ⟨symbolToken, "\x7b", 1, 7⟩, ⟨stringToken, "b", 1, 10⟩,
          ⟨symbolToken, ":", 1, 11⟩, ⟨symbolToken, "[", 1, 12⟩,
          ⟨booleanToken, "true", 1, 13⟩, ⟨symbolToken, ",", 1, 17⟩,
          ⟨nullToken, "null", 1, 18⟩, ⟨symbolToken, ",", 1, 22⟩,
          ⟨stringToken, "x", 1, 25⟩, ⟨symbolToken, "]", 1, 26⟩,
          ⟨symbolToken, "\x7d", 1, 27⟩, ⟨symbolToken, "]", 1, 28⟩,
          ⟨symbolToken, "\x7d", 1, 29⟩] :=
    buildTokens_eval E 40 _ _ (by decide!) (by decide!)
  have hp2 : parseJSONValue E 40
        [⟨symbolToken, "\x7b", 1, -1⟩, ⟨stringToken, "a", 1, 2⟩, ⟨symbolToken, ":", 1, 3⟩,
          ⟨symbolToken, "[", 1, 4⟩, ⟨intToken, "1", 1, 5⟩, ⟨symbolToken, ",", 1, 6⟩,
          ⟨symbolToken, "\x7b", 1, 7⟩, ⟨stringToken, "b", 1, 10⟩,
          ⟨symbolToken, ":", 1, 11⟩, ⟨symbolToken, "[", 1, 12⟩,
          ⟨booleanToken, "true", 1, 13⟩, ⟨symbolToken, ",", 1, 17⟩,
          ⟨nullToken, "null", 1, 18⟩, ⟨symbolToken, ",", 1, 22⟩,
          ⟨stringToken, "x", 1, 25⟩, ⟨symbolToken, "]", 1, 26⟩,
          ⟨symbolToken, "\x7d", 1, 27⟩, ⟨symbolToken, "]", 1, 28⟩,
          ⟨symbolToken, "\x7d", 1, 29⟩] 0
      = done (0, .error (.token "unexpected , after array element in JSON" "1" 1 5)) :=
    parseJSONValue_eval E 40 _ _ _ (by decide!) (by decide!)
  exact ⟨Parse_of_done E 20 _ _ _ _ hl1 hp1 (by decide),
    Parse_of_done E 40 _ _ _ _ hl2 hp2 (by decide)⟩

/-- C4, on the text `"["` (a string whose body is `[`): `parseArray` compares
only the token's text with `[`, takes the String token for the opening of an
array, and dereferences the nil token behind it; `Parse` returns the recovered
run-time error instead of the string. -/
theorem Parse_string_bracket_rejected (E : GoEnv) :
    buildTokens E 10 "\"[\"".toList = done [⟨stringToken, "[", 1, 1⟩] ∧
      Parse E 10 "\"[\"" = done (.nil, some (.runtime .nilDereference)) := by
  have hl : buildTokens E 10 "\"[\"".toList
      = done [⟨stringToken, "[", 1, 1⟩] :=
    buildTokens_eval E 10 _ _ (by decide!) (by decide!)
  have hp : parseJSONValue E 10
        [⟨stringToken, "[", 1, 1⟩] 0
      = .panic (.runtime .nilDereference) :=
    parseJSONValue_eval E 10 _ _ _ (by decide!) (by decide!)
  exact ⟨hl, Parse_of_parser_panic E 10 _ _ _ hl hp⟩

/-- C5, on `[1 2]` and `{"a":1 "b":2}`: `Parse` returns the array `[1, 2]` and
the object with `a` and `b`, both with a nil error; nothing requires the comma
between two elements or two properties. -/
theorem Parse_missing_comma_accepted (E : GoEnv) :
    Parse E 20 "[1 2]" = done (.slice [.int 1, .int 2], none) ∧
      Parse E 20 "\x7b\"a\":1 \"b\":2\x7d" = done (.map [("a", .int 1), ("b", .int 2)], none) := by
  have hl1 : buildTokens E 20 "[1 2]".toList
      = done [⟨symbolToken, "[", 1, -1⟩, ⟨intToken, "1", 1, 0⟩, ⟨intToken, "2", 1, 2⟩,
          ⟨symbolToken, "]", 1, 3⟩] :=
    buildTokens_eval E 20 _ _ (by decide!) (by decide!)
  have hp1 : parseJSONValue E 20
        [⟨symbolToken, "[", 1, -1⟩, ⟨intToken, "1", 1, 0⟩, ⟨intToken, "2", 1, 2⟩,
          ⟨symbolToken, "]", 1, 3⟩] 0
      = done (4, .slice [.int 1, .int 2]) :=
    parseJSONValue_eval E 20 _ _ _ (by decide!) (by decide!)
  have hl2 : buildTokens E 20 "\x7b\"a\":1 \"b\":2\x7d".toList
      = done [⟨symbolToken, "\x7b", 1, -1⟩, ⟨stringToken, "a", 1, 2⟩, ⟨symbolToken, ":", 1, 3⟩,
          ⟨intToken, "1", 1, 4⟩, ⟨stringToken, "b", 1, 8⟩, ⟨symbolToken, ":", 1, 9⟩,
          ⟨intToken, "2", 1, 10⟩, ⟨symbolToken, "\x7d", 1, 11⟩] :=
    buildTokens_eval E 20 _ _ (by decide!) (by decide!)
  have hp2 : parseJSONValue E 20
        [⟨symbolToken, "\x7b", 1, -1⟩, ⟨stringToken, "a", 1, 2⟩, ⟨symbolToken, ":", 1, 3⟩,
          ⟨intToken, "1", 1, 4⟩, ⟨stringToken, "b", 1, 8⟩, ⟨symbolToken, ":", 1, 9⟩,
          ⟨intToken, "2", 1, 10⟩, ⟨symbolToken, "\x7d", 1, 11⟩] 0
      = done (8, .map [("a", .int 1), ("b", .int 2)]) :=
    parseJSONValue_eval E 20 _ _ _ (by decide!) (by decide!)
  exact ⟨Parse_of_done E 20 _ _ _ _ hl1 hp1 (by decide),
    Parse_of_done E 20 _ _ _ _ hl2 hp2 (by decide)⟩

/-- C6, on `{"a" "b" "c"}` and `{"a","b"}`: `Parse` returns an object with the
one key `a` (mapped to `"c"`, resp. `"b"`) and a nil error; the token after
the key is skipped without being compared with `:`. -/
theorem Parse_missing_colon_accepted (E : GoEnv) :
    Parse E 20 "\x7b\"a\" \"b\" \"c\"\x7d" = done (.map [("a", .str "c")], none) ∧
      Parse E 20 "\x7b\"a\",\"b\"\x7d" = done (.map [("a", .str "b")], none) := by
  have hl1 : buildTokens E 20 "\x7b\"a\" \"b\" \"c\"\x7d".toList
      = done [⟨symbolToken, "\x7b", 1, -1⟩, ⟨stringToken, "a", 1, 2⟩, ⟨stringToken, "b", 1, 6⟩,
          ⟨stringToken, "c", 1, 10⟩, ⟨symbolToken, "\x7d", 1, 11⟩] :=
    buildTokens_eval E 20 _ _ (by decide!) (by decide!)
  have hp1 : parseJSONValue E 20
        [⟨symbolToken, "\x7b", 1, -1⟩, ⟨stringToken, "a", 1, 2⟩, ⟨stringToken, "b", 1, 6⟩,
          ⟨stringToken, "c", 1, 10⟩, ⟨symbolToken, "\x7d", 1, 11⟩] 0
      = done (5, .map [("a", .str "c")]) :=
    parseJSONValue_eval E 20 _ _ _ (by decide!) (by decide!)
  have hl2 : buildTokens E 20 "\x7b\"a\",\"b\"\x7d".toList
      = done [⟨symbolToken, "\x7b", 1, -1⟩, ⟨stringToken, "a", 1, 2⟩, ⟨symbolToken, ",", 1, 3⟩,
          ⟨stringToken, "b", 1, 6⟩, ⟨symbolToken, "\x7d", 1, 7⟩] :=
    buildTokens_eval E 20 _ _ (by decide!) (by decide!)
  have hp2 : parseJSONValue E 20
        [⟨symbolToken, "\x7b", 1, -1⟩, ⟨stringToken, "a", 1, 2⟩, ⟨symbolToken, ",", 1, 3⟩,
          ⟨stringToken, "b", 1, 6⟩, ⟨symbolToken, "\x7d", 1, 7⟩] 0
      = done (5, .map [("a", .str "b")]) :=
    parseJSONValue_eval E 20 _ _ _ (by decide!) (by decide!)
  exact ⟨Parse_of_done E 20 _ _ _ _ hl1 hp1 (by decide),
    Parse_of_done E 20 _ _ _ _ hl2 hp2 (by decide)⟩

/-- C8, on `[1]]` and `{}}`: `Parse` returns the array `[1]`, resp. the empty
object, with a nil error; the closing symbol without an opening one is a
left-over token, and left-over tokens are not reported. -/
theorem Parse_unbalanced_close_accepted (E : GoEnv) :
    Parse E 20 "[1]]" = done (.slice [.int 1], none) ∧
      Parse E 20 "\x7b\x7d\x7d" = done (.map [], none) := by
  have hl1 : buildTokens E 20 "[1]]".toList
      = done [⟨symbolToken, "[", 1, -1⟩, ⟨intToken, "1", 1, 0⟩, ⟨symbolToken, "]", 1, 1⟩,
          ⟨symbolToken, "]", 1, 2⟩] :=
    buildTokens_eval E 20 _ _ (by decide!) (by decide!)
  have hp1 : parseJSONValue E 20
        [⟨symbolToken, "[", 1, -1⟩, ⟨intToken, "1", 1, 0⟩, ⟨symbolToken, "]", 1, 1⟩,
          ⟨symbolToken, "]", 1, 2⟩] 0
      = done (3, .slice [.int 1]) :=
    parseJSONValue_eval E 20 _ _ _ (by decide!) (by decide!)
  have hl2 : buildTokens E 20 "\x7b\x7d\x7d".toList
      = done [⟨symbolToken, "\x7b", 1, -1⟩, ⟨symbolToken, "\x7d", 1, 0⟩, ⟨symbolToken, "\x7d", 1, 1⟩] :=
    buildTokens_eval E 20 _ _ (by decide!) (by decide!)
  have hp2 : parseJSONValue E 20
        [⟨symbolToken, "\x7b", 1, -1⟩, ⟨symbolToken, "\x7d", 1, 0⟩, ⟨symbolToken, "\x7d", 1, 1⟩] 0
      = done (2, .map []) :=
    parseJSONValue_eval E 20 _ _ _ (by decide!) (by decide!)
  exact ⟨Parse_of_done E 20 _ _ _ _ hl1 hp1 (by decide),
    Parse_of_done E 20 _ _ _ _ hl2 hp2 (by decide)⟩

/-- C3, on the inputs `{,` and `{"a":1]`: whatever the budget, `Parse` does not
return; the loop of `parseObject` meets a symbol other than `}` at a
property-key position and starts over at the same token. -/
theorem Parse_object_loop_never_returns (E : GoEnv) :
    (∀ fuel, Parse E fuel "\x7b," = .outOfFuel) ∧
      (∀ fuel, Parse E fuel "\x7b\"a\":1]" = .outOfFuel) := by
  constructor
  · have hl : buildTokens E 10 "\x7b,".toList
        = done [⟨symbolToken, "\x7b", 1, -1⟩, ⟨symbolToken, ",", 1, 0⟩] :=
      buildTokens_eval E 10 _ _ (by decide!) (by decide!)
    exact Parse_outOfFuel_of_tokens E _ 10 _ hl
      (parseJSONValue_stuck_of_object E _ 0 ⟨symbolToken, "\x7b", 1, -1⟩ rfl rfl rfl
        (parseObjectLoop_stuck E _ 0 1 [] ⟨symbolToken, ",", 1, 0⟩ rfl rfl (by decide)))
  · have hl : buildTokens E 20 "\x7b\"a\":1]".toList
        = done [⟨symbolToken, "\x7b", 1, -1⟩, ⟨stringToken, "a", 1, 2⟩, ⟨symbolToken, ":", 1, 3⟩,
            ⟨intToken, "1", 1, 4⟩, ⟨symbolToken, "]", 1, 5⟩] :=
      buildTokens_eval E 20 _ _ (by decide!) (by decide!)
    refine Parse_outOfFuel_of_tokens E _ 20 _ hl
      (parseJSONValue_stuck_of_object E _ 0 ⟨symbolToken, "\x7b", 1, -1⟩ rfl rfl rfl ?_)
    refine parseObjectLoop_outOfFuel_of_ge E _ 0 1 [] 3 ?_
    intro f hf
    obtain ⟨g, rfl⟩ : ∃ g, f = g + 1 := ⟨f - 1, by omega⟩
    have hv : parseJSONValue E g
          [⟨symbolToken, "\x7b", 1, -1⟩, ⟨stringToken, "a", 1, 2⟩, ⟨symbolToken, ":", 1, 3⟩,
            ⟨intToken, "1", 1, 4⟩, ⟨symbolToken, "]", 1, 5⟩] 3
        = done (4, .int 1) :=
      parseJSONValue_of_le E 2 g _ 3 _
        (parseJSONValue_eval E 2 _ _ _ (by decide!) (by decide!)) (by omega)
    rw [parseObjectLoop_property E g
      [⟨symbolToken, "\x7b", 1, -1⟩, ⟨stringToken, "a", 1, 2⟩, ⟨symbolToken, ":", 1, 3⟩,
        ⟨intToken, "1", 1, 4⟩, ⟨symbolToken, "]", 1, 5⟩]
      0 1 [] ⟨stringToken, "a", 1, 2⟩ ⟨symbolToken, ":", 1, 3⟩ 4 (.int 1) rfl rfl rfl hv
      (by decide)]
    exact parseObjectLoop_stuck E
      [⟨symbolToken, "\x7b", 1, -1⟩, ⟨stringToken, "a", 1, 2⟩, ⟨symbolToken, ":", 1, 3⟩,
        ⟨intToken, "1", 1, 4⟩, ⟨symbolToken, "]", 1, 5⟩]
      0 4 _ ⟨symbolToken, "]", 1, 5⟩ rfl rfl (by decide) g

/-- C7, on the inputs `{:1}` and `{[`: whatever the budget, `Parse` does not
return, so no error is reported for the symbol at the property-key position;
on `{1:2}`, where the token at that position is a literal, `Parse` returns the
error. -/
theorem Parse_symbol_key_never_returns (E : GoEnv) :
    (∀ fuel, Parse E fuel "\x7b:1\x7d" = .outOfFuel) ∧
      (∀ fuel, Parse E fuel "\x7b[" = .outOfFuel) ∧
      Parse E 10 "\x7b1:2\x7d"
        = done (.error (.token "expected ',' or '\x7d' before property value in JSON" "1" 1 0),
            some (.token "expected ',' or '\x7d' before property value in JSON" "1" 1 0)) := by
  refine ⟨?_, ?_, ?_⟩
  · have hl : buildTokens E 10 "\x7b:1\x7d".toList
        = done [⟨symbolToken, "\x7b", 1, -1⟩, ⟨symbolToken, ":", 1, 0⟩, ⟨intToken, "1", 1, 1⟩,
            ⟨symbolToken, "\x7d", 1, 2⟩] :=
      buildTokens_eval E 10 _ _ (by decide!) (by decide!)
    exact Parse_outOfFuel_of_tokens E _ 10 _ hl
      (parseJSONValue_stuck_of_object E _ 0 ⟨symbolToken, "\x7b", 1, -1⟩ rfl rfl rfl
        (parseObjectLoop_stuck E _ 0 1 [] ⟨symbolToken, ":", 1, 0⟩ rfl rfl (by decide)))
  · have hl : buildTokens E 10 "\x7b[".toList
        = done [⟨symbolToken, "\x7b", 1, -1⟩, ⟨symbolToken, "[", 1, 0⟩] :=
      buildTokens_eval E 10 _ _ (by decide!) (by decide!)
    exact Parse_outOfFuel_of_tokens E _ 10 _ hl
      (parseJSONValue_stuck_of_object E _ 0 ⟨symbolToken, "\x7b", 1, -1⟩ rfl rfl rfl
        (parseObjectLoop_stuck E _ 0 1 [] ⟨symbolToken, "[", 1, 0⟩ rfl rfl (by decide)))
  · have hl : buildTokens E 10 "\x7b1:2\x7d".toList
        = done [⟨symbolToken, "\x7b", 1, -1⟩, ⟨intToken, "1", 1, 0⟩, ⟨symbolToken, ":", 1, 1⟩,
            ⟨intToken, "2", 1, 2⟩, ⟨symbolToken, "\x7d", 1, 3⟩] :=
      buildTokens_eval E 10 _ _ (by decide!) (by decide!)
    have hp : parseJSONValue E 10
          [⟨symbolToken, "\x7b", 1, -1⟩, ⟨intToken, "1", 1, 0⟩, ⟨symbolToken, ":", 1, 1⟩,
            ⟨intToken, "2", 1, 2⟩, ⟨symbolToken, "\x7d", 1, 3⟩] 0
        = done (0, .error (.token "expected ',' or '\x7d' before property value in JSON"
            "1" 1 0)) :=
      parseJSONValue_eval E 10 _ _ _ (by decide!) (by decide!)
    exact Parse_of_done E 10 _ _ _ _ hl hp (by decide)

/-- C10: when the loop of the lexer begins an iteration at a `-` that no digit
follows (also a `-` that ends the input), at a run of digits (after an optional
`-`) followed by a `.` that no digit follows, or at a `.`, then `Parse` returns
no value and a non-nil error, for every budget that lets the lexer get there. -/
theorem Parse_malformed_number_rejected (E : GoEnv) (source : String) (n : Nat)
    (st : LexState) (hreach : LexReach E source.toList n st)
    (hbad : MalformedNumberAt E source.toList st.cursor) :
    ∃ e : GoError, ∀ fuel, n < fuel → Parse E fuel source = done (.nil, some e) := by
  obtain ⟨p, hp⟩ := lexStep_malformed E source.toList st hbad
  have hlt := cursor_lt_of_malformed E source.toList st.cursor hbad
  refine ⟨(recover .nil p).2.getD (.plain ""), ?_⟩
  intro fuel hf
  obtain ⟨k, rfl⟩ : ∃ k, fuel = n + (k + 1) := ⟨fuel - n - 1, by omega⟩
  have hl : buildTokens E (n + (k + 1)) source.toList = .panic p := by
    show buildTokensLoop E source.toList (n + (k + 1)) LexState.init = .panic p
    rw [buildTokensLoop_of_reach E source.toList n st hreach (k + 1)]
    simp only [buildTokensLoop, hlt, if_true, hp]
  rw [Parse_of_lexer_panic E _ source p hl]
  cases p <;> rfl

/-- C10 on the inputs `-`, `1.` and `.5`, where the lexer is at the malformed form
from the start, and on `[-1.]`, where it gets there in its second iteration. -/
theorem Parse_malformed_number_rejected_witness :
    (∃ e, ∀ fuel, 0 < fuel → Parse latin1Env fuel "-" = done (.nil, some e)) ∧
      (∃ e, ∀ fuel, 0 < fuel → Parse latin1Env fuel "1." = done (.nil, some e)) ∧
      (∃ e, ∀ fuel, 0 < fuel → Parse latin1Env fuel ".5" = done (.nil, some e)) ∧
      (∃ e, ∀ fuel, 1 < fuel → Parse latin1Env fuel "[-1.]" = done (.nil, some e)) :=
  ⟨Parse_malformed_number_rejected latin1Env "-" 0 LexState.init .start
      (Or.inl ⟨by decide, by intro d h; simp at h⟩),
    Parse_malformed_number_rejected latin1Env "1." 0 LexState.init .start
      (Or.inr (Or.inl ⟨0, 1, Or.inl ⟨rfl, by intro d h; simp [LexState.init] at h; subst h; decide⟩,
        by decide,
        by intro i h1 h2; exact ⟨'1', by interval_cases i; decide, by decide⟩,
        by decide, by intro d h; simp at h⟩)),
    Parse_malformed_number_rejected latin1Env ".5" 0 LexState.init .start
      (Or.inr (Or.inr (by decide))),
    Parse_malformed_number_rejected latin1Env "[-1.]" 1
      { cursor := 1, tokens := [⟨symbolToken, "[", 1, -1⟩], lineNumber := 1,
        linePosition := 1 }
      (.step .start (by decide) (by decide!))
      (Or.inr (Or.inl ⟨2, 3, Or.inr ⟨by decide, rfl⟩, by decide,
        by intro i h1 h2; exact ⟨'1', by interval_cases i; decide, by decide⟩,
        by decide, by intro d h; simp at h; subst h; decide⟩))⟩

/-- C9, as amended.  When the loop of `parseArray` has parsed an element, or the
loop of `parseObject` a property, and the next token has the text `,` and is
followed by a token of kind Symbol, the loop returns the error
`unexpected , after array element in JSON` at the first token of that element or
property, with the cursor the array or object was called at.  Whenever a loop
that `Parse` runs returns an error with its cursor, `Parse` returns an error:
that very error when the loop does not run inside the value of an array element,
and otherwise the error `expected ',' or ']' before array element in JSON` at the
first token of the outermost array element it runs inside.
`[1,]` and `{"a":1,}` fail. -/
theorem trailing_comma_rejected (E : GoEnv) :
    (∀ (f : Nat) (t : List token) (cursor idx : Nat) (s : List Any) (tt nt ntt : token)
        (vc : Nat) (val : Any),
        safeGetToken t idx = some tt → parseJSONValue E f t idx = done (vc, val) → vc ≠ idx →
        safeGetToken t vc = some nt → nt.value = "," →
        safeGetToken t (vc + 1) = some ntt → ntt.kind = symbolToken →
        parseArrayLoop E (f + 1) t cursor idx s =
          done (cursor, .error (.token "unexpected , after array element in JSON"
            tt.value tt.lineNumber tt.linePosition))) ∧
    (∀ (f : Nat) (t : List token) (cursor idx : Nat) (m : List (String × Any))
        (tt ct nt ntt : token) (vc : Nat) (val : Any),
        safeGetToken t idx = some tt → tt.kind = stringToken →
        safeGetToken t (idx + 1) = some ct →
        parseJSONValue E f t (idx + 2) = done (vc, val) → vc ≠ idx + 2 →
        safeGetToken t vc = some nt → nt.value = "," →
        safeGetToken t (vc + 1) = some ntt → ntt.kind = symbolToken →
        parseObjectLoop E (f + 1) t cursor idx m =
          done (cursor, .error (.token "unexpected , after array element in JSON"
            tt.value tt.lineNumber tt.linePosition))) ∧
    (∀ (source : String) (fuel : Nat) (t : List token) (g : Nat) (b : Frame)
        (o : Option token) (e : GoError),
        buildTokens E fuel source.toList = done t →
        Runs E t fuel (.value 0) g b o → b.isLoop = true →
        b.run E g t = done (b.cursor, .error e) →
        Parse E fuel source
          = done (.error (errorThrough o e), some (errorThrough o e))) ∧
    Parse E 20 "[1,]"
      = done (.error (.token "unexpected , after array element in JSON" "1" 1 0),
          some (.token "unexpected , after array element in JSON" "1" 1 0)) ∧
    Parse E 20 "\x7b\"a\":1,\x7d"
      = done (.error (.token "unexpected , after array element in JSON" "a" 1 2),
          some (.token "unexpected , after array element in JSON" "a" 1 2)) := by
  refine ⟨?_, ?_, ?_, ?_, ?_⟩
  · intro f t cursor idx s tt nt ntt vc val hs hv hvc hn hcomma hn2 hsym
    rw [parseArrayLoop_element E f t cursor idx s tt vc val hs hv hvc]
    simp only [hn, if_pos hcomma, hn2, if_pos hsym, hcomma]
    rfl
  · intro f t cursor idx m tt ct nt ntt vc val hs hk hct hv hvc hn hcomma hn2 hsym
    rw [parseObjectLoop_property E f t cursor idx m tt ct vc val hs hk hct hv hvc]
    simp only [hn, if_pos hcomma, hn2, if_pos hsym, hcomma]
    rfl
  · intro source fuel t g b o e hl hruns hloop hb
    exact Parse_of_done E fuel source t 0 _ hl
      (runs_error E t fuel g (.value 0) b o hruns e hb (notAtClose_of_isLoop t b hloop))
      (Nat.zero_le _)
  · have hl : buildTokens E 20 "[1,]".toList
        = done [⟨symbolToken, "[", 1, -1⟩, ⟨intToken, "1", 1, 0⟩, ⟨symbolToken, ",", 1, 1⟩,
          ⟨symbolToken, "]", 1, 2⟩] :=
      buildTokens_eval E 20 _ _ (by decide!) (by decide!)
    have hp : parseJSONValue E 20
          [⟨symbolToken, "[", 1, -1⟩, ⟨intToken, "1", 1, 0⟩, ⟨symbolToken, ",", 1, 1⟩,
          ⟨symbolToken, "]", 1, 2⟩] 0
        = done (0, .error (.token "unexpected , after array element in JSON" "1" 1 0)) :=
      parseJSONValue_eval E 20 _ _ _ (by decide!) (by decide!)
    exact Parse_of_done E 20 _ _ _ _ hl hp (by decide)
  · have hl : buildTokens E 20 "\x7b\"a\":1,\x7d".toList
        = done [⟨symbolToken, "\x7b", 1, -1⟩, ⟨stringToken, "a", 1, 2⟩, ⟨symbolToken, ":", 1, 3⟩,
          ⟨intToken, "1", 1, 4⟩, ⟨symbolToken, ",", 1, 5⟩, ⟨symbolToken, "\x7d", 1, 6⟩] :=
      buildTokens_eval E 20 _ _ (by decide!) (by decide!)
    have hp : parseJSONValue E 20
          [⟨symbolToken, "\x7b", 1, -1⟩, ⟨stringToken, "a", 1, 2⟩, ⟨symbolToken, ":", 1, 3⟩,
          ⟨intToken, "1", 1, 4⟩, ⟨symbolToken, ",", 1, 5⟩, ⟨symbolToken, "\x7d", 1, 6⟩] 0
        = done (0, .error (.token "unexpected , after array element in JSON" "a" 1 2)) :=
      parseJSONValue_eval E 20 _ _ _ (by decide!) (by decide!)
    exact Parse_of_done E 20 _ _ _ _ hl hp (by decide)

/-- C9 as stated fails on `[[1,]]`: the loop of the inner `parseArray` has parsed
the element `1`, a `,` and the symbol `]` follow, and it returns the error
`unexpected , after array element in JSON` at `1` with its cursor 1; `Parse`
returns another error, the one of the outer array at `[`. -/
theorem trailing_comma_error_replaced :
    buildTokens latin1Env 20 "[[1,]]".toList
        = done [⟨symbolToken, "[", 1, -1⟩, ⟨symbolToken, "[", 1, 0⟩, ⟨intToken, "1", 1, 1⟩,
          ⟨symbolToken, ",", 1, 2⟩, ⟨symbolToken, "]", 1, 3⟩, ⟨symbolToken, "]", 1, 4⟩] ∧
      parseJSONValue latin1Env 14
          [⟨symbolToken, "[", 1, -1⟩, ⟨symbolToken, "[", 1, 0⟩, ⟨intToken, "1", 1, 1⟩,
          ⟨symbolToken, ",", 1, 2⟩, ⟨symbolToken, "]", 1, 3⟩, ⟨symbolToken, "]", 1, 4⟩] 2
        = done (3, .int 1) ∧
      parseArrayLoop latin1Env 15
          [⟨symbolToken, "[", 1, -1⟩, ⟨symbolToken, "[", 1, 0⟩, ⟨intToken, "1", 1, 1⟩,
          ⟨symbolToken, ",", 1, 2⟩, ⟨symbolToken, "]", 1, 3⟩, ⟨symbolToken, "]", 1, 4⟩] 1 2 []
        = done (1, .error (.token "unexpected , after array element in JSON" "1" 1 1)) ∧
      Parse latin1Env 20 "[[1,]]"
        = done (.error (.token "expected ',' or ']' before array element in JSON" "[" 1 0),
            some (.token "expected ',' or ']' before array element in JSON" "[" 1 0)) := by
  have hl : buildTokens latin1Env 20 "[[1,]]".toList
      = done [⟨symbolToken, "[", 1, -1⟩, ⟨symbolToken, "[", 1, 0⟩, ⟨intToken, "1", 1, 1⟩,
          ⟨symbolToken, ",", 1, 2⟩, ⟨symbolToken, "]", 1, 3⟩, ⟨symbolToken, "]", 1, 4⟩] := by decide!
  have hp : parseJSONValue latin1Env 20
        [⟨symbolToken, "[", 1, -1⟩, ⟨symbolToken, "[", 1, 0⟩, ⟨intToken, "1", 1, 1⟩,
          ⟨symbolToken, ",", 1, 2⟩, ⟨symbolToken, "]", 1, 3⟩, ⟨symbolToken, "]", 1, 4⟩] 0
      = done (0, .error (.token "expected ',' or ']' before array element in JSON"
          "[" 1 0)) :=
    eq_of_resultBeq _ _ (by decide!)
  exact ⟨hl, eq_of_resultBeq _ _ (by decide!), eq_of_resultBeq _ _ (by decide!),
    Parse_of_done latin1Env 20 _ _ _ _ hl hp (by decide)⟩

/-- C9 as amended on `[1,]`, on `{"a":1,}`, on `[[1,]]`, where the inner array is the
value of an element of the outer one, and on `{"a":[1,]}`, where the array is
the value of a property. -/
theorem trailing_comma_rejected_witness :
    parseArrayLoop latin1Env 3
        [⟨symbolToken, "[", 1, -1⟩, ⟨intToken, "1", 1, 0⟩, ⟨symbolToken, ",", 1, 1⟩,
          ⟨symbolToken, "]", 1, 2⟩] 0 1 []
      = done (0, .error (.token "unexpected , after array element in JSON" "1" 1 0)) ∧
    parseObjectLoop latin1Env 3
        [⟨symbolToken, "\x7b", 1, -1⟩, ⟨stringToken, "a", 1, 2⟩, ⟨symbolToken, ":", 1, 3⟩,
          ⟨intToken, "1", 1, 4⟩, ⟨symbolToken, ",", 1, 5⟩, ⟨symbolToken, "\x7d", 1, 6⟩] 0 1 []
      = done (0, .error (.token "unexpected , after array element in JSON" "a" 1 2)) ∧
    Parse latin1Env 20 "[[1,]]"
      = done (.error (.token "expected ',' or ']' before array element in JSON" "[" 1 0),
          some (.token "expected ',' or ']' before array element in JSON" "[" 1 0)) ∧
    Parse latin1Env 20 "\x7b\"a\":[1,]\x7d"
      = done (.error (.token "unexpected , after array element in JSON" "1" 1 5),
          some (.token "unexpected , after array element in JSON" "1" 1 5)) := by
  have hr1 : Runs latin1Env
        [⟨symbolToken, "[", 1, -1⟩, ⟨symbolToken, "[", 1, 0⟩, ⟨intToken, "1", 1, 1⟩,
          ⟨symbolToken, ",", 1, 2⟩, ⟨symbolToken, "]", 1, 3⟩, ⟨symbolToken, "]", 1, 4⟩]
        20 (.value 0) 18 (.arrayLoop 0 1 []) none :=
    .tail .refl (@Invokes.arrayOpen _ _ 18 0 ⟨symbolToken, "[", 1, -1⟩ rfl rfl)
  have hr2 : Runs latin1Env
        [⟨symbolToken, "[", 1, -1⟩, ⟨symbolToken, "[", 1, 0⟩, ⟨intToken, "1", 1, 1⟩,
          ⟨symbolToken, ",", 1, 2⟩, ⟨symbolToken, "]", 1, 3⟩, ⟨symbolToken, "]", 1, 4⟩]
        20 (.value 0) 17 (.value 1) (some ⟨symbolToken, "[", 1, 0⟩) :=
    .tail hr1 (@Invokes.arrayElement _ _ 17 0 1 [] ⟨symbolToken, "[", 1, 0⟩ rfl)
  have hr3 : Runs latin1Env
        [⟨symbolToken, "[", 1, -1⟩, ⟨symbolToken, "[", 1, 0⟩, ⟨intToken, "1", 1, 1⟩,
          ⟨symbolToken, ",", 1, 2⟩, ⟨symbolToken, "]", 1, 3⟩, ⟨symbolToken, "]", 1, 4⟩]
        20 (.value 0) 15 (.arrayLoop 1 2 []) (some ⟨symbolToken, "[", 1, 0⟩) :=
    .tail hr2 (@Invokes.arrayOpen _ _ 15 1 ⟨symbolToken, "[", 1, 0⟩ rfl rfl)
  have hq1 : Runs latin1Env
        [⟨symbolToken, "\x7b", 1, -1⟩, ⟨stringToken, "a", 1, 2⟩, ⟨symbolToken, ":", 1, 3⟩,
          ⟨symbolToken, "[", 1, 4⟩, ⟨intToken, "1", 1, 5⟩, ⟨symbolToken, ",", 1, 6⟩,
          ⟨symbolToken, "]", 1, 7⟩, ⟨symbolToken, "\x7d", 1, 8⟩]
        20 (.value 0) 18 (.objectLoop 0 1 []) none :=
    .tail .refl (@Invokes.objectOpen _ _ 18 0 ⟨symbolToken, "\x7b", 1, -1⟩ rfl rfl rfl)
  have hq2 : Runs latin1Env
        [⟨symbolToken, "\x7b", 1, -1⟩, ⟨stringToken, "a", 1, 2⟩, ⟨symbolToken, ":", 1, 3⟩,
          ⟨symbolToken, "[", 1, 4⟩, ⟨intToken, "1", 1, 5⟩, ⟨symbolToken, ",", 1, 6⟩,
          ⟨symbolToken, "]", 1, 7⟩, ⟨symbolToken, "\x7d", 1, 8⟩]
        20 (.value 0) 17 (.value 3) none :=
    .tail hq1 (@Invokes.objectValue _ _ 17 0 1 [] ⟨stringToken, "a", 1, 2⟩
      ⟨symbolToken, ":", 1, 3⟩ rfl rfl rfl)
  have hq3 : Runs latin1Env
        [⟨symbolToken, "\x7b", 1, -1⟩, ⟨stringToken, "a", 1, 2⟩, ⟨symbolToken, ":", 1, 3⟩,
          ⟨symbolToken, "[", 1, 4⟩, ⟨intToken, "1", 1, 5⟩, ⟨symbolToken, ",", 1, 6⟩,
          ⟨symbolToken, "]", 1, 7⟩, ⟨symbolToken, "\x7d", 1, 8⟩]
        20 (.value 0) 15 (.arrayLoop 3 4 []) none :=
    .tail hq2 (@Invokes.arrayOpen _ _ 15 3 ⟨symbolToken, "[", 1, 4⟩ rfl rfl)
  exact ⟨(trailing_comma_rejected latin1Env).1 2 _ 0 1 [] ⟨intToken, "1", 1, 0⟩
      ⟨symbolToken, ",", 1, 1⟩ ⟨symbolToken, "]", 1, 2⟩ 2 (.int 1) rfl
      (eq_of_resultBeq _ _ (by decide!)) (by decide) rfl rfl rfl rfl,
    (trailing_comma_rejected latin1Env).2.1 2 _ 0 1 [] ⟨stringToken, "a", 1, 2⟩
      ⟨symbolToken, ":", 1, 3⟩ ⟨symbolToken, ",", 1, 5⟩ ⟨symbolToken, "\x7d", 1, 6⟩ 4 (.int 1)
      rfl rfl rfl (eq_of_resultBeq _ _ (by decide!)) (by decide) rfl rfl rfl rfl,
    (trailing_comma_rejected latin1Env).2.2.1 "[[1,]]" 20 _ 15 (.arrayLoop 1 2 [])
      (some ⟨symbolToken, "[", 1, 0⟩)
      (.token "unexpected , after array element in JSON" "1" 1 1)
      (by decide!) hr3 rfl (eq_of_resultBeq _ _ (by decide!)),
    (trailing_comma_rejected latin1Env).2.2.1 "\x7b\"a\":[1,]\x7d" 20 _ 15 (.arrayLoop 3 4 [])
      none (.token "unexpected , after array element in JSON" "1" 1 5)
      (by decide!) hq3 rfl (eq_of_resultBeq _ _ (by decide!))⟩

/-- C14, on the input of two lines `[1 "a"`: the columns on the first line are
-1, 0 and 4 where the first characters stand at 1, 2 and 4, and on the second line
1, 2 and 6: the column is `cursor - linePosition - len(t.value)` with `linePosition`
1 at the start, and the text of a String token leaves its two quotes out. -/
theorem buildTokens_columns (E : GoEnv) :
    buildTokens E 20 "[1 \"a\"\n[1 \"a\"".toList
      = done [⟨symbolToken, "[", 1, -1⟩, ⟨intToken, "1", 1, 0⟩, ⟨stringToken, "a", 1, 4⟩,
          ⟨symbolToken, "[", 2, 1⟩, ⟨intToken, "1", 2, 2⟩, ⟨stringToken, "a", 2, 6⟩] :=
  buildTokens_eval E 20 _ _ (by decide!) (by decide!)

/-- C15, on the inputs `@` and `[`, line return, two blanks, `@`: the lexer panics
with a text that holds a line and a column, and `Parse` returns the error
`failed to parse JSON` without them; the panic value is a string, which the
deferred `recover` replaces. -/
theorem Parse_unexpected_character_unlocated (E : GoEnv) :
    buildTokens E 10 "@".toList
        = .panic (.str "failed to parse JSON at (line 1, column 1)") ∧
      Parse E 10 "@" = done (.nil, some (.plain "failed to parse JSON")) ∧
      buildTokens E 10 "[\n  @".toList
        = .panic (.str "failed to parse JSON at (line 2, column 1)") ∧
      Parse E 10 "[\n  @" = done (.nil, some (.plain "failed to parse JSON")) := by
  have h1 : buildTokens E 10 "@".toList
      = .panic (.str "failed to parse JSON at (line 1, column 1)") :=
    buildTokens_eval E 10 _ _ (by decide!) (by decide!)
  have h2 : buildTokens E 10 "[\n  @".toList
      = .panic (.str "failed to parse JSON at (line 2, column 1)") :=
    buildTokens_eval E 10 _ _ (by decide!) (by decide!)
  exact ⟨h1, Parse_of_lexer_panic E 10 _ _ h1, h2, Parse_of_lexer_panic E 10 _ _ h2⟩

/-- C19, on the input `"`, line return, `"1` and on `"a`, line return, `b"`, line
return, `1`: the token `1` gets the line 1, resp. 2, where one, resp. two line
returns precede it; a line return inside a string literal is consumed by
`makeStringToken`, which leaves the line counter alone. -/
theorem buildTokens_line_in_string (E : GoEnv) :
    buildTokens E 10 "\"\n\"1".toList
        = done [⟨stringToken, "\n", 1, 1⟩, ⟨intToken, "1", 1, 2⟩] ∧
      buildTokens E 10 "\"a\nb\"\n1".toList
        = done [⟨stringToken, "a\nb", 1, 1⟩, ⟨intToken, "1", 2, 1⟩] :=
  ⟨buildTokens_eval E 10 _ _ (by decide!) (by decide!),
    buildTokens_eval E 10 _ _ (by decide!) (by decide!)⟩

/-- C16, the lexer is total: an iteration of the loop of `buildTokens` that starts
before the end of the input returns or panics, and when it returns the cursor has
moved forward by at least one position and not beyond the end of the input; with
more iterations allowed than the input has characters `buildTokens` returns a
token sequence or panics; when it returns a token sequence, the loop has
reached a state whose cursor is the length of the input; and the three inner
loops (over the digits, the letters and the characters of a quoted text) stop
because their condition fails, within their budget of `len(s) + 1` tests. -/
theorem buildTokens_total (E : GoEnv) (s : List Char) :
    (∀ st : LexState, lexStep E s st ≠ .outOfFuel) ∧
    (∀ st st' : LexState, st.cursor < s.length → lexStep E s st = done st' →
      st.cursor < st'.cursor ∧ st'.cursor ≤ s.length) ∧
    (∀ fuel : Nat, s.length < fuel →
      (∃ toks, buildTokens E fuel s = done toks) ∨ (∃ p, buildTokens E fuel s = .panic p)) ∧
    (∀ (fuel : Nat) (toks : List token), buildTokens E fuel s = done toks →
      ∃ n st, LexReach E s n st ∧ st.cursor = s.length ∧ st.tokens = toks) ∧
    (∀ c : Nat,
      isDigit E (safeGetCurrentRune s
        (loopWhile (fun e => isDigit E (safeGetCurrentRune s e)) (s.length + 1) c)) = false ∧
      isLetter E (safeGetCurrentRune s
        (loopWhile (fun e => isLetter E (safeGetCurrentRune s e)) (s.length + 1) c)) = false ∧
      (fun e => safeGetCurrentRune s e != '"' && !hasConsumedAllRunes s e)
        (loopWhile (fun e => safeGetCurrentRune s e != '"' && !hasConsumedAllRunes s e)
          (s.length + 1) c) = false) := by
  refine ⟨lexStep_ne_outOfFuel E s, fun st st' => lexStep_progress E s st st', ?_, ?_,
    fun c => ⟨?_, ?_, ?_⟩⟩
  rotate_left 2
  · exact loopWhile_exit (fun e => isDigit E (safeGetCurrentRune s e)) s.length
      (isDigit_cond_end E s) (s.length + 1) c (by omega)
  · exact loopWhile_exit (fun e => isLetter E (safeGetCurrentRune s e)) s.length
      (isLetter_cond_end E s) (s.length + 1) c (by omega)
  · exact loopWhile_exit (fun e => safeGetCurrentRune s e != '"' && !hasConsumedAllRunes s e)
      s.length (string_cond_end s) (s.length + 1) c (by omega)
  · intro fuel hf
    have h := buildTokensLoop_terminates E s fuel LexState.init (Nat.zero_le _)
      (by simpa [LexState.init] using hf)
    unfold buildTokens
    cases hb : buildTokensLoop E s fuel LexState.init with
    | done toks => exact Or.inl ⟨toks, rfl⟩
    | panic p => exact Or.inr ⟨p, rfl⟩
    | outOfFuel => exact absurd hb h
  · intro fuel toks h
    exact buildTokensLoop_done E s fuel 0 LexState.init toks .start (Nat.zero_le _) h

theorem buildTokens_total_witness :
    (∃ toks, buildTokens latin1Env 4 "[1]".toList = done toks) ∨
      (∃ p, buildTokens latin1Env 4 "[1]".toList = .panic p) :=
  (buildTokens_total latin1Env "[1]".toList).2.2.1 4 (by decide)

/-- C18, the parser cursor never moves backward: at a cursor `i` before the end of
the token sequence `t`, each of `parseInteger`, `parseFloat`, `parseBoolean`,
`parseString`, `parseNil`, `parseArray`, `parseObject` and `parseJSONValue` that
returns, returns a cursor between `i` and the length of `t`, the cursor `i` itself
when the value is an error, and a value that is not an error when the cursor is
beyond `i`. A no-match is the return of the cursor `i` with `nil`. -/
theorem recognizers_cursor (E : GoEnv) (fuel : Nat) (t : List token) (i : Nat)
    (hi : i < t.length) :
    (∀ r, parseInteger t i = done r → CursorOK t i r) ∧
    (∀ r, parseFloat E t i = done r → CursorOK t i r) ∧
    (∀ r, parseBoolean t i = done r → CursorOK t i r) ∧
    (∀ r, parseString t i = done r → CursorOK t i r) ∧
    (∀ r, parseNil t i = done r → CursorOK t i r) ∧
    (∀ r, parseArray E fuel t i = done r → CursorOK t i r) ∧
    (∀ r, parseObject E fuel t i = done r → CursorOK t i r) ∧
    (∀ r, parseJSONValue E fuel t i = done r → CursorOK t i r) :=
  ⟨fun r => parseInteger_cursor t i r hi, fun r => parseFloat_cursor E t i r hi,
    fun r => parseBoolean_cursor t i r hi, fun r => parseString_cursor t i r hi,
    fun r => parseNil_cursor t i r hi,
    fun r => (parser_cursor E fuel).2.1 t i r hi,
    fun r => (parser_cursor E fuel).2.2.2.1 t i r hi,
    fun r => (parser_cursor E fuel).2.2.2.2 t i r⟩

theorem recognizers_cursor_witness :
    0 < [(⟨symbolToken, "[", 1, -1⟩ : token), ⟨intToken, "1", 1, 0⟩,
        ⟨symbolToken, "]", 1, 1⟩].length ∧
      CursorOK [⟨symbolToken, "[", 1, -1⟩, ⟨intToken, "1", 1, 0⟩, ⟨symbolToken, "]", 1, 1⟩] 0
        (3, .slice [.int 1]) ∧
      CursorOK [⟨symbolToken, "[", 1, -1⟩, ⟨intToken, "1", 1, 0⟩, ⟨symbolToken, "]", 1, 1⟩] 0
        (0, .nil) :=
  ⟨by decide,
    (recognizers_cursor latin1Env 20 _ 0 (by decide)).2.2.2.2.2.2.2 _
      (eq_of_resultBeq _ _ (by decide!)),
    (recognizers_cursor latin1Env 20 _ 0 (by decide)).1 _
      (eq_of_resultBeq _ _ (by decide!))⟩

/-- C20, the claim does not hold at `1.`: the longest text at cursor 0 that is an
optional `-`, ASCII digits and optionally a `.` with ASCII digits after it is
`1`, and `makeNumberToken` panics instead of returning the Integer token `1`. -/
theorem makeNumberToken_digits_then_dot :
    makeNumberToken latin1Env ([] ++ numberLiteral false ['1'] [] ++ ['.']) 0
      = .panic (.str "couldn't parse float") := by
  decide!

/-- C20, amended: where the input holds, at the cursor, an optional `-`, one or more
ASCII digits and optionally a `.` followed by one or more ASCII digits, where no
digit in the sense of `unicode.IsDigit` follows this literal and, when it has no
fractional part, no `.` follows it either, `makeNumberToken` returns the cursor
just past the literal and a token whose text is the literal and whose kind is
Float when the fractional part is present and Integer otherwise. -/
theorem makeNumberToken_literal (E : GoEnv) (pre rest : List Char) (neg : Bool)
    (ds fs : List Char) (hds : ds ≠ []) (hd : ∀ d ∈ ds, isAsciiDigit d = true)
    (hf : ∀ d ∈ fs, isAsciiDigit d = true)
    (hrest : ∀ d, rest.head? = some d → isDigit E d = false)
    (hdot : fs = [] → rest.head? ≠ some '.') :
    makeNumberToken E (pre ++ numberLiteral neg ds fs ++ rest) pre.length
      = done (pre.length + (numberLiteral neg ds fs).length,
          some ⟨if fs = [] then intToken else floatToken,
            String.mk (numberLiteral neg ds fs), 0, 0⟩) :=
  makeNumberToken_of_literal E pre rest neg ds fs hds hd hf hrest hdot

theorem makeNumberToken_literal_witness :
    makeNumberToken latin1Env ("[".toList ++ numberLiteral true "3".toList "25".toList
        ++ "]".toList) 1
      = done (6, some ⟨floatToken, "-3.25", 0, 0⟩) ∧
    makeNumberToken latin1Env ([] ++ numberLiteral false "42".toList [] ++ []) 0
      = done (2, some ⟨intToken, "42", 0, 0⟩) :=
  ⟨makeNumberToken_literal latin1Env "[".toList "]".toList true "3".toList "25".toList
      (by decide) (by decide) (by decide) (by decide) (by decide),
    makeNumberToken_literal latin1Env [] [] false "42".toList [] (by decide) (by decide)
      (by decide) (by decide) (by decide)⟩

/-- C13, the empty array and the empty object: whatever white space characters (in
the sense of `unicode.IsSpace`, which holds the blank, the tab and the line
returns) stand before, between and after the two symbols, `Parse` returns the
empty slice for `[` `]` and the empty map for `{` `}`, both with a nil
error, once it may run five steps more than there are such characters. -/
theorem Parse_empty_array_object (E : GoEnv) (ws1 ws2 ws3 : List Char)
    (h1 : ∀ c ∈ ws1, isSpace c = true) (h2 : ∀ c ∈ ws2, isSpace c = true)
    (h3 : ∀ c ∈ ws3, isSpace c = true) (fuel : Nat)
    (hf : ws1.length + ws2.length + ws3.length + 5 ≤ fuel) :
    Parse E fuel (String.mk (ws1 ++ '[' :: (ws2 ++ ']' :: ws3))) = done (.slice [], none) ∧
    Parse E fuel (String.mk (ws1 ++ '\x7b' :: (ws2 ++ '\x7d' :: ws3)))
      = done (.map [], none) :=
  Parse_empty_of_spaces E ws1 ws2 ws3 h1 h2 h3 fuel hf

theorem Parse_empty_array_object_witness :
    Parse latin1Env 8 " [\n]\t" = done (.slice [], none) ∧
    Parse latin1Env 8 " \x7b\n\x7d\t" = done (.map [], none) ∧
    Parse latin1Env 5 "[]" = done (.slice [], none) ∧
    Parse latin1Env 5 "\x7b\x7d" = done (.map [], none) :=
  ⟨(Parse_empty_array_object latin1Env [' '] ['\n'] ['\t'] (by decide) (by decide)
      (by decide) 8 (by decide)).1,
    (Parse_empty_array_object latin1Env [' '] ['\n'] ['\t'] (by decide) (by decide)
      (by decide) 8 (by decide)).2,
    (Parse_empty_array_object latin1Env [] [] [] (by decide) (by decide)
      (by decide) 5 (by decide)).1,
    (Parse_empty_array_object latin1Env [] [] [] (by decide) (by decide)
      (by decide) 5 (by decide)).2⟩

/-- C11, integers round-trip: for every `n` between `-2^63` and `2^63 - 1`, `Parse`
on the decimal rendering of `n` (a `-` when `n` is negative, then the digits of
its absolute value) returns the integer value `n` with a nil error, once it may
run two steps more than the rendering has characters. -/
theorem Parse_integer_round_trip (E : GoEnv) (n : Int) (h1 : -2 ^ 63 ≤ n) (h2 : n < 2 ^ 63)
    (fuel : Nat) (hf : (renderInt n).length + 2 ≤ fuel) :
    Parse E fuel (String.mk (renderInt n)) = done (.int n, none) :=
  Parse_renderInt E n h1 h2 fuel hf

theorem Parse_integer_round_trip_witness :
    renderInt 42 = "42".toList ∧ Parse latin1Env 4 "42" = done (.int 42, none) ∧
    renderInt (-7) = "-7".toList ∧ Parse latin1Env 4 "-7" = done (.int (-7), none) := by
  have h42 : renderInt 42 = "42".toList := by decide
  have h7 : renderInt (-7) = "-7".toList := by decide
  have p42 := Parse_integer_round_trip latin1Env 42 (by decide) (by decide) 4 (by decide)
  have p7 := Parse_integer_round_trip latin1Env (-7) (by decide) (by decide) 4 (by decide)
  rw [h42] at p42
  rw [h7] at p7
  exact ⟨h42, p42, h7, p7⟩

/-- C12, duplicate keys overwrite: for the object document
`{k1:v1,...,kn:vn}` whose keys are quoted texts without an inner quote and
whose values are signed 64-bit integers, booleans or `null`, `Parse` returns with
a nil error the map in which the properties are set one after the other; the
keys of this map are the keys `ki`, each once, and the map gives each key the
value of its last property. -/
theorem Parse_duplicate_keys (E : GoEnv) (ps : List (String × Scalar))
    (hk : ∀ p ∈ ps, '"' ∉ p.1.toList) (hr : ∀ p ∈ ps, p.2.inRange) (fuel : Nat)
    (hf : (renderObject ps).length + ps.length + 5 ≤ fuel) :
    Parse E fuel (String.mk (renderObject ps)) = done (.map (setAll [] ps), none) ∧
    ((setAll [] ps).map Prod.fst).Nodup ∧
    (∀ k, k ∈ (setAll [] ps).map Prod.fst ↔ k ∈ ps.map Prod.fst) ∧
    (∀ k, mapGet (setAll [] ps) k = (lastValue ps k).map Scalar.toAny) := by
  obtain ⟨h1, h2, h3⟩ := setAll_spec ps []
  refine ⟨Parse_renderObject E ps hk hr fuel hf, h2 List.nodup_nil, fun k => ?_, fun k => ?_⟩
  · rw [h1 k]
    simp
  · rw [h3 k]
    cases lastValue ps k <;> rfl

theorem Parse_duplicate_keys_witness :
    renderObject [("a", .int 1), ("a", .int 2)] = "\x7b\"a\":1,\"a\":2\x7d".toList ∧
    setAll [] [("a", .int 1), ("a", .int 2)] = [("a", .int 2)] ∧
    Parse latin1Env 20 "\x7b\"a\":1,\"a\":2\x7d" = done (.map [("a", .int 2)], none) := by
  have hrender : renderObject [("a", .int 1), ("a", .int 2)]
      = "\x7b\"a\":1,\"a\":2\x7d".toList := by decide
  have hset : setAll [] [("a", .int 1), ("a", .int 2)] = [("a", .int 2)] := by
    simp [setAll, mapSet, Scalar.toAny]
  have h := (Parse_duplicate_keys latin1Env [("a", .int 1), ("a", .int 2)]
    (by decide)
    (by
      intro p hp
      simp only [List.mem_cons, List.mem_singleton, List.not_mem_nil, or_false] at hp
      rcases hp with rfl | rfl <;> exact ⟨by decide, by decide⟩)
    20 (by rw [hrender]; decide)).1
  rw [hrender, hset] at h
  exact ⟨hrender, hset, h⟩

end JsonParser
